import Mathlib

/-!
Verification of the emdp CommonMark/GFM parser against its specification.

This file is a shallow embedding of the TypeScript sources of the parser:
strings are modelled as lists of Unicode scalar characters (`Str`), the
JavaScript regular expressions used by the sources are hand-translated into
deterministic character-list matchers, and the stateful parser classes become
explicit state-passing functions (recursion through sub-parsers is expressed
with an explicit fuel parameter; the fuel only caps the number of loop
iterations and sub-parser invocations, it does not change any computed value
when large enough).

Modelling conventions:
* JavaScript `string` becomes `Str := List Char`.  JavaScript strings are
  UTF-16; the model covers inputs made of Unicode scalar values (no lone
  surrogates), on which the two representations agree character by character.
* `String.prototype.toLowerCase` and the Unicode punctuation class
  `\p{P}\p{S}` are modelled exactly on the ASCII range; non-ASCII characters
  are left unchanged / classified as non-punctuation.  The theorems below do
  not depend on the classification of non-ASCII characters.
* `String.fromCodePoint` on a surrogate code point (an invalid scalar value)
  is modelled as `Char.ofNat`, which yields U+0000 for invalid scalars.
-/

namespace Emdp

/-- Strings of the JavaScript sources, modelled as lists of scalar characters. -/
abbrev Str := List Char

/-- Conversion from a Lean string literal to the model's string type. -/
def L (s : String) : Str := s.data

/-- The whitespace set of `isWhitespace` in `utils.ts`: space, tab, newline,
carriage return and form feed. -/
def isWhitespace (c : Char) : Bool :=
  c = ' ' || c = '\t' || c = '\n' || c = '\r' || c = '\x0c'

/-- The character class of the JavaScript regex `\s` (also the set trimmed by
`String.prototype.trim`). -/
def jsWs (c : Char) : Bool :=
  let n := c.toNat
  n = 0x20 || (0x9 ≤ n && n ≤ 0xd) || n = 0xa0 || n = 0x1680 ||
  (0x2000 ≤ n && n ≤ 0x200a) || n = 0x2028 || n = 0x2029 || n = 0x202f ||
  n = 0x205f || n = 0x3000 || n = 0xfeff

/-- The ASCII punctuation class of `utils.ts` (`ASCII_PUNCTUATION_REGEX`):
the four ASCII punctuation ranges. -/
def isAsciiPunctuation (c : Char) : Bool :=
  let n := c.toNat
  (0x21 ≤ n && n ≤ 0x2f) || (0x3a ≤ n && n ≤ 0x40) ||
  (0x5b ≤ n && n ≤ 0x60) || (0x7b ≤ n && n ≤ 0x7e)

/-- The Unicode whitespace test `isUnicodeWhitespace` of `utils.ts`
(JavaScript `/\s/`). -/
def isUnicodeWhitespace (c : Char) : Bool := jsWs c

/-- The Unicode punctuation-or-symbol test `isUnicodePunctuation` of
`utils.ts` (JavaScript `/[\p{P}\p{S}]/u`), modelled exactly on the ASCII
range; non-ASCII characters are classified as non-punctuation. -/
def isUnicodePunctuation (c : Char) : Bool := isAsciiPunctuation c

/-- ASCII lower-casing, modelling `toLowerCase` on the ASCII range. -/
def jsToLower (c : Char) : Char :=
  if 'A' ≤ c ∧ c ≤ 'Z' then Char.ofNat (c.toNat + 32) else c

/-- JavaScript `String.prototype.trim`. -/
def jsTrim (l : Str) : Str :=
  ((l.dropWhile jsWs).reverse.dropWhile jsWs).reverse

/-- Trimming only the trailing characters satisfying `p`. -/
def trimEndP (p : Char → Bool) (l : Str) : Str :=
  (l.reverse.dropWhile p).reverse

/-- Trailing space/tab trimming (the `[ \t]*$` parts of the line regexes). -/
def trimSpaceTabEnd (l : Str) : Str := trimEndP (fun c => c = ' ' || c = '\t') l

/-- A run of spaces, JavaScript `' '.repeat n`. -/
def spaces (n : Nat) : Str := List.replicate n ' '

/-- Decimal digit test. -/
def isDigitCh (c : Char) : Bool := '0' ≤ c && c ≤ '9'

/-- Hexadecimal digit test (the regex class `[0-9a-fA-F]`). -/
def isHexDigitCh (c : Char) : Bool :=
  isDigitCh c || ('a' ≤ c && c ≤ 'f') || ('A' ≤ c && c ≤ 'F')

/-- ASCII letter test (the regex class `[a-zA-Z]`). -/
def isAlphaCh (c : Char) : Bool :=
  ('a' ≤ c && c ≤ 'z') || ('A' ≤ c && c ≤ 'Z')

/-- ASCII alphanumeric test (the regex class `[a-zA-Z0-9]`). -/
def isAlnumCh (c : Char) : Bool := isAlphaCh c || isDigitCh c

/-- Numeric value of one hexadecimal digit. -/
def hexDigitVal (c : Char) : Nat :=
  if isDigitCh c then c.toNat - '0'.toNat
  else if 'a' ≤ c && c ≤ 'f' then c.toNat - 'a'.toNat + 10
  else if 'A' ≤ c && c ≤ 'F' then c.toNat - 'A'.toNat + 10
  else 0

/-- Value of a decimal digit string. -/
def decVal (l : Str) : Nat :=
  l.foldl (fun acc c => acc * 10 + (c.toNat - '0'.toNat)) 0

/-- Value of a hexadecimal digit string. -/
def hexVal (l : Str) : Nat :=
  l.foldl (fun acc c => acc * 16 + hexDigitVal c) 0

/-- JavaScript `parseInt(s, 10)` restricted to the strings fed to it by the
sources: the value of the maximal leading decimal-digit run, `none` (NaN)
when there is no leading digit. -/
def jsParseIntDec (l : Str) : Option Nat :=
  let ds := l.takeWhile isDigitCh
  if ds.isEmpty then none else some (decVal ds)

/-- JavaScript `parseInt(s, 16)` restricted likewise to leading hexadecimal
digit runs. -/
def jsParseIntHex (l : Str) : Option Nat :=
  let ds := l.takeWhile isHexDigitCh
  if ds.isEmpty then none else some (hexVal ds)

/-- Case-insensitive character comparison (ASCII case folding), used for the
`i`-flagged regexes of the sources. -/
def chEqCI (a b : Char) : Bool := jsToLower a = jsToLower b

/-- Case-insensitive test whether `l` starts with `p`. -/
def startsWithCI : Str → Str → Bool
  | _, [] => true
  | [], _ :: _ => false
  | c :: l, p :: ps => chEqCI c p && startsWithCI l ps

/-- Case-sensitive test whether `l` starts with `p` (JavaScript `startsWith`). -/
def startsWith : Str → Str → Bool
  | _, [] => true
  | [], _ :: _ => false
  | c :: l, p :: ps => (c = p) && startsWith l ps

/-- JavaScript `String.prototype.includes` for a single character. -/
def containsCh (l : Str) (c : Char) : Bool := l.contains c

/-- The column width contributed by the tab stop: `utils.ts` computes
`4 - (col % 4)` at several places. -/
def tabWidthAt (col : Nat) : Nat := 4 - col % 4

/-- The helper `expandRestOfLine` of `utils.ts`: expand every tab of the rest
of the line into spaces, tracking the current column. -/
def expandRestOfLine : Str → Nat → Str
  | [], _ => []
  | c :: rest, column =>
    if c = '\t' then
      spaces (tabWidthAt column) ++ expandRestOfLine rest (column + tabWidthAt column)
    else
      c :: expandRestOfLine rest (column + 1)

/-- The consumption loop of `removeIndent` in `utils.ts`, with the running
count of removed columns made explicit. -/
def removeIndentGo : Str → Nat → Nat → Str
  | [], _, _ => []
  | line@(c :: rest), removed, indent =>
    if removed < indent then
      if c = ' ' then
        removeIndentGo rest (removed + 1) indent
      else if c = '\t' then
        let tabWidth := tabWidthAt removed
        if removed + tabWidth ≤ indent then
          removeIndentGo rest (removed + tabWidth) indent
        else
          let remaining := indent - removed
          let spacesFromTab := tabWidth - remaining
          spaces spacesFromTab ++ expandRestOfLine rest (removed + tabWidth)
      else line
    else line

/-- `removeIndent(line, indent)` of `utils.ts`: consume `indent` columns of
leading whitespace with a 4-column tab stop. -/
def removeIndent (line : Str) (indent : Nat) : Str :=
  removeIndentGo line 0 indent

/-- `normalizeLineEndings` of `utils.ts`: JavaScript `replace(/\r\n?/g, "\n")`. -/
def normalizeLineEndings : Str → Str
  | [] => []
  | '\r' :: '\n' :: rest => '\n' :: normalizeLineEndings rest
  | '\r' :: rest => '\n' :: normalizeLineEndings rest
  | c :: rest => c :: normalizeLineEndings rest

/-- JavaScript `split("\n")` on the model's strings. -/
def splitLines : Str → List Str
  | [] => [[]]
  | '\n' :: rest => [] :: splitLines rest
  | c :: rest =>
    match splitLines rest with
    | l :: ls => (c :: l) :: ls
    | [] => [[c]]

/-- JavaScript `join("\n")`. -/
def joinLines : List Str → Str
  | [] => []
  | [l] => l
  | l :: ls => l ++ '\n' :: joinLines ls

/-- The indentation computation `getIndent` (and `parseLine`) of the block
parsers: leading columns with a 4-column tab stop. -/
def getIndentGo : Str → Nat → Nat
  | [], ind => ind
  | c :: rest, ind =>
    if c = ' ' then getIndentGo rest (ind + 1)
    else if c = '\t' then getIndentGo rest (ind + tabWidthAt ind)
    else ind

/-- Leading indentation in columns of a raw line. -/
def getIndent (l : Str) : Nat := getIndentGo l 0

/-- `unescapeString` of `utils.ts`: JavaScript `replace(/\\([punct])/g, "$1")`
where `punct` is the ASCII punctuation class. -/
def unescapeString : Str → Str
  | [] => []
  | '\\' :: c :: rest =>
    if isAsciiPunctuation c then c :: unescapeString rest
    else '\\' :: unescapeString (c :: rest)
  | c :: rest => c :: unescapeString rest

/-- The collapse step of `normalizeLabel`: JavaScript
`replace(/[ \t\r\n]+/g, " ")`. -/
def isLabelWsCh (c : Char) : Bool := c = ' ' || c = '\t' || c = '\r' || c = '\n'

/-- Collapse runs of space, tab, CR and LF to a single space; the flag
records whether the previous character was part of a whitespace run. -/
def collapseRunsGo : Str → Bool → Str
  | [], _ => []
  | c :: rest, inRun =>
    if isLabelWsCh c then
      (if inRun then collapseRunsGo rest true else ' ' :: collapseRunsGo rest true)
    else c :: collapseRunsGo rest false

/-- Collapse runs of space, tab, CR and LF to a single space. -/
def collapseRuns (l : Str) : Str := collapseRunsGo l false

/-- The `U+1E9E → ss` step of `normalizeLabel`. -/
def replaceCapitalSharpS : Str → Str
  | [] => []
  | c :: rest =>
    if c = 'ẞ' then 's' :: 's' :: replaceCapitalSharpS rest
    else c :: replaceCapitalSharpS rest

/-- `normalizeLabel` of `utils.ts`: trim, collapse interior whitespace runs,
replace `U+1E9E` by `ss`, lower-case. -/
def normalizeLabel (label : Str) : Str :=
  (replaceCapitalSharpS (collapseRuns (jsTrim label))).map jsToLower

/-- One lookahead test of `escapeHtml`'s `&(?![#a-zA-Z0-9]+;)` regex: does the
string start with a non-empty `[#a-zA-Z0-9]` run followed by `;`. -/
def looksLikeEntityTail (l : Str) : Bool :=
  let run := l.takeWhile (fun c => c = '#' || isAlnumCh c)
  !run.isEmpty && (l.drop run.length).head? = some ';'

/-- `escapeXml` of `utils.ts`: escape `&`, `<`, `>`, `"`. -/
def escapeXml : Str → Str
  | [] => []
  | c :: rest =>
    if c = '&' then L "&amp;" ++ escapeXml rest
    else if c = '<' then L "&lt;" ++ escapeXml rest
    else if c = '>' then L "&gt;" ++ escapeXml rest
    else if c = '"' then L "&quot;" ++ escapeXml rest
    else c :: escapeXml rest

/-- The entity-preserving variant used by `escapeHtml` when
`preserveEntities` is set: an `&` already opening an entity-like sequence is
kept. -/
def escapeHtmlPreserve : Str → Str
  | [] => []
  | c :: rest =>
    if c = '&' then
      (if looksLikeEntityTail rest then '&' :: escapeHtmlPreserve rest
       else L "&amp;" ++ escapeHtmlPreserve rest)
    else if c = '<' then L "&lt;" ++ escapeHtmlPreserve rest
    else if c = '>' then L "&gt;" ++ escapeHtmlPreserve rest
    else if c = '"' then L "&quot;" ++ escapeHtmlPreserve rest
    else c :: escapeHtmlPreserve rest

/-- `escapeHtml` of `utils.ts`. -/
def escapeHtml (l : Str) (preserveEntities : Bool := false) : Str :=
  if preserveEntities then escapeHtmlPreserve l else escapeXml l

/-- Modelled from the spec: the static table of named HTML entities
(`entities.js`) is an external collaborator not contained in the sources
("implementer supplies the standard WHATWG table").  We model a representative
fragment of that table; the theorems below depend only on membership or
non-membership of concrete names. -/
def HTML_ENTITIES : List (Str × Str) :=
  [ (L "amp", L "&"), (L "AMP", L "&"), (L "lt", L "<"), (L "gt", L ">"),
    (L "quot", L "\""), (L "apos", L "'"), (L "nbsp", L " "),
    (L "copy", L "©"), (L "AElig", L "Æ"), (L "auml", L "ä"),
    (L "ouml", L "ö"), (L "frac34", L "¾"), (L "Dcaron", L "Ď") ]

/-- Lookup in the named-entity table. -/
def lookupEntity (name : Str) : Option Str :=
  (HTML_ENTITIES.find? (fun p => p.1 = name)).map (·.2)

/-- Match the entity regex `&(#[xX]?[0-9a-fA-F]+|[a-zA-Z][a-zA-Z0-9]*);` of
`decodeHtmlEntities` at the start of the string, returning the capture group
and the total match length. -/
def matchEntityAt (l : Str) : Option (Str × Nat) :=
  match l with
  | '&' :: '#' :: c :: rest =>
    if (c = 'x' || c = 'X') && (match rest.head? with
        | some d => isHexDigitCh d
        | none => false) then
      let ds := rest.takeWhile isHexDigitCh
      if (rest.drop ds.length).head? = some ';' then
        some ('#' :: c :: ds, ds.length + 4)
      else none
    else if isHexDigitCh c then
      let ds := (c :: rest).takeWhile isHexDigitCh
      if ((c :: rest).drop ds.length).head? = some ';' then
        some ('#' :: ds, ds.length + 3)
      else none
    else none
  | '&' :: c :: rest =>
    if isAlphaCh c then
      let run := rest.takeWhile isAlnumCh
      if (rest.drop run.length).head? = some ';' then
        some (c :: run, run.length + 3)
      else none
    else none
  | _ => none

/-- The replacement callback of `decodeHtmlEntities` in `utils.ts`: `some`
is the decoded replacement, `none` means the match is left as it stands. -/
def decodeEntityCallback (capture : Str) : Option Str :=
  if startsWith capture (L "#x") || startsWith capture (L "#X") then
    match jsParseIntHex (capture.drop 2) with
    | some code =>
      if code ≤ 0x10ffff then
        (if code = 0 then some (L "�") else some [Char.ofNat code])
      else none
    | none => none
  else if startsWith capture (L "#") then
    match jsParseIntDec (capture.drop 1) with
    | some code =>
      if code ≤ 0x10ffff then
        (if code = 0 then some (L "�") else some [Char.ofNat code])
      else none
    | none => none
  else
    match lookupEntity capture with
    | some v => if v.isEmpty then none else some v
    | none => none

theorem matchEntityAt_len_pos {l : Str} {cap : Str} {len : Nat}
    (h : matchEntityAt l = some (cap, len)) : 0 < len := by
  unfold matchEntityAt at h
  repeat' split at h
  all_goals simp_all
  all_goals omega

/-- The scanning loop of `decodeHtmlEntities`: JavaScript global `replace`
scans left to right for non-overlapping matches.  The fuel only caps the
iteration count: every iteration consumes at least one character
(`matchEntityAt_len_pos`), so the caller's `length + 1` always suffices. -/
def decodeHtmlEntitiesGo : Nat → Str → Str
  | 0, l => l
  | _, [] => []
  | fuel + 1, c :: rest =>
    match matchEntityAt (c :: rest) with
    | some (capture, len) =>
      (match decodeEntityCallback capture with
       | some repl => repl
       | none => (c :: rest).take len) ++ decodeHtmlEntitiesGo fuel ((c :: rest).drop len)
    | none => c :: decodeHtmlEntitiesGo fuel rest

/-- `decodeHtmlEntities` of `utils.ts`. -/
def decodeHtmlEntities (l : Str) : Str := decodeHtmlEntitiesGo (l.length + 1) l

/-- Match the bounded entity regex of `entity.ts`
(`^&(?:#[xX][0-9a-fA-F]{1,6}|#[0-9]{1,7}|[a-zA-Z][a-zA-Z0-9]{0,31});`),
returning the match length. -/
def matchEntityRegexBounded (l : Str) : Option Nat :=
  match l with
  | '&' :: '#' :: c :: rest =>
    if c = 'x' || c = 'X' then
      let ds := rest.takeWhile isHexDigitCh
      if 1 ≤ ds.length && ds.length ≤ 6 && (rest.drop ds.length).head? = some ';' then
        some (ds.length + 4)
      else none
    else
      let ds := (c :: rest).takeWhile isDigitCh
      if 1 ≤ ds.length && ds.length ≤ 7 && ((c :: rest).drop ds.length).head? = some ';' then
        some (ds.length + 3)
      else none
  | '&' :: c :: rest =>
    if isAlphaCh c then
      let run := rest.takeWhile isAlnumCh
      if run.length ≤ 31 && (rest.drop run.length).head? = some ';' then
        some (run.length + 3)
      else none
    else none
  | _ => none

/-- `parseEntity` of `entity.ts`: decode a bounded entity at `pos`; if the
decoder left the text unchanged the parse fails and the text stays literal. -/
def parseEntity (text : Str) (pos : Nat) : Option (Str × Nat) :=
  if text.get? pos ≠ some '&' then none
  else
    let remaining := text.drop pos
    match matchEntityRegexBounded remaining with
    | none => none
    | some len =>
      let entity := remaining.take len
      let decoded := decodeHtmlEntities entity
      if decoded = entity then none
      else some (decoded, len)

/-- The apostrophe character, written by code point. -/
def squote : Char := Char.ofNat 39

/-- The backtick character, written by code point. -/
def btick : Char := Char.ofNat 96

/-- A stored link reference definition (`LinkReferenceDefinition` of
`types.ts`). -/
structure LinkReferenceDefinition where
  destination : Str
  title : Str
deriving DecidableEq, Repr

/-- A successful parse of a link reference definition (`LinkRefResult` of
`link-reference.ts`). -/
structure LinkRefResult where
  label : Str
  definition : LinkReferenceDefinition
  consumed : Nat
deriving DecidableEq, Repr

/-- Body items of the link-label regex `((?:[^\[\]\\]|\\.){0,999})`: consume
up to `budget` items, each a non-bracket non-backslash character or a
backslash escape of a non-newline character, returning the consumed raw text
and the remaining input. -/
def linkLabelItemsGo : Str → Nat → Str × Str
  | l, 0 => ([], l)
  | [], _ => ([], [])
  | '\\' :: c :: rest, budget + 1 =>
    if c ≠ '\n' then
      let (raw, r) := linkLabelItemsGo rest budget
      ('\\' :: c :: raw, r)
    else ([], '\\' :: c :: rest)
  | c :: rest, budget + 1 =>
    if c ≠ '[' ∧ c ≠ ']' ∧ c ≠ '\\' then
      let (raw, r) := linkLabelItemsGo rest budget
      (c :: raw, r)
    else ([], c :: rest)

/-- Match `LINK_LABEL_REGEX` (`^\[((?:[^\[\]\\]|\\.){0,999})\]`) at the start
of the string, returning the capture and the full match length. -/
def matchLinkLabel (l : Str) : Option (Str × Nat) :=
  match l with
  | '[' :: rest =>
    let (raw, r) := linkLabelItemsGo rest 999
    match r.head? with
    | some ']' => some (raw, raw.length + 2)
    | _ => none
  | _ => none

/-- Body items of the angle-bracket destination regex `([^<>\n\\]|\\.)*`. -/
def angleItemsGo : Str → Str × Str
  | '\\' :: c :: rest =>
    if c ≠ '\n' then
      let (raw, r) := angleItemsGo rest
      ('\\' :: c :: raw, r)
    else ([], '\\' :: c :: rest)
  | c :: rest =>
    if c ≠ '<' ∧ c ≠ '>' ∧ c ≠ '\n' ∧ c ≠ '\\' then
      let (raw, r) := angleItemsGo rest
      (c :: raw, r)
    else ([], c :: rest)
  | [] => ([], [])

/-- Match `LINK_DESTINATION_ANGLE_REGEX` (`^<([^<>\n\\]|\\.)*>`), returning
the raw content between the brackets and the full match length. -/
def matchAngleDest (l : Str) : Option (Str × Nat) :=
  match l with
  | '<' :: rest =>
    let (raw, r) := angleItemsGo rest
    match r.head? with
    | some '>' => some (raw, raw.length + 2)
    | _ => none
  | _ => none

/-- The run matched by `LINK_DESTINATION_BARE_REGEX`
(`^[^\s<\[\]]*(?:\([^\s<\[\]]*\)[^\s<\[\]]*)*[^\s<\[\]]*`): since the
character class admits parentheses, the whole regex matches exactly the
longest run of characters that are neither whitespace nor `<`, `[`, `]`. -/
def bareDestRun (l : Str) : Str :=
  l.takeWhile (fun c => !(jsWs c) && c ≠ '<' && c ≠ '[' && c ≠ ']')

/-- Body items of the title regexes: a character outside `stops` and distinct
from backslash, or a backslash escape of any character. -/
def titleItemsGo (stops : List Char) : Str → Str × Str
  | '\\' :: c :: rest =>
    let (raw, r) := titleItemsGo stops rest
    ('\\' :: c :: raw, r)
  | c :: rest =>
    if !(stops.contains c) && c ≠ '\\' then
      let (raw, r) := titleItemsGo stops rest
      (c :: raw, r)
    else ([], c :: rest)
  | [] => ([], [])

/-- Match a delimited title, returning the capture and the full match
length.  `openCh`/`closeCh` are the delimiters and `stops` the characters the
body may not contain unescaped. -/
def matchDelimTitle (openCh closeCh : Char) (stops : List Char) (l : Str) :
    Option (Str × Nat) :=
  match l with
  | c :: rest =>
    if c = openCh then
      let (raw, r) := titleItemsGo stops rest
      match r.head? with
      | some d => if d = closeCh then some (raw, raw.length + 2) else none
      | none => none
    else none
  | [] => none

/-- Match `LINK_TITLE_DOUBLE_REGEX` (`^"((?:[^"\\]|\\[\s\S])*)"`). -/
def matchTitleDouble (l : Str) : Option (Str × Nat) :=
  matchDelimTitle '"' '"' ['"'] l

/-- Match `LINK_TITLE_SINGLE_REGEX` (`^'((?:[^'\\]|\\[\s\S])*)'`). -/
def matchTitleSingle (l : Str) : Option (Str × Nat) :=
  matchDelimTitle squote squote [squote] l

/-- Match `LINK_TITLE_PAREN_REGEX` (`^\(((?:[^()\\]|\\[\s\S])*)\)`). -/
def matchTitleParen (l : Str) : Option (Str × Nat) :=
  matchDelimTitle '(' ')' ['(', ')'] l

/-- Length matched by `^[ \t]*\n?[ \t]*` (the `beforeDest` regex). -/
def wsNlWsLen (l : Str) : Nat :=
  let a := (l.takeWhile (fun c => c = ' ' || c = '\t')).length
  match (l.drop a).head? with
  | some '\n' => a + 1 + ((l.drop (a + 1)).takeWhile (fun c => c = ' ' || c = '\t')).length
  | _ => a

/-- Length matched by `^[ \t]*(?:\n|$)`, or `none` when the line does not end
there. -/
def matchWsToEol (l : Str) : Option Nat :=
  let a := (l.takeWhile (fun c => c = ' ' || c = '\t')).length
  match (l.drop a).head? with
  | some '\n' => some (a + 1)
  | none => some a
  | some _ => none

/-- Length matched by `^[ \t]*\n[ \t]*` (the `newlineBeforeTitle` regex), or
`none`. -/
def matchWsNlWs (l : Str) : Option Nat :=
  let a := (l.takeWhile (fun c => c = ' ' || c = '\t')).length
  match (l.drop a).head? with
  | some '\n' => some (a + 1 + ((l.drop (a + 1)).takeWhile (fun c => c = ' ' || c = '\t')).length)
  | _ => none

/-- The `tryMatchTitle` closure of `parseLinkReferenceDefinition`: match one
of the three title forms at `titlePos` followed by `[ \t]*(?:\n|$)`,
returning the raw title capture and the position after the trailing run. -/
def tryMatchTitle (text : Str) (titlePos : Nat) : Option (Str × Nat) :=
  let remaining := text.drop titlePos
  let titleMatch :=
    match matchTitleDouble remaining with
    | some m => some m
    | none =>
      match matchTitleSingle remaining with
      | some m => some m
      | none => matchTitleParen remaining
  match titleMatch with
  | some (titleRaw, len) =>
    let afterTitlePos := titlePos + len
    match matchWsToEol (text.drop afterTitlePos) with
    | some k => some (titleRaw, afterTitlePos + k)
    | none => none
  | none => none

/-- `parseLinkReferenceDefinition` of `link-reference.ts`. -/
def parseLinkReferenceDefinition (text : Str) : Option LinkRefResult :=
  let indent := min ((text.takeWhile (· = ' ')).length) 3
  let pos := indent
  match matchLinkLabel (text.drop pos) with
  | none => none
  | some (rawLabel, labelLen) =>
    if jsTrim rawLabel = [] then none
    else
      let pos := pos + labelLen
      if text.get? pos ≠ some ':' then none
      else
        let pos := pos + 1
        let pos := pos + wsNlWsLen (text.drop pos)
        let destParse : Option (Str × Nat) :=
          match matchAngleDest (text.drop pos) with
          | some (raw, len) => some (raw, len)
          | none =>
            let bare := bareDestRun (text.drop pos)
            if bare = [] then none else some (bare, bare.length)
        match destParse with
        | none => none
        | some (destRaw, destLen) =>
          let pos := pos + destLen
          let afterSpace :=
            let run := ((text.drop pos).takeWhile (fun c => c = ' ' || c = '\t')).length
            if run ≥ 1 then tryMatchTitle text (pos + run) else none
          match afterSpace with
          | some (titleRaw, endPos) =>
            some { label := normalizeLabel (unescapeString rawLabel)
                   definition :=
                     { destination := decodeHtmlEntities (unescapeString destRaw)
                       title := decodeHtmlEntities (unescapeString titleRaw) }
                   consumed := endPos }
          | none =>
            let afterNl :=
              match matchWsNlWs (text.drop pos) with
              | some k => tryMatchTitle text (pos + k)
              | none => none
            match afterNl with
            | some (titleRaw, endPos) =>
              some { label := normalizeLabel (unescapeString rawLabel)
                     definition :=
                       { destination := decodeHtmlEntities (unescapeString destRaw)
                         title := decodeHtmlEntities (unescapeString titleRaw) }
                     consumed := endPos }
            | none =>
              match matchWsToEol (text.drop pos) with
              | some k =>
                some { label := normalizeLabel (unescapeString rawLabel)
                       definition :=
                         { destination := decodeHtmlEntities (unescapeString destRaw)
                           title := [] }
                       consumed := pos + k }
              | none => none

/-- Leading spaces consumed by the `^( {0,3})` idiom of the line regexes. -/
def lead3 (line : Str) : Nat := min ((line.takeWhile (· = ' ')).length) 3

/-- Space-or-tab test (the regex class `[ \t]`). -/
def isSpTab (c : Char) : Bool := c = ' ' || c = '\t'

/-- `isThematicBreak` of `thematic-break.ts`
(`^( {0,3})([-*_])(?:[ \t]*\2){2,}[ \t]*$`): after up to three spaces the
line consists solely of one marker character interleaved with spaces and
tabs, with at least three marker occurrences. -/
def isThematicBreak (line : Str) : Bool :=
  let rest := line.drop (lead3 line)
  match rest.head? with
  | some c =>
    (c = '-' || c = '*' || c = '_') &&
    rest.all (fun d => d = c || isSpTab d) &&
    rest.count c ≥ 3
  | none => false

/-- `getSetextLevel` of `heading-setext.ts`
(`^( {0,3})(=+|-+)[ \t]*$`). -/
def getSetextLevel (line : Str) : Option Nat :=
  let rest := line.drop (lead3 line)
  match rest.head? with
  | some c =>
    if c = '=' || c = '-' then
      (if (rest.dropWhile (· = c)).all isSpTab then
        some (if c = '=' then 1 else 2)
      else none)
    else none
  | none => none

/-- The inline regex `^ {0,3}-+[ \t]*$` of the block parsers (the setext `-`
underline test inside the thematic-break branch). -/
def matchDashUnderline (line : Str) : Bool :=
  let rest := line.drop (lead3 line)
  match rest.head? with
  | some '-' => (rest.dropWhile (· = '-')).all isSpTab
  | _ => false

/-- The inline regex `^ {0,3}=+[ \t]*$` of the block parsers (the setext `=`
underline branch). -/
def matchEqualsUnderline (line : Str) : Bool :=
  let rest := line.drop (lead3 line)
  match rest.head? with
  | some '=' => (rest.dropWhile (· = '=')).all isSpTab
  | _ => false

/-- The trailing-hash strip of `parseAtxHeading`
(`replace(/[ \t]+#+[ \t]*$/, "")`). -/
def stripTrailingHashes (content : Str) : Str :=
  let r := content.reverse
  let r1 := r.dropWhile isSpTab
  let r2 := r1.dropWhile (· = '#')
  if r2.length < r1.length then
    (if (match r2.head? with
         | some c => isSpTab c
         | none => false) then
      (r2.dropWhile isSpTab).reverse
    else content)
  else content

/-- `parseAtxHeading` of `heading-atx.ts`
(`^( {0,3})(#{1,6})([ \t].*|[ \t]*)$` plus trailing-hash stripping and
trimming), returning the level and content. -/
def parseAtxHeading (line : Str) : Option (Nat × Str) :=
  let rest := line.drop (lead3 line)
  let hashes := rest.takeWhile (· = '#')
  if 1 ≤ hashes.length ∧ hashes.length ≤ 6 then
    let content := rest.drop hashes.length
    match content.head? with
    | none => some (hashes.length, jsTrim (stripTrailingHashes content))
    | some c =>
      if isSpTab c then some (hashes.length, jsTrim (stripTrailingHashes content))
      else none
  else none

/-- The data of a fenced-code opening line (`FenceInfo` of
`code-block-fenced.ts`). -/
structure FenceInfo where
  indent : Nat
  ch : Char
  length : Nat
  info : Str
deriving DecidableEq, Repr

/-- `parseFenceOpen` of `code-block-fenced.ts`: the backtick form
(`^( {0,3})(\x60{3,})([^\x60]*)$`) is tried before the tilde form
(`^( {0,3})(~{3,})(.*)$`). -/
def parseFenceOpen (line : Str) : Option FenceInfo :=
  let indent := lead3 line
  let rest := line.drop indent
  let bt := rest.takeWhile (· = btick)
  if bt.length ≥ 3 ∧ !((rest.drop bt.length).contains btick) then
    some { indent := indent, ch := btick, length := bt.length
           info := jsTrim (rest.drop bt.length) }
  else
    let td := rest.takeWhile (· = '~')
    if td.length ≥ 3 then
      some { indent := indent, ch := '~', length := td.length
             info := jsTrim (rest.drop td.length) }
    else none

/-- `isFenceClose` of `code-block-fenced.ts`: after stripping up to three
leading spaces the line is a run of at least `fence.length` fence characters
followed by spaces and tabs. -/
def isFenceClose (line : Str) (fence : FenceInfo) : Bool :=
  let t := line.drop (lead3 line)
  let run := t.takeWhile (· = fence.ch)
  run.length ≥ fence.length && (t.drop run.length).all isSpTab

/-- The per-line indent strip of `createFencedCodeBlock`: remove up to
`indent` leading spaces (only spaces; a tab stops the removal). -/
def stripFenceIndent (line : Str) (indent : Nat) : Str :=
  line.drop (min ((line.takeWhile (· = ' ')).length) indent)

/-- List marker kinds. -/
inductive ListType where
  | bullet
  | ordered
deriving DecidableEq, Repr

/-- A parsed list marker (`ListMarker` of `list.ts`). -/
structure ListMarker where
  type : ListType
  indent : Nat
  indentChars : Nat
  marker : Str
  bulletChar : Option Char
  start : Option Nat
  delimiter : Option Char
  padding : Nat
  paddingChars : Nat
  contentIndent : Nat
  contentCharIndex : Nat
deriving DecidableEq, Repr

/-- The `( +|\t|$)` group of the list-marker regexes: the run of spaces, a
single tab, or end of line.  `none` when the next character is anything
else. -/
def listSpacesAfter (l : Str) : Option Str :=
  match l.head? with
  | none => some []
  | some ' ' => some (l.takeWhile (· = ' '))
  | some '\t' => some ['\t']
  | some _ => none

/-- `parseListMarker` of `list.ts`: the bullet regex
`^( {0,3})([-+*])( +|\t|$)` is tried before the ordered regex
`^( {0,3})(\d{1,9})([.)])( +|\t|$)`. -/
def parseListMarker (line : Str) : Option ListMarker :=
  let indentChars := lead3 line
  let rest := line.drop indentChars
  let bullet : Option ListMarker :=
    match rest.head? with
    | some c =>
      if c = '-' || c = '+' || c = '*' then
        match listSpacesAfter (rest.drop 1) with
        | some spacesAfter =>
          let indent := indentChars
          let columnAfterMarker := indent + 1
          let padding :=
            if spacesAfter = ['\t'] then tabWidthAt columnAfterMarker
            else if spacesAfter = [] then 1
            else spacesAfter.length
          let isTab := spacesAfter = ['\t']
          let paddingToConsume := if isTab || padding ≥ 5 then 1 else padding
          let paddingChars := if isTab || padding ≥ 5 then 1 else spacesAfter.length
          some { type := ListType.bullet, indent := indent, indentChars := indentChars
                 marker := [c], bulletChar := some c, start := none, delimiter := none
                 padding := min paddingToConsume 4, paddingChars := paddingChars
                 contentIndent := indent + 1 + paddingToConsume
                 contentCharIndex := indentChars + 1 + paddingChars }
        | none => none
      else none
    | none => none
  match bullet with
  | some m => some m
  | none =>
    let digits := rest.takeWhile isDigitCh
    if 1 ≤ digits.length ∧ digits.length ≤ 9 then
      match (rest.drop digits.length).head? with
      | some d =>
        if d = '.' || d = ')' then
          match listSpacesAfter (rest.drop (digits.length + 1)) with
          | some spacesAfter =>
            let indent := indentChars
            let markerStr := digits ++ [d]
            let columnAfterMarker := indent + markerStr.length
            let padding :=
              if spacesAfter = ['\t'] then tabWidthAt columnAfterMarker
              else if spacesAfter = [] then 1
              else spacesAfter.length
            let isTab := spacesAfter = ['\t']
            let paddingToConsume := if isTab || padding ≥ 5 then 1 else padding
            let paddingChars := if isTab || padding ≥ 5 then 1 else spacesAfter.length
            some { type := ListType.ordered, indent := indent, indentChars := indentChars
                   marker := markerStr, bulletChar := none, start := some (decVal digits)
                   delimiter := some d
                   padding := min paddingToConsume 4, paddingChars := paddingChars
                   contentIndent := indent + markerStr.length + paddingToConsume
                   contentCharIndex := indentChars + markerStr.length + paddingChars }
          | none => none
        else none
      | none => none
    else none

/-- `listsMatch` of `list.ts`. -/
def listsMatch (a b : ListMarker) : Bool :=
  a.type = b.type &&
  (match a.type with
   | ListType.bullet => a.bulletChar = b.bulletChar
   | ListType.ordered => a.delimiter = b.delimiter)

/-- Match `^ {0,3}>([ \t]?)` (the blockquote line test of the block
parsers), returning the optional-space capture group. -/
def matchBlockquote (line : Str) : Option Str :=
  let k := lead3 line
  match (line.drop k).head? with
  | some '>' =>
    (match (line.drop (k + 1)).head? with
     | some c => if isSpTab c then some [c] else some []
     | none => some [])
  | _ => none

/-- `extractBlockquoteContent` of the block parsers: skip the indent, the
`>` and the optional following space (a tab leaves its column remainder as
spaces), then expand remaining tabs by column. -/
def extractBlockquoteContent (line : Str) (optionalSpace : Str) : Str :=
  let k := min ((line.takeWhile (· = ' ')).length) 3
  let colAfterGt := k + 1
  if optionalSpace = ['\t'] then
    let tw := tabWidthAt colAfterGt
    spaces (tw - 1) ++ expandRestOfLine (line.drop (k + 2)) (colAfterGt + tw)
  else if optionalSpace = [' '] then
    expandRestOfLine (line.drop (k + 2)) (colAfterGt + 1)
  else
    expandRestOfLine (line.drop (k + 1)) colAfterGt

/-- The loop of `getBlockquoteMarkers` (`getBlockquotePrefix` in the
sources): collect the leading chain of `up to three spaces, >, optional
space` groups of the line.  Fuelled by the line length (each group consumes
at least one character). -/
def getBlockquoteMarkersGo : Nat → Str → Str
  | 0, _ => []
  | fuel + 1, l =>
    let sp := (l.takeWhile (· = ' ')).length
    let sp3 := min sp 3
    match (l.drop sp3).head? with
    | some '>' =>
      let withGt := sp3 + 1
      let consumed :=
        match (l.drop withGt).head? with
        | some c => if isSpTab c then withGt + 1 else withGt
        | none => withGt
      l.take consumed ++ getBlockquoteMarkersGo fuel (l.drop consumed)
    | _ => []

/-- `getBlockquotePrefix` of the block parsers. -/
def getBlockquoteMarkers (line : Str) : Str :=
  getBlockquoteMarkersGo line.length line

/-- Case-sensitive substring search (an unanchored JavaScript regex test on
a literal pattern). -/
def containsSubstr : Str → Str → Bool
  | l, pat =>
    if startsWith l pat then true
    else match l with
      | [] => false
      | _ :: rest => containsSubstr rest pat

/-- Case-insensitive substring search. -/
def containsSubstrCI : Str → Str → Bool
  | l, pat =>
    if startsWithCI l pat then true
    else match l with
      | [] => false
      | _ :: rest => containsSubstrCI rest pat

/-- The type 6 tag set of `html-block.ts`. -/
def TYPE_6_TAGS : List Str :=
  [ L "address", L "article", L "aside", L "base", L "basefont", L "blockquote",
    L "body", L "caption", L "center", L "col", L "colgroup", L "dd",
    L "details", L "dialog", L "dir", L "div", L "dl", L "dt", L "fieldset",
    L "figcaption", L "figure", L "footer", L "form", L "frame", L "frameset",
    L "h1", L "h2", L "h3", L "h4", L "h5", L "h6", L "head", L "header",
    L "hr", L "html", L "iframe", L "legend", L "li", L "link", L "main",
    L "menu", L "menuitem", L "nav", L "noframes", L "ol", L "optgroup",
    L "option", L "p", L "param", L "search", L "section", L "summary",
    L "table", L "tbody", L "td", L "tfoot", L "th", L "thead", L "title",
    L "tr", L "track", L "ul" ]

/-- The type 1 tag names (`pre|script|style|textarea`). -/
def TYPE_1_TAGS : List Str := [L "pre", L "script", L "style", L "textarea"]

/-- Attribute-name continuation characters (`[a-zA-Z0-9_.:-]`). -/
def isAttrNameCh (c : Char) : Bool :=
  isAlnumCh c || c = '_' || c = '.' || c = ':' || c = '-'

/-- Tag-name continuation characters (`[a-zA-Z0-9-]`). -/
def isTagNameCh (c : Char) : Bool := isAlnumCh c || c = '-'

/-- Unquoted attribute-value characters (the regex class
`[^\s"'=<>\x60]`). -/
def isUnquotedValCh (c : Char) : Bool :=
  !(jsWs c) && c ≠ '"' && c ≠ squote && c ≠ '=' && c ≠ '<' && c ≠ '>' && c ≠ btick

/-- The optional `(?:\s*=\s*value)?` suffix of an attribute: consume it when
it matches in full, otherwise roll back to the input (regex group
optionality). -/
def tryAttrValueSuffix (l2 : Str) : Str :=
  let l3 := l2.drop ((l2.takeWhile jsWs).length)
  match l3.head? with
  | some '=' =>
    let l4 := l3.drop 1
    let l5 := l4.drop ((l4.takeWhile jsWs).length)
    match l5.head? with
    | some '"' =>
      let content := (l5.drop 1).takeWhile (· ≠ '"')
      (match (l5.drop (1 + content.length)).head? with
       | some '"' => l5.drop (content.length + 2)
       | _ => l2)
    | some c =>
      if c = squote then
        let content := (l5.drop 1).takeWhile (· ≠ squote)
        (match (l5.drop (1 + content.length)).head? with
         | some d => if d = squote then l5.drop (content.length + 2) else l2
         | none => l2)
      else
        let run := l5.takeWhile isUnquotedValCh
        if run.isEmpty then l2 else l5.drop run.length
    | none => l2
  | _ => l2

/-- The attribute loop `(?:\s+name(?:\s*=\s*value)?)*` of the open-tag
regexes: repeatedly consume whitespace followed by an attribute.  Fuelled by
the string length (every iteration consumes at least one character). -/
def matchTagAttrsGo : Nat → Str → Str
  | 0, l => l
  | fuel + 1, l =>
    let ws := (l.takeWhile jsWs).length
    if ws = 0 then l
    else
      let l1 := l.drop ws
      match l1.head? with
      | some c =>
        if isAlphaCh c || c = '_' || c = ':' then
          let name := l1.takeWhile isAttrNameCh
          matchTagAttrsGo fuel (tryAttrValueSuffix (l1.drop name.length))
        else l
      | none => l

/-- The closing `\s*\/?>` of the open-tag regexes, returning the remainder
after the `>`. -/
def matchOpenTagEnd (l : Str) : Option Str :=
  let l1 := l.drop ((l.takeWhile jsWs).length)
  match l1.head? with
  | some '/' =>
    (match (l1.drop 1).head? with
     | some '>' => some (l1.drop 2)
     | _ => none)
  | some '>' => some (l1.drop 1)
  | _ => none

/-- Match an HTML open tag
(`<[a-zA-Z][a-zA-Z0-9-]*(?:\s+attr(?:\s*=\s*value)?)*\s*\/?>`), returning
the remainder after the `>`. -/
def matchOpenTag (l : Str) : Option Str :=
  match l with
  | '<' :: c :: rest =>
    if isAlphaCh c then
      let name := (c :: rest).takeWhile isTagNameCh
      let afterName := (c :: rest).drop name.length
      matchOpenTagEnd (matchTagAttrsGo afterName.length afterName)
    else none
  | _ => none

/-- Match an HTML closing tag (`<\/[a-zA-Z][a-zA-Z0-9-]*\s*>`), returning
the remainder after the `>`. -/
def matchCloseTag (l : Str) : Option Str :=
  match l with
  | '<' :: '/' :: c :: rest =>
    if isAlphaCh c then
      let name := (c :: rest).takeWhile isTagNameCh
      let after := (c :: rest).drop name.length
      let after2 := after.drop ((after.takeWhile jsWs).length)
      match after2.head? with
      | some '>' => some (after2.drop 1)
      | _ => none
    else none
  | _ => none

/-- The `(?:\s|>|$)` boundary after a type 1 tag name. -/
def type1Boundary (after : Str) : Bool :=
  match after.head? with
  | none => true
  | some c => jsWs c || c = '>'

/-- The `(?:\s|\/?>|$)` boundary after a type 6 tag name. -/
def type6Boundary (after : Str) : Bool :=
  match after.head? with
  | none => true
  | some '>' => true
  | some '/' => (after.drop 1).head? = some '>'
  | some c => jsWs c

/-- `getHtmlBlockType` of `html-block.ts`: classify a line into the seven
CommonMark HTML block types (type 7 only when it may interrupt the current
context). -/
def getHtmlBlockType (line : Str) (canInterruptParagraph : Bool) : Option Nat :=
  let trimmed := line.drop (lead3 line)
  if TYPE_1_TAGS.any (fun tag =>
      startsWithCI trimmed ('<' :: tag) && type1Boundary (trimmed.drop (1 + tag.length))) then
    some 1
  else if startsWith trimmed (L "<!--") then some 2
  else if startsWith trimmed (L "<?") then some 3
  else if (match trimmed with
           | '<' :: '!' :: c :: _ => isAlphaCh c
           | _ => false) then some 4
  else if startsWithCI trimmed (L "<![CDATA[") then some 5
  else
    let type6 : Bool :=
      match trimmed with
      | '<' :: rest =>
        let rest1 := if rest.head? = some '/' then rest.drop 1 else rest
        (match rest1.head? with
         | some c =>
           if isAlphaCh c then
             let name := rest1.takeWhile isTagNameCh
             type6Boundary (rest1.drop name.length) &&
             TYPE_6_TAGS.contains (name.map jsToLower)
           else false
         | none => false)
      | _ => false
    if type6 then some 6
    else if canInterruptParagraph then
      (if (match matchOpenTag trimmed with
           | some rem => rem.all jsWs
           | none => false) ||
          (match matchCloseTag trimmed with
           | some rem => rem.all jsWs
           | none => false) then some 7
       else none)
    else none

/-- `isHtmlBlockClose` of `html-block.ts`. -/
def isHtmlBlockClose (line : Str) (type_ : Nat) : Bool :=
  match type_ with
  | 1 => TYPE_1_TAGS.any (fun tag => containsSubstrCI line ('<' :: '/' :: tag ++ ['>']))
  | 2 => containsSubstr line (L "-->")
  | 3 => containsSubstr line (L "?>")
  | 4 => containsSubstr line (L ">")
  | 5 => containsSubstr line (L "]]>")
  | 6 => jsTrim line = []
  | 7 => jsTrim line = []
  | _ => false

/-- Table cell alignments (`TableAlignment` of `types.ts`; `none` is the
`null` alignment). -/
inductive Align where
  | left
  | center
  | right
deriving DecidableEq, Repr

/-- Inline AST nodes (`InlineNode` of `types.ts`).  A text node carries the
`noDelim` and `noSmart` flags and the `delimiterOrigLength` bookkeeping
property that the inline parser stores on delimiter-run nodes. -/
inductive Inline where
  | text (literal : Str) (noDelim : Bool) (noSmart : Bool) (delimOrigLength : Option Nat)
  | softbreak
  | hardbreak
  | code_span (literal : Str)
  | emphasis (children : List Inline)
  | strong (children : List Inline)
  | strikethrough (children : List Inline)
  | link (destination : Str) (title : Str) (children : List Inline)
  | image (destination : Str) (title : Str) (alt : Str)
  | html_inline (literal : Str)

/-- A plain text node with both flags clear (`createTextNode literal`). -/
def mkText (literal : Str) : Inline := Inline.text literal false false none

/-- Block AST nodes (`BlockNode` of `types.ts`).  List items, table rows and
table cells are block variants here, mirroring the tagged-union layout of the
sources.  `rawContent` is the transient raw string carried until the inline
phase. -/
inductive Block where
  | paragraph (rawContent : Option Str) (children : List Inline)
  | heading (level : Nat) (rawContent : Option Str) (children : List Inline)
  | thematic_break
  | code_block (info : Str) (literal : Str) (fenced : Bool)
  | blockquote (children : List Block)
  | list (listType : ListType) (start : Nat) (tight : Bool)
         (delimiter : Option Char) (bulletChar : Option Char) (items : List Block)
  | list_item (checked : Option Bool) (children : List Block)
  | html_block (literal : Str)
  | table (alignments : List (Option Align)) (rows : List Block)
  | table_row (isHeader : Bool) (cells : List Block)
  | table_cell (align : Option Align) (isHeader : Bool) (rawContent : Option Str)
               (children : List Inline)

/-- Paragraph test (used by the two-paragraph tightness rule). -/
def Block.isParagraph : Block → Bool
  | Block.paragraph _ _ => true
  | _ => false

/-- The link-reference side table: a JavaScript `Map` in insertion order. -/
abbrev RefMap := List (Str × LinkReferenceDefinition)

/-- JavaScript `Map.has`. -/
def refHas (m : RefMap) (k : Str) : Bool := m.any (fun p => p.1 = k)

/-- The guarded `if (!map.has(label)) map.set(label, def)` idiom (first
definition wins). -/
def setIfAbsent (m : RefMap) (k : Str) (v : LinkReferenceDefinition) : RefMap :=
  if refHas m k then m else m ++ [(k, v)]

/-- Merging a sub-parser's link references into the parent's, first wins
(the `result.linkReferences.forEach` loops). -/
def mergeRefs (parent child : RefMap) : RefMap :=
  child.foldl (fun m p => setIfAbsent m p.1 p.2) parent

/-- The repeated link-reference stripping loop shared by `finishParagraph`
and the setext branches: strip leading definitions while they parse, storing
each first-wins.  Fuelled by the text length (every successful parse
consumes at least one character). -/
def stripLinkRefsGo : Nat → Str → RefMap → Str × RefMap
  | 0, text, refs => (text, refs)
  | fuel + 1, text, refs =>
    if text.length > 0 then
      match parseLinkReferenceDefinition text with
      | none => (text, refs)
      | some r =>
        stripLinkRefsGo fuel (text.drop r.consumed) (setIfAbsent refs r.label r.definition)
    else (text, refs)

/-- Strip all leading link reference definitions from a paragraph text. -/
def stripLinkRefs (text : Str) (refs : RefMap) : Str × RefMap :=
  stripLinkRefsGo (text.length + 1) text refs

/-- The `finishParagraph` closure of `BlockParser.parseBlocks`: extract
leading link reference definitions, then emit the trimmed remainder as a
paragraph when it is non-empty. -/
def finishParagraph (pl : List Str) (children : List Block) (refs : RefMap) :
    List Block × RefMap :=
  if pl.isEmpty then (children, refs)
  else
    let (text, refs) := stripLinkRefs (joinLines pl) refs
    let text := jsTrim text
    if text.length > 0 then (children ++ [Block.paragraph (some text) []], refs)
    else (children, refs)

/-- The internal lazy-continuation sentinel (`LAZY_PREFIX`, `"\u0000"`). -/
def lazyMark : Char := Char.ofNat 0

/-- `lastNonBlankLine` of the block parsers. -/
def lastNonBlankLine (ls : List Str) : Option Str :=
  ls.reverse.find? (fun l => !(jsTrim l).isEmpty)

/-- `allowsLazyAfterListMarker` of the block parsers: a line opening with a
list marker admits lazy continuation only when the marker is followed by a
blockquote start (`^[ \t]*>`). -/
def allowsLazyAfterListMarker (line : Str) : Bool :=
  match parseListMarker line with
  | none => true
  | some m =>
    let after := line.drop m.contentCharIndex
    (after.drop ((after.takeWhile isSpTab).length)).head? = some '>'

/-- Drop trailing empty lines (the `while (... === '') pop()` loops). -/
def popTrailingEmpty (ls : List Str) : List Str :=
  (ls.reverse.dropWhile List.isEmpty).reverse

/-- The blockquote line-collection loop of `parseBlocks`: consume prefixed
lines, tracking an interior fence, and mark accepted lazy continuations with
the sentinel.  Returns the collected content lines and the number of input
lines consumed. -/
def collectQuoteGo : List Str → Option FenceInfo → List Str → List Str × Nat
  | [], _, acc => (acc, 0)
  | line :: rest, inFence, acc =>
    match matchBlockquote line with
    | some opt =>
      let content := extractBlockquoteContent line opt
      let inFence' :=
        match inFence with
        | some f => if isFenceClose content f then none else some f
        | none => parseFenceOpen content
      let (acc', n) := collectQuoteGo rest inFence' (acc ++ [content])
      (acc', n + 1)
    | none =>
      if jsTrim line = [] then (acc, 0)
      else if acc.length > 0 then
        if inFence.isSome then (acc, 0)
        else if isThematicBreak line || (parseFenceOpen line).isSome then (acc, 0)
        else if (match acc.getLast? with
                 | some last => (jsTrim last).isEmpty
                 | none => false) then (acc, 0)
        else
          match lastNonBlankLine acc with
          | some lastContent =>
            if (parseFenceOpen lastContent).isNone ∧ getIndent lastContent < 4 ∧
                allowsLazyAfterListMarker lastContent then
              let pfx := getBlockquoteMarkers lastContent
              let (acc', n) := collectQuoteGo rest inFence (acc ++ [pfx ++ lazyMark :: line])
              (acc', n + 1)
            else (acc, 0)
          | none => (acc, 0)
      else (acc, 0)

/-- The HTML-block line-consumption loop of `parseBlocks` (for a block that
did not close on its opening line): types 6 and 7 stop before a blank line,
types 1 to 5 consume through their close pattern or to end of input. -/
def consumeHtmlLines (type_ : Nat) : List Str → List Str × Nat
  | [] => ([], 0)
  | line :: rest =>
    if type_ = 6 || type_ = 7 then
      (if jsTrim line = [] then ([], 0)
       else
        let (ls, n) := consumeHtmlLines type_ rest
        (line :: ls, n + 1))
    else
      if isHtmlBlockClose line type_ then ([line], 1)
      else
        let (ls, n) := consumeHtmlLines type_ rest
        (line :: ls, n + 1)

/-- The fenced-code line-consumption loop of `parseBlocks`.  Returns the
code lines, the number of input lines consumed, and whether a closing fence
was found. -/
def consumeFenceLines (f : FenceInfo) : List Str → List Str × Nat × Bool
  | [] => ([], 0, false)
  | line :: rest =>
    if isFenceClose line f then ([], 1, true)
    else
      let (ls, n, closed) := consumeFenceLines f rest
      (line :: ls, n + 1, closed)

/-- The indented-code line-consumption loop of `parseBlocks` (for the lines
after the opening one). -/
def consumeIndentedLines : List Str → List Str × Nat
  | [] => ([], 0)
  | line :: rest =>
    if getIndent line ≥ 4 then
      let (ls, n) := consumeIndentedLines rest
      (removeIndent line 4 :: ls, n + 1)
    else if jsTrim line = [] then
      let (ls, n) := consumeIndentedLines rest
      ([] :: ls, n + 1)
    else ([], 0)

/-- `createFencedCodeBlock` of `code-block-fenced.ts`. -/
def createFencedCodeBlock (info : Str) (lines : List Str) (indent : Nat) : Block :=
  let content := joinLines (lines.map (fun l => stripFenceIndent l indent))
  let hasContent :=
    lines.length > 0 ∧ (lines.length > 1 ∨ lines.headD [] ≠ [])
  Block.code_block info (if hasContent then content ++ ['\n'] else []) true

/-- `createIndentedCodeBlock` of `code-block-indented.ts`. -/
def createIndentedCodeBlock (lines : List Str) : Block :=
  Block.code_block [] (joinLines lines ++ ['\n']) false

/-- The `canInterrupt` condition of the list branch of `parseBlocks`. -/
def listCanInterrupt (pl : List Str) (line : Str) (marker : ListMarker) : Bool :=
  pl.isEmpty ||
  ((marker.type = ListType.bullet || marker.start = some 1) &&
   !(jsTrim (line.drop (marker.indent + marker.marker.length + marker.padding))).isEmpty)

/-- The `^ {0,3}>` test used by the list-item continuation branch. -/
def matchBqSimple (line : Str) : Bool :=
  (line.drop (lead3 line)).head? = some '>'

/-- The mutable scan state of the `parseListItem` line-collection loop. -/
structure LIScan where
  sawBlankLine : Bool
  blankLineInItem : Bool
  trailingBlanks : Nat
  lastNonBlankIndent : Option Nat
  lastNonBlankWasListMarker : Bool
  sawNonBlankContent : Bool
  inFence : Option FenceInfo
deriving Repr

/-- The line-collection loop of `parseListItem` (the lines after the marker
line).  Returns the collected item lines, the number of input lines
consumed, and the final scan state. -/
def collectListItemGo (marker : ListMarker) :
    List Str → LIScan → List Str → List Str × Nat × LIScan
  | [], st, acc => (acc, 0, st)
  | line0 :: rest, st, acc =>
    let lazyLine := startsWith line0 [lazyMark]
    let line := if lazyLine then line0.drop 1 else line0
    let lineIndent := getIndent line
    match st.inFence with
    | some f =>
      let contentLine :=
        if lineIndent ≥ marker.contentIndent then removeIndent line marker.contentIndent
        else line
      let st' := { st with inFence := if isFenceClose contentLine f then none else some f }
      let (acc', n, stOut) := collectListItemGo marker rest st' (acc ++ [contentLine])
      (acc', n + 1, stOut)
    | none =>
      if jsTrim line = [] then
        let st' := { st with sawBlankLine := true, trailingBlanks := st.trailingBlanks + 1 }
        let (acc', n, stOut) := collectListItemGo marker rest st' (acc ++ [[]])
        (acc', n + 1, stOut)
      else
        let newMarker := if lazyLine then none else parseListMarker line
        if (match newMarker with
            | some nm => listsMatch marker nm && nm.indent < marker.contentIndent
            | none => false) then (acc, 0, st)
        else if !st.sawNonBlankContent ∧ st.sawBlankLine ∧ lineIndent ≥ marker.contentIndent then
          (acc, 0, st)
        else if lineIndent ≥ marker.contentIndent then
          let contentLine := removeIndent line marker.contentIndent
          let isLM := (parseListMarker contentLine).isSome
          let baseThreshold := marker.contentIndent + 1
          let blankHit : Bool :=
            st.sawBlankLine &&
            (decide (lineIndent ≤ baseThreshold) ||
             (match st.lastNonBlankIndent with
              | some v => decide (v ≤ baseThreshold) && !st.lastNonBlankWasListMarker
              | none => false))
          let st' : LIScan :=
            { sawBlankLine := false
              blankLineInItem := st.blankLineInItem || blankHit
              trailingBlanks := 0
              lastNonBlankIndent := some lineIndent
              lastNonBlankWasListMarker := isLM
              sawNonBlankContent := true
              inFence := parseFenceOpen contentLine }
          let (acc', n, stOut) := collectListItemGo marker rest st' (acc ++ [contentLine])
          (acc', n + 1, stOut)
        else if st.sawBlankLine then (acc, 0, st)
        else
          if !(isThematicBreak line) ∧ (parseAtxHeading line).isNone ∧
              (parseFenceOpen line).isNone ∧ !(matchBqSimple line) ∧ newMarker.isNone then
            let st' : LIScan :=
              { st with
                trailingBlanks := 0
                lastNonBlankIndent := some lineIndent
                lastNonBlankWasListMarker := false
                sawNonBlankContent := true }
            let (acc', n, stOut) := collectListItemGo marker rest st' (acc ++ [line])
            (acc', n + 1, stOut)
          else (acc, 0, st)

/-- `extractListItemContent` of the block parsers: skip the marker indent
(tab-aware), the marker and the padding (a partially consumed padding tab
leaves its remainder as spaces), then expand remaining tabs by column. -/
def extractListItemContent (line : Str) (marker : ListMarker) : Str :=
  let pre := line.take marker.indentChars
  let col0 := pre.foldl (fun col c => if c = '\t' then col + tabWidthAt col else col + 1) 0
  let ci1 := min marker.indentChars line.length + marker.marker.length
  let col1 := col0 + marker.marker.length
  if ci1 < line.length ∧ marker.paddingChars > 0 then
    match line.get? ci1 with
    | some '\t' =>
      let tw := tabWidthAt col1
      let consumed := min tw marker.padding
      let rem := tw - consumed
      spaces rem ++ expandRestOfLine (line.drop (ci1 + marker.paddingChars)) (col1 + consumed + rem)
    | _ =>
      expandRestOfLine (line.drop (ci1 + marker.paddingChars)) (col1 + marker.padding)
  else
    expandRestOfLine (line.drop ci1) col1

/-- Index of the next non-blank line at or after `j` (the blank-skipping
lookahead of `parseList`). -/
def skipBlankIdx (lines : List Str) (j : Nat) : Nat :=
  j + ((lines.drop j).takeWhile (fun l => (jsTrim l).isEmpty)).length

mutual

/-- `BlockParser.parse` of `block-parser.ts`: normalize line endings, split
into lines and run the block loop on a fresh document. -/
def blockParse : Nat → Str → List Block × RefMap
  | 0, _ => ([], [])
  | fuel + 1, input =>
    parseBlocksLoop fuel (splitLines (normalizeLineEndings input)) 0 [] [] []

/-- The main loop of `BlockParser.parseBlocks`: one recursive call per
iteration of the `while` loop, with the open paragraph buffer `pl`, the
container children and the link-reference table threaded through. -/
def parseBlocksLoop (fuel : Nat) (lines : List Str) (i : Nat) (pl : List Str)
    (children : List Block) (refs : RefMap) : List Block × RefMap :=
  match fuel with
  | 0 => finishParagraph pl children refs
  | fuel + 1 =>
    match lines[i]? with
    | none => finishParagraph pl children refs
    | some line =>
      if startsWith line [lazyMark] then
        let raw := line.drop 1
        parseBlocksLoop fuel lines (i + 1)
          (pl ++ [removeIndent raw (min (getIndent raw) 3)]) children refs
      else
      let lineIndent := getIndent line
      if (jsTrim line).isEmpty then
        let fp := finishParagraph pl children refs
        parseBlocksLoop fuel lines (i + 1) [] fp.1 fp.2
      else if isThematicBreak line then
        (if !pl.isEmpty && matchDashUnderline line then
          let level := (getSetextLevel line).getD 2
          let sl := stripLinkRefs (joinLines pl) refs
          let content := jsTrim sl.1
          if !content.isEmpty then
            parseBlocksLoop fuel lines (i + 1) []
              (children ++ [Block.heading level (some content) []]) sl.2
          else
            parseBlocksLoop fuel lines (i + 1) [] (children ++ [Block.thematic_break]) sl.2
        else
          let fp := finishParagraph pl children refs
          parseBlocksLoop fuel lines (i + 1) [] (fp.1 ++ [Block.thematic_break]) fp.2)
      else
      match parseAtxHeading line with
      | some (level, content) =>
        let fp := finishParagraph pl children refs
        parseBlocksLoop fuel lines (i + 1) []
          (fp.1 ++ [Block.heading level (some content) []]) fp.2
      | none =>
      if !pl.isEmpty && matchEqualsUnderline line then
        let sl := stripLinkRefs (joinLines pl) refs
        let content := jsTrim sl.1
        if !content.isEmpty then
          parseBlocksLoop fuel lines (i + 1) []
            (children ++ [Block.heading 1 (some content) []]) sl.2
        else
          parseBlocksLoop fuel lines (i + 1) [line] children sl.2
      else
      match parseFenceOpen line with
      | some fi =>
        let fp := finishParagraph pl children refs
        let cf := consumeFenceLines fi (lines.drop (i + 1))
        let codeLines := if cf.2.2 then cf.1 else popTrailingEmpty cf.1
        let info := unescapeString (decodeHtmlEntities fi.info)
        parseBlocksLoop fuel lines (i + 1 + cf.2.1) []
          (fp.1 ++ [createFencedCodeBlock info codeLines fi.indent]) fp.2
      | none =>
      if pl.isEmpty ∧ lineIndent ≥ 4 then
        let ci := consumeIndentedLines (lines.drop (i + 1))
        let codeLines := popTrailingEmpty (removeIndent line 4 :: ci.1)
        parseBlocksLoop fuel lines (i + 1 + ci.2) []
          (children ++ [createIndentedCodeBlock codeLines]) refs
      else
      match matchBlockquote line with
      | some _ =>
        let fp := finishParagraph pl children refs
        let cq := collectQuoteGo (lines.drop i) none []
        let sub := blockParse fuel (joinLines cq.1)
        parseBlocksLoop fuel lines (i + cq.2) []
          (fp.1 ++ [Block.blockquote sub.1]) (mergeRefs fp.2 sub.2)
      | none =>
      match (match parseListMarker line with
             | some m => if listCanInterrupt pl line m then some m else none
             | none => none) with
      | some marker =>
        let fp := finishParagraph pl children refs
        let ll := parseListLoop fuel lines i marker fp.2 false false false []
        let tight := !(ll.2.2.2.1 || ll.2.2.2.2)
        parseBlocksLoop fuel lines ll.2.1 []
          (fp.1 ++ [Block.list marker.type (marker.start.getD 1) tight
            marker.delimiter marker.bulletChar ll.1]) ll.2.2.1
      | none =>
        -- the HTML-block branch and the final paragraph-accumulation branch
        -- (the tail of the loop body reached when no earlier branch fired)
        match getHtmlBlockType line pl.isEmpty with
        | some t =>
          let fp := finishParagraph pl children refs
          let closeOnSameLine := decide (1 ≤ t) && decide (t ≤ 5) && isHtmlBlockClose line t
          if closeOnSameLine then
            parseBlocksLoop fuel lines (i + 1) []
              (fp.1 ++ [Block.html_block (line ++ ['\n'])]) fp.2
          else
            let ch := consumeHtmlLines t (lines.drop (i + 1))
            parseBlocksLoop fuel lines (i + 1 + ch.2) []
              (fp.1 ++ [Block.html_block (joinLines (line :: ch.1) ++ ['\n'])]) fp.2
        | none =>
          parseBlocksLoop fuel lines (i + 1)
            (pl ++ [removeIndent line (min (getIndent line) 3)]) children refs

/-- The item loop of `BlockParser.parseList`, returning the items, the index
after the list, the updated references and the two blank-line flags that
decide tightness. -/
def parseListLoop (fuel : Nat) (lines : List Str) (i : Nat) (firstMarker : ListMarker)
    (refs : RefMap) (sawBlank sawIn sawBet : Bool) (acc : List Block) :
    List Block × Nat × RefMap × Bool × Bool :=
  match fuel with
  | 0 => (acc, i, refs, sawIn, sawBet)
  | fuel + 1 =>
    match lines[i]? with
    | none => (acc, i, refs, sawIn, sawBet)
    | some line =>
      if isThematicBreak line then (acc, i, refs, sawIn, sawBet)
      else
        match (match parseListMarker line with
               | some m => if listsMatch firstMarker m then some m else none
               | none => none) with
        | some m =>
          -- `BlockParser.parseListItem`: collect the item's lines, parse
          -- them with a fresh sub-parser, merge its link references, and
          -- track the blank-line information
          let sawBet := sawBet || sawBlank
          let firstLine0 := lines.getD i []
          let firstLine := if startsWith firstLine0 [lazyMark] then firstLine0.drop 1 else firstLine0
          let firstContent := extractListItemContent firstLine m
          let firstBlank := (jsTrim firstContent).isEmpty
          let itemLines0 : List Str :=
            if firstBlank && (match (firstLine.drop (m.indentChars + m.marker.length)).head? with
                | some c => isSpTab c
                | none => false) then [[]]
            else [firstContent]
          let st0 : LIScan :=
            { sawBlankLine := false, blankLineInItem := false, trailingBlanks := 0
              lastNonBlankIndent := if firstBlank then none else some m.contentIndent
              lastNonBlankWasListMarker :=
                if firstBlank then false else (parseListMarker firstContent).isSome
              sawNonBlankContent := !firstBlank
              inFence := if firstBlank then none else parseFenceOpen firstContent }
          let cl := collectListItemGo m (lines.drop (i + 1)) st0 itemLines0
          let endsWithBlank := cl.2.2.trailingBlanks > 0
          let itemLines := popTrailingEmpty cl.1
          let sub := blockParse fuel (joinLines itemLines)
          let paragraphCount := (sub.1.filter Block.isParagraph).length
          let blankIn := cl.2.2.blankLineInItem || decide (paragraphCount ≥ 2)
          parseListLoop fuel lines (i + 1 + cl.2.1) firstMarker (mergeRefs refs sub.2)
            endsWithBlank (sawIn || blankIn) sawBet (acc ++ [Block.list_item none sub.1])
        | none =>
          if (jsTrim line).isEmpty then
            let nextIdx := skipBlankIdx lines (i + 1)
            match lines[nextIdx]? with
            | some nextLine =>
              if (match parseListMarker nextLine with
                  | some nm => listsMatch firstMarker nm
                  | none => false) then
                parseListLoop fuel lines (i + 1) firstMarker refs true sawIn sawBet acc
              else if getIndent nextLine < firstMarker.contentIndent then
                (acc, i + 1, refs, sawIn, sawBet)
              else
                parseListLoop fuel lines (i + 1) firstMarker refs true sawIn sawBet acc
            | none => (acc, i + 1, refs, sawIn, sawBet)
          else (acc, i, refs, sawIn, sawBet)

end

/-- `parseEscape` of `escape.ts`. -/
def parseEscape (text : Str) (pos : Nat) : Option (Char × Nat) :=
  if text.get? pos ≠ some '\\' then none
  else if pos + 1 ≥ text.length then none
  else
    match text.get? (pos + 1) with
    | some c =>
      if c = '\n' then some ('\n', 2)
      else if isAsciiPunctuation c then some (c, 2)
      else none
    | none => none

theorem takeWhile_length_le (l : List Char) (p : Char → Bool) :
    (l.takeWhile p).length ≤ l.length := by
  induction l with
  | nil => simp [List.takeWhile]
  | cons c rest ih =>
    simp only [List.takeWhile]
    split
    · simpa using Nat.succ_le_succ ih
    · simp

/-- The closing-run search of `parseCodeSpan`: find the next backtick run of
exactly length `k`, returning the number of characters before it.  The fuel
only caps the iteration count; every step consumes at least one character,
so the caller's `length + 1` always suffices. -/
def findCloseRun (k : Nat) : Nat → Str → Nat → Option Nat
  | 0, _, _ => none
  | _ + 1, [], _ => none
  | fuel + 1, c :: rest, acc =>
    if c = btick then
      let runRest := rest.takeWhile (· = btick)
      let runLen := 1 + runRest.length
      if runLen = k then some acc
      else findCloseRun k fuel (rest.drop runRest.length) (acc + runLen)
    else findCloseRun k fuel rest (acc + 1)

/-- `parseCodeSpan` of `code-span.ts`. -/
def parseCodeSpan (text : Str) (pos : Nat) : Option (Str × Nat) :=
  if text.get? pos ≠ some btick then none
  else
    let after := text.drop pos
    let k := (after.takeWhile (· = btick)).length
    let rest := after.drop k
    match findCloseRun k (rest.length + 1) rest 0 with
    | none => none
    | some contentLen =>
      let content := rest.take contentLen
      let content := content.map (fun c => if c = '\n' then ' ' else c)
      let content :=
        if content.length ≥ 2 ∧ content.head? = some ' ' ∧ content.getLast? = some ' ' ∧
            jsTrim content ≠ [] then
          (content.drop 1).dropLast
        else content
      some (content, k + contentLen + k)

/-- Scheme characters of the URI autolink regex (`[a-zA-Z0-9+.-]`). -/
def isSchemeCh (c : Char) : Bool := isAlnumCh c || c = '+' || c = '.' || c = '-'

/-- Local-part characters of the email autolink regex. -/
def isEmailLocalCh (c : Char) : Bool :=
  isAlnumCh c ||
  (isAsciiPunctuation c &&
   !(c = '"' || c = '(' || c = ')' || c = ',' || c = ':' || c = ';' || c = '<' ||
     c = '>' || c = '@' || c = '[' || c = '\\' || c = ']'))

/-- One domain label of the email autolink regex
(`[a-zA-Z0-9](?:[a-zA-Z0-9-]{0,61}[a-zA-Z0-9])?`): the maximal
alphanumeric-or-hyphen run must start and end alphanumeric and have length
at most 63. -/
def emailLabelOk (run : Str) : Bool :=
  1 ≤ run.length && run.length ≤ 63 &&
  isAlnumCh (run.headD ' ') && isAlnumCh (run.getLastD ' ')

/-- The label chain of the email autolink domain, returning the consumed
length.  Fuelled by the string length. -/
def emailDomainLen : Nat → Str → Option Nat
  | 0, _ => none
  | fuel + 1, l =>
    let run := l.takeWhile (fun c => isAlnumCh c || c = '-')
    if emailLabelOk run then
      (match (l.drop run.length).head? with
       | some '.' =>
         (match emailDomainLen fuel (l.drop (run.length + 1)) with
          | some n => some (run.length + 1 + n)
          | none => none)
       | _ => some run.length)
    else none

/-- `parseAutolink` of `autolink.ts`: URI autolinks
(`^<[a-zA-Z][a-zA-Z0-9+.-]{1,31}:[^\s<>]*>`) are tried before email
autolinks. -/
def parseAutolink (text : Str) (pos : Nat) : Option (Inline × Nat) :=
  if text.get? pos ≠ some '<' then none
  else
    match text.drop pos with
    | '<' :: c :: rest =>
      let uriAttempt : Option (Inline × Nat) :=
        if isAlphaCh c then
          let run := rest.takeWhile isSchemeCh
          if 1 ≤ run.length ∧ run.length ≤ 31 ∧ (rest.drop run.length).head? = some ':' then
            let body := (rest.drop (run.length + 1)).takeWhile
              (fun d => !(jsWs d) && d ≠ '<' && d ≠ '>')
            if (rest.drop (run.length + 1 + body.length)).head? = some '>' then
              let uri := c :: run ++ ':' :: body
              some (Inline.link uri [] [mkText uri], uri.length + 2)
            else none
          else none
        else none
      match uriAttempt with
      | some r => some r
      | none =>
        let localRun := (c :: rest).takeWhile isEmailLocalCh
        if localRun.length ≥ 1 ∧ ((c :: rest).drop localRun.length).head? = some '@' then
          let afterAt := (c :: rest).drop (localRun.length + 1)
          match emailDomainLen (afterAt.length + 1) afterAt with
          | some dl =>
            if (afterAt.drop dl).head? = some '>' then
              let email := localRun ++ '@' :: afterAt.take dl
              some (Inline.link (L "mailto:" ++ email) [] [mkText email], email.length + 2)
            else none
          | none => none
        else none
    | _ => none

/-- First index of a literal substring, or `none` (the lazy `[\s\S]*?`
searches of the inline HTML regexes). -/
def findSubstr : Str → Str → Option Nat
  | l, pat =>
    if startsWith l pat then some 0
    else match l with
      | [] => none
      | _ :: rest => (findSubstr rest pat).map (· + 1)

/-- The inline raw-HTML matchers of `InlineParser.parse`, tried in source
order after `parseAutolink` fails: open tag, closing tag, short comment
(`<!-->`/`<!--->`, emitted as `<!---->`), comment, processing instruction,
CDATA section, declaration.  Returns the emitted literal and the consumed
length. -/
def parseRawHtmlInline (remaining : Str) : Option (Str × Nat) :=
  match matchOpenTag remaining with
  | some rem => some (remaining.take (remaining.length - rem.length), remaining.length - rem.length)
  | none =>
  match matchCloseTag remaining with
  | some rem => some (remaining.take (remaining.length - rem.length), remaining.length - rem.length)
  | none =>
  if startsWith remaining (L "<!-->") then some (L "<!---->", 5)
  else if startsWith remaining (L "<!--->") then some (L "<!---->", 6)
  else if startsWith remaining (L "<!--") then
    let rest := remaining.drop 4
    if startsWith rest (L ">") || startsWith rest (L "->") then none
    else
      match findSubstr rest (L "-->") with
      | some idx => some (remaining.take (4 + idx + 3), 4 + idx + 3)
      | none => none
  else if startsWith remaining (L "<?") then
    match findSubstr (remaining.drop 2) (L "?>") with
    | some idx => some (remaining.take (2 + idx + 2), 2 + idx + 2)
    | none => none
  else if startsWith remaining (L "<![CDATA[") then
    match findSubstr (remaining.drop 9) (L "]]>") with
    | some idx => some (remaining.take (9 + idx + 3), 9 + idx + 3)
    | none => none
  else
    match remaining with
    | '<' :: '!' :: c :: rest =>
      if isAlphaCh c then
        match findSubstr rest (L ">") with
        | some idx => some (remaining.take (3 + idx + 1), 3 + idx + 1)
        | none => none
      else none
    | _ => none

/-- A delimiter run record (`DelimiterRun` of `emphasis.ts`). -/
structure DelimiterRun where
  char : Char
  length : Nat
  canOpen : Bool
  canClose : Bool
  position : Nat
  origLength : Nat
deriving DecidableEq, Repr

/-- The flanking computation shared by `parseDelimiterRun` and
`InlineParser.computeDelimiterRun`: given the run character, its length and
the surrounding characters, decide `canOpen`/`canClose`. -/
def delimFlanking (c : Char) (charBefore charAfter : Char) : Bool × Bool :=
  let beforeIsWhitespace := isUnicodeWhitespace charBefore || charBefore = '\n'
  let afterIsWhitespace := isUnicodeWhitespace charAfter || charAfter = '\n'
  let beforeIsPunctuation := isUnicodePunctuation charBefore
  let afterIsPunctuation := isUnicodePunctuation charAfter
  let leftFlanking := !afterIsWhitespace &&
    (!afterIsPunctuation || beforeIsWhitespace || beforeIsPunctuation)
  let rightFlanking := !beforeIsWhitespace &&
    (!beforeIsPunctuation || afterIsWhitespace || afterIsPunctuation)
  if c = '*' then (leftFlanking, rightFlanking)
  else (leftFlanking && (!rightFlanking || beforeIsPunctuation),
        rightFlanking && (!leftFlanking || afterIsPunctuation))

/-- `parseDelimiterRun` of `emphasis.ts`. -/
def parseDelimiterRun (text : Str) (pos : Nat) : Option DelimiterRun :=
  match text.get? pos with
  | some c =>
    if c ≠ '*' ∧ c ≠ '_' then none
    else
      let length := ((text.drop pos).takeWhile (· = c)).length
      let charBefore := if pos > 0 then (text.get? (pos - 1)).getD '\n' else '\n'
      let charAfter := (text.get? (pos + length)).getD '\n'
      let (canOpen, canClose) := delimFlanking c charBefore charAfter
      some { char := c, length := length, canOpen := canOpen, canClose := canClose
             position := pos, origLength := length }
  | none => none

/-- `canDelimitersMatch` of `emphasis.ts`: the multiple-of-three rule. -/
def canDelimitersMatch (opener closer : DelimiterRun) : Bool :=
  if opener.char ≠ closer.char then false
  else if (opener.canOpen && opener.canClose) || (closer.canOpen && closer.canClose) then
    if (opener.origLength + closer.origLength) % 3 = 0 then
      if opener.origLength % 3 ≠ 0 ∨ closer.origLength % 3 ≠ 0 then false
      else true
    else true
  else true

/-- `InlineParser.computeDelimiterRun`: the flanking computation applied to
a delimiter node's literal and its neighbouring characters. -/
def computeDelimiterRun (literal : Str) (charBefore charAfter : Char) : DelimiterRun :=
  let c := literal.headD ' '
  let (canOpen, canClose) := delimFlanking c charBefore charAfter
  { char := c, length := literal.length, canOpen := canOpen, canClose := canClose
    position := 0, origLength := literal.length }

/-- `InlineParser.getFirstChar`. -/
def getFirstChar (text : Str) : Char := text.headD '\n'

/-- `InlineParser.getLastChar`. -/
def getLastChar (text : Str) : Char := text.getLastD '\n'

/-- `InlineParser.normalizeLabelForMatching`: resolve `\[`, `\]`, `\\`
escapes in a shortcut-reference label. -/
def normalizeLabelForMatching : Str → Str
  | [] => []
  | '\\' :: c :: rest =>
    if c = '[' ∨ c = ']' ∨ c = '\\' then c :: normalizeLabelForMatching rest
    else '\\' :: normalizeLabelForMatching (c :: rest)
  | c :: rest => c :: normalizeLabelForMatching rest

/-- Whitespace classes used by `parseInlineLink`. -/
def isSpTabNl (c : Char) : Bool := c = ' ' || c = '\t' || c = '\n'

/-- The bare-destination loop of `parseLinkDestination` in `link.ts`:
parenthesis-balanced scan, `none` when a backslash escapes whitespace. -/
def bareLinkDestLen : Str → Nat → Nat → Option Nat
  | [], _, acc => some acc
  | '\\' :: c :: rest, depth, acc =>
    if c = ' ' ∨ c = '\t' ∨ c = '\n' ∨ c = '\r' then none
    else bareLinkDestLen rest depth (acc + 2)
  | '(' :: rest, depth, acc => bareLinkDestLen rest (depth + 1) (acc + 1)
  | ')' :: rest, depth, acc =>
    if depth = 0 then some acc else bareLinkDestLen rest (depth - 1) (acc + 1)
  | c :: rest, depth, acc =>
    if c = ' ' ∨ c = '\t' ∨ c = '\n' ∨ c = '\r' ∨ c.toNat < 0x20 then some acc
    else bareLinkDestLen rest depth (acc + 1)

/-- `parseLinkDestination` of `link.ts`. -/
def parseLinkDestination (text : Str) : Option (Str × Nat) :=
  match text.head? with
  | some '<' =>
    (match matchAngleDest text with
     | some (raw, len) => some (decodeHtmlEntities (unescapeString raw), len)
     | none => none)
  | _ =>
    match bareLinkDestLen text 0 0 with
    | some i =>
      if i = 0 then none
      else some (decodeHtmlEntities (unescapeString (text.take i)), i)
    | none => none

/-- Title body items for the inline-link title regexes, where a backslash
escapes any non-newline character (`\\.` without the `s` flag). -/
def titleItemsNoNl (stops : List Char) : Str → Str × Str
  | '\\' :: c :: rest =>
    if c ≠ '\n' then
      let (raw, r) := titleItemsNoNl stops rest
      ('\\' :: c :: raw, r)
    else ([], '\\' :: c :: rest)
  | c :: rest =>
    if !(stops.contains c) && c ≠ '\\' then
      let (raw, r) := titleItemsNoNl stops rest
      (c :: raw, r)
    else ([], c :: rest)
  | [] => ([], [])

/-- Match one delimited inline-link title form. -/
def matchDelimTitleNoNl (openCh closeCh : Char) (stops : List Char) (l : Str) :
    Option (Str × Nat) :=
  match l with
  | c :: rest =>
    if c = openCh then
      let (raw, r) := titleItemsNoNl stops rest
      match r.head? with
      | some d => if d = closeCh then some (raw, raw.length + 2) else none
      | none => none
    else none
  | [] => none

/-- `parseLinkTitle` of `link.ts` (`LINK_TITLE_REGEX`): double-quoted,
single-quoted, parenthesised, in that order. -/
def parseLinkTitle (text : Str) : Option (Str × Nat) :=
  let m :=
    match matchDelimTitleNoNl '"' '"' ['"'] text with
    | some r => some r
    | none =>
      match matchDelimTitleNoNl squote squote [squote] text with
      | some r => some r
      | none => matchDelimTitleNoNl '(' ')' ['(', ')'] text
  match m with
  | some (raw, len) => some (decodeHtmlEntities (unescapeString raw), len)
  | none => none

/-- The result of `parseInlineLink`. -/
structure InlineLinkResult where
  destination : Str
  title : Str
  length : Nat
deriving DecidableEq, Repr

/-- `parseInlineLink` of `link.ts`: parse `(dest "title")` after a closing
bracket. -/
def parseInlineLink (text : Str) (pos : Nat) : Option InlineLinkResult :=
  if text.get? pos ≠ some '(' then none
  else
    let i := pos + 1
    let i := i + ((text.drop i).takeWhile isSpTabNl).length
    if text.get? i = some ')' then
      some { destination := [], title := [], length := i - pos + 1 }
    else
      match parseLinkDestination (text.drop i) with
      | none => none
      | some (destination, dlen) =>
        let i := i + dlen
        let i := i + ((text.drop i).takeWhile isSpTab).length
        let i := if text.get? i = some '\n' then
            (i + 1) + ((text.drop (i + 1)).takeWhile isSpTab).length
          else i
        let (title, i) :=
          if text.get? i = some '"' || text.get? i = some squote || text.get? i = some '(' then
            (match parseLinkTitle (text.drop i) with
             | some (t, tlen) => (t, i + tlen)
             | none => (([] : Str), i))
          else (([] : Str), i)
        let i := i + ((text.drop i).takeWhile isSpTabNl).length
        if text.get? i = some ')' then
          some { destination := destination, title := title, length := i - pos + 1 }
        else none

/-- The bracket-balanced scan of `parseLinkLabel`: collect the label body
after the opening bracket, returning the raw label and the number of
characters before the closing bracket.  `none` on a nested `[` or a missing
closing bracket. -/
def linkLabelScan : Str → Option (Str × Nat)
  | [] => none
  | '\\' :: c :: rest =>
    if c = '[' ∨ c = ']' ∨ c = '\\' then
      (match linkLabelScan rest with
       | some (raw, n) => some (c :: raw, n + 2)
       | none => none)
    else
      (match linkLabelScan (c :: rest) with
       | some (raw, n) => some ('\\' :: raw, n + 1)
       | none => none)
  | '[' :: _ => none
  | ']' :: _ => some ([], 0)
  | c :: rest =>
    (match linkLabelScan rest with
     | some (raw, n) => some (c :: raw, n + 1)
     | none => none)

/-- `parseLinkLabel` of `link.ts`: an all-whitespace label is reported as
the empty label (a collapsed reference), otherwise the label is
normalized. -/
def parseLinkLabel (text : Str) (pos : Nat) : Option (Str × Nat) :=
  if text.get? pos ≠ some '[' then none
  else
    match linkLabelScan (text.drop (pos + 1)) with
    | none => none
    | some (raw, inner) =>
      if raw.length > 999 then none
      else if (jsTrim raw).isEmpty then some ([], inner + 2)
      else some (normalizeLabel raw, inner + 2)

mutual

/-- `InlineParser.extractTextFromNodes`: plain-text flattening used for
image alt text and collapsed-reference labels. -/
def extractTextFromNodes : List Inline → Str
  | [] => []
  | n :: rest => extractTextFromNode n ++ extractTextFromNodes rest

def extractTextFromNode : Inline → Str
  | Inline.text lit _ _ _ => lit
  | Inline.code_span lit => lit
  | Inline.image _ _ alt => alt
  | Inline.softbreak => [' ']
  | Inline.hardbreak => [' ']
  | Inline.emphasis ch => extractTextFromNodes ch
  | Inline.strong ch => extractTextFromNodes ch
  | Inline.strikethrough ch => extractTextFromNodes ch
  | Inline.link _ _ ch => extractTextFromNodes ch
  | Inline.html_inline _ => []

end

/-- A delimiter-candidate entry of `processEmphasis` (`nodeDelims`): the
node's index in the top-level node list and its computed run. -/
structure DelimEntry where
  index : Nat
  run : DelimiterRun
deriving DecidableEq, Repr

/-- The delimiter-run eligibility test of the `processEmphasis` scans: a
non-empty pure `*`/`_` literal (`/^[*_]+$/`) on a text node without
`noDelim`. -/
def isDelimRunLiteral (lit : Str) : Bool :=
  !lit.isEmpty && (lit.headD ' ' = '*' || lit.headD ' ' = '_') &&
  lit.all (fun c => c = '*' || c = '_')

/-- Eligibility of a node for delimiter processing. -/
def delimEligible : Inline → Bool
  | Inline.text lit noDelim _ _ => !noDelim && isDelimRunLiteral lit
  | _ => false

/-- The character contributed by a neighbouring node in the scans: the
adjacent character of a text node, a newline for breaks, an opaque letter
for any other node, a newline at the sequence boundary. -/
def neighborChar (n : Option Inline) (getCh : Str → Char) : Char :=
  match n with
  | none => '\n'
  | some (Inline.text lit _ _ _) => getCh lit
  | some Inline.softbreak => '\n'
  | some Inline.hardbreak => '\n'
  | some _ => 'a'

/-- The `delimiterOrigLength ?? literal.length` bookkeeping assignment of
the scans, applied to every eligible node. -/
def setOrigLength : Inline → Inline
  | Inline.text lit nd ns orig => Inline.text lit nd ns (some (orig.getD lit.length))
  | n => n

/-- The node updates performed by one `processEmphasis` scan. -/
def buildDelimsNodes (nodes : List Inline) : List Inline :=
  nodes.map (fun n => if delimEligible n then setOrigLength n else n)

/-- The delimiter entry contributed by the node at one index in a
`processEmphasis` scan. -/
def buildDelimAt (nodes : List Inline) (i : Nat) : Option DelimEntry :=
  match nodes[i]? with
  | some (Inline.text lit noDelim _ orig) =>
    if !noDelim && isDelimRunLiteral lit then
      let cb := neighborChar (if i > 0 then nodes[i - 1]? else none) getLastChar
      let ca := neighborChar nodes[i + 1]? getFirstChar
      let run0 := computeDelimiterRun lit cb ca
      let run := { run0 with origLength := orig.getD lit.length }
      if run.canOpen || run.canClose then some { index := i, run := run } else none
    else none
  | _ => none

/-- The `nodeDelims` list computed by one `processEmphasis` scan. -/
def buildDelimsEntries (nodes : List Inline) : List DelimEntry :=
  (List.range nodes.length).filterMap (buildDelimAt nodes)

/-- The loop state of `processEmphasis`: the top-level nodes, the current
`nodeDelims`, the closer scan position and the two per-character
openers-bottom indices (`-1` initially). -/
structure EmphState where
  nodes : List Inline
  delims : List DelimEntry
  closerIdx : Nat
  bottomStar : Int
  bottomUnder : Int

/-- Read the openers-bottom entry for a delimiter character. -/
def getBottom (st : EmphState) (c : Char) : Int :=
  if c = '_' then st.bottomUnder else st.bottomStar

/-- Write the openers-bottom entry for a delimiter character. -/
def setBottom (st : EmphState) (c : Char) (v : Int) : EmphState :=
  if c = '_' then { st with bottomUnder := v } else { st with bottomStar := v }

/-- The leftward opener search of `processEmphasis`: examine delimiter
entries `j-1, j-2, ...` while they stay above the openers-bottom, returning
the first matching opener position. -/
def findOpener (delims : List DelimEntry) (closerRun : DelimiterRun) (bottom : Int) :
    Nat → Option Nat
  | 0 => none
  | j + 1 =>
    if (j : Int) > bottom then
      match delims[j]? with
      | some opener =>
        if opener.run.canOpen && opener.run.char = closerRun.char &&
            canDelimitersMatch opener.run closerRun then some j
        else findOpener delims closerRun bottom j
      | none => findOpener delims closerRun bottom j
    else none

/-- The literal of the text node at an index (empty for other nodes). -/
def getTextLit (nodes : List Inline) (i : Nat) : Str :=
  match nodes[i]? with
  | some (Inline.text lit _ _ _) => lit
  | _ => []

/-- Replace the literal of the text node at an index, keeping its flags. -/
def setTextLit (nodes : List Inline) (i : Nat) (lit : Str) : List Inline :=
  match nodes[i]? with
  | some (Inline.text _ nd ns o) => nodes.set i (Inline.text lit nd ns o)
  | _ => nodes

/-- One iteration of the `processEmphasis` closer loop.  `none` means the
loop has finished (`closerIdx` has passed the end of `nodeDelims`).  On a
successful match the literals are shortened, the content between opener and
closer is spliced into a new emphasis or strong node, emptied delimiter
nodes are removed, `nodeDelims` is rebuilt from the new node list and the
closer scan restarts from zero; the openers-bottom indices persist.  The
source locates the opener and closer nodes with `nodes.indexOf(node)`,
which for the states built by the scan equals the entry's stored index. -/
def emphStep (st : EmphState) : Option EmphState :=
  match st.delims[st.closerIdx]? with
  | none => none
  | some closer =>
    if !closer.run.canClose then
      some { st with closerIdx := st.closerIdx + 1 }
    else
      match findOpener st.delims closer.run (getBottom st closer.run.char) st.closerIdx with
      | none =>
        let st' := if !closer.run.canOpen then
            setBottom st closer.run.char ((st.closerIdx : Int) - 1)
          else st
        some { st' with closerIdx := st.closerIdx + 1 }
      | some openerIdx =>
        match st.delims[openerIdx]? with
        | none => some { st with closerIdx := st.closerIdx + 1 }
        | some opener =>
          let strong := opener.run.length ≥ 2 ∧ closer.run.length ≥ 2
          let numDelims := if strong then 2 else 1
          let oi := opener.index
          let ci := closer.index
          let openerLit' := (getTextLit st.nodes oi).take ((getTextLit st.nodes oi).length - numDelims)
          let closerLit' := (getTextLit st.nodes ci).drop numDelims
          let nodes0 := setTextLit (setTextLit st.nodes oi openerLit') ci closerLit'
          let contentNodes := (nodes0.take ci).drop (oi + 1)
          let emphNode := if strong then Inline.strong contentNodes
            else Inline.emphasis contentNodes
          let nodes1 := nodes0.take (oi + 1) ++ emphNode :: nodes0.drop ci
          let openerRemoved := opener.run.length - numDelims = 0 ∧ openerLit' = []
          let nodes2 := if openerRemoved then nodes1.eraseIdx oi else nodes1
          let closerPos := if openerRemoved then oi + 1 else oi + 2
          let nodes3 :=
            if closer.run.length - numDelims = 0 ∧ closerLit' = [] then
              nodes2.eraseIdx closerPos
            else nodes2
          some { nodes := buildDelimsNodes nodes3
                 delims := buildDelimsEntries nodes3
                 closerIdx := 0
                 bottomStar := st.bottomStar
                 bottomUnder := st.bottomUnder }

/-- The fuelled `processEmphasis` loop: iterate `emphStep` until it reports
completion.  `none` only on fuel exhaustion. -/
def emphLoop : Nat → EmphState → Option EmphState
  | 0, _ => none
  | fuel + 1, st =>
    match emphStep st with
    | none => some st
    | some st' => emphLoop fuel st'

/-- Empty-literal text node test (the final cleanup of `processEmphasis`). -/
def isEmptyTextNode : Inline → Bool
  | Inline.text lit _ _ _ => lit.isEmpty
  | _ => false

/-- Total text characters at the top level of a node list; the termination
measure of the emphasis loop. -/
def textCharCount (nodes : List Inline) : Nat :=
  (nodes.map (fun n =>
    match n with
    | Inline.text lit _ _ _ => lit.length
    | _ => 0)).sum

/-- The initial loop state of `processEmphasis` for a node list. -/
def initEmphState (nodes : List Inline) : EmphState :=
  { nodes := buildDelimsNodes nodes
    delims := buildDelimsEntries nodes
    closerIdx := 0
    bottomStar := -1
    bottomUnder := -1 }

/-- `InlineParser.processEmphasis`.  The source's `stackBottom` parameter is
never consulted by the body and is omitted.  When the first scan finds no
delimiters the function returns early, before the final empty-text cleanup.
The fuel passed to the loop is large enough for every run (the termination
theorem below shows some fuel always suffices). -/
def processEmphasis (nodes : List Inline) : List Inline :=
  let st0 := initEmphState nodes
  if st0.delims.isEmpty then st0.nodes
  else
    match emphLoop ((textCharCount nodes + 2) * (textCharCount nodes + nodes.length + 2)) st0 with
    | some st => st.nodes.filter (fun n => !(isEmptyTextNode n))
    | none => st0.nodes.filter (fun n => !(isEmptyTextNode n))

/-- A bracket-stack entry of `InlineParser.parse`.  The source also stores
dead bookkeeping (`node`, `bracketAfter`, `delimiterBefore`) that no code
path reads; the live fields are kept. -/
structure Bracket where
  isImage : Bool
  nodeIndex : Nat
  active : Bool
  textPos : Nat
deriving DecidableEq, Repr

/-- Lookup in the link-reference table (JavaScript `Map.get`). -/
def refGet (refs : RefMap) (k : Str) : Option LinkReferenceDefinition :=
  (refs.find? (fun p => p.1 = k)).map (·.2)

/-- The `flushText` closure of `InlineParser.parse`. -/
def flushText (buf : Str) (nodes : List Inline) : List Inline :=
  if buf.length > 0 then nodes ++ [mkText buf] else nodes

/-- Trailing-space strip (`replace(/ *$/, "")`). -/
def trimTrailingSpaces (l : Str) : Str := trimEndP (· = ' ') l

/-- The result of a successful closing-bracket resolution. -/
structure BracketMatch where
  destination : Str
  title : Str
  consumed : Nat
deriving DecidableEq, Repr

/-- The main loop of `InlineParser.parse`, one recursive call per iteration;
each iteration consumes at least one character, so the fuel passed by
`inlineParse` (the text length plus one) never runs out. -/
def inlineLoop (refs : RefMap) : Nat → Str → Nat → Str → List Inline → List Bracket →
    List Inline
  | 0, _, _, buf, nodes, _ => processEmphasis (flushText buf nodes)
  | fuel + 1, text, pos, buf, nodes, brackets =>
    if pos < text.length then
      let char := (text.get? pos).getD ' '
      match parseEscape text pos with
      | some (ch, len) =>
        if ch = '\n' then
          let nodes := flushText (trimTrailingSpaces buf) nodes ++ [Inline.hardbreak]
          let pos := pos + len
          let pos := pos + ((text.drop pos).takeWhile (· = ' ')).length
          inlineLoop refs fuel text pos [] nodes brackets
        else if ch = '*' ∨ ch = '_' then
          inlineLoop refs fuel text (pos + len) []
            (flushText buf nodes ++ [Inline.text [ch] true false none]) brackets
        else if ch = '"' ∨ ch = squote ∨ ch = '-' ∨ ch = '.' then
          inlineLoop refs fuel text (pos + len) []
            (flushText buf nodes ++ [Inline.text [ch] false true none]) brackets
        else
          inlineLoop refs fuel text (pos + len) (buf ++ [ch]) nodes brackets
      | none =>
      match parseEntity text pos with
      | some (s, len) =>
        inlineLoop refs fuel text (pos + len) (buf ++ s) nodes brackets
      | none =>
      if char = btick then
        match parseCodeSpan text pos with
        | some (content, len) =>
          inlineLoop refs fuel text (pos + len) []
            (flushText buf nodes ++ [Inline.code_span content]) brackets
        | none =>
          let run := (text.drop pos).takeWhile (· = btick)
          inlineLoop refs fuel text (pos + run.length) (buf ++ run) nodes brackets
      else if char = '<' then
        match parseAutolink text pos with
        | some (node, len) =>
          inlineLoop refs fuel text (pos + len) [] (flushText buf nodes ++ [node]) brackets
        | none =>
          match parseRawHtmlInline (text.drop pos) with
          | some (lit, len) =>
            inlineLoop refs fuel text (pos + len) []
              (flushText buf nodes ++ [Inline.html_inline lit]) brackets
          | none =>
            inlineLoop refs fuel text (pos + 1) (buf ++ [char]) nodes brackets
      else if char = ' ' then
        let spaceRun := (text.drop pos).takeWhile (· = ' ')
        let j := pos + spaceRun.length
        if text.get? j = some '\n' ∧ spaceRun.length ≥ 2 then
          let nodes := flushText (trimTrailingSpaces buf) nodes ++ [Inline.hardbreak]
          let pos := j + 1
          let pos := pos + ((text.drop pos).takeWhile (· = ' ')).length
          inlineLoop refs fuel text pos [] nodes brackets
        else
          inlineLoop refs fuel text (pos + 1) (buf ++ [char]) nodes brackets
      else if char = '\n' then
        let nodes := flushText (trimTrailingSpaces buf) nodes ++ [Inline.softbreak]
        let pos := pos + 1
        let pos := pos + ((text.drop pos).takeWhile (· = ' ')).length
        inlineLoop refs fuel text pos [] nodes brackets
      else if char = '*' ∨ char = '_' then
        let nodes := flushText buf nodes
        match parseDelimiterRun text pos with
        | some run =>
          let node := Inline.text ((text.drop pos).take run.length) false false (some run.length)
          inlineLoop refs fuel text (pos + run.length) [] (nodes ++ [node]) brackets
        | none =>
          inlineLoop refs fuel text (pos + 1) [char] nodes brackets
      else if char = '!' ∧ text.get? (pos + 1) = some '[' then
        let nodes := flushText buf nodes ++ [mkText (L "![")]
        let bracket : Bracket :=
          { isImage := true, nodeIndex := nodes.length - 1, active := true, textPos := pos + 2 }
        inlineLoop refs fuel text (pos + 2) [] nodes (bracket :: brackets)
      else if char = '[' then
        let nodes := flushText buf nodes ++ [mkText (L "[")]
        let bracket : Bracket :=
          { isImage := false, nodeIndex := nodes.length - 1, active := true, textPos := pos + 1 }
        inlineLoop refs fuel text (pos + 1) [] nodes (bracket :: brackets)
      else if char = ']' ∧ !brackets.isEmpty then
        let nodes := flushText buf nodes
        match brackets with
        | [] => inlineLoop refs fuel text (pos + 1) (buf ++ [char]) nodes brackets
        | opener :: rest =>
          if !opener.active then
            inlineLoop refs fuel text (pos + 1) [']'] nodes rest
          else
            let attempt : Option BracketMatch :=
              match (if text.get? (pos + 1) = some '(' then parseInlineLink text (pos + 1)
                     else none) with
              | some lr =>
                some { destination := lr.destination, title := lr.title
                       consumed := 1 + lr.length }
              | none =>
                if text.get? (pos + 1) = some '[' then
                  match parseLinkLabel text (pos + 1) with
                  | some (label, llen) =>
                    if !label.isEmpty then
                      (match refGet refs label with
                       | some ref =>
                         some { destination := ref.destination, title := ref.title
                                consumed := 1 + llen }
                       | none => none)
                    else
                      let innerText := extractTextFromNodes (nodes.drop (opener.nodeIndex + 1))
                      let label := normalizeLabel innerText
                      (match refGet refs label with
                       | some ref =>
                         some { destination := ref.destination, title := ref.title
                                consumed := 1 + llen }
                       | none => none)
                  | none => none
                else
                  let rawLabel := (text.take pos).drop opener.textPos
                  let label := normalizeLabel (normalizeLabelForMatching rawLabel)
                  if !label.isEmpty then
                    (match refGet refs label with
                     | some ref =>
                       some { destination := ref.destination, title := ref.title
                              consumed := 1 }
                     | none => none)
                  else none
            match attempt with
            | some m =>
              let innerNodes := nodes.drop (opener.nodeIndex + 1)
              let nodes := nodes.take opener.nodeIndex
              let innerNodes := processEmphasis innerNodes
              let nodes :=
                if opener.isImage then
                  nodes ++ [Inline.image m.destination m.title (extractTextFromNodes innerNodes)]
                else
                  nodes ++ [Inline.link m.destination m.title innerNodes]
              let rest :=
                if !opener.isImage then
                  rest.map (fun b => if !b.isImage then { b with active := false } else b)
                else rest
              inlineLoop refs fuel text (pos + m.consumed) [] nodes rest
            | none =>
              inlineLoop refs fuel text (pos + 1) [']'] nodes rest
      else
        inlineLoop refs fuel text (pos + 1) (buf ++ [char]) nodes brackets
    else processEmphasis (flushText buf nodes)

/-- `InlineParser.parse`. -/
def inlineParse (refs : RefMap) (text : Str) : List Inline :=
  inlineLoop refs (text.length + 1) text 0 [] [] []

mutual

/-- `MarkdownParser.processInlines`: replace the raw content of paragraphs
and headings by parsed inline children, descending through blockquotes and
list items.  A falsy (absent or empty) raw content is left alone. -/
def processInlinesBlock (refs : RefMap) : Block → Block
  | Block.paragraph rc ch =>
    (match rc with
     | some t =>
       if !t.isEmpty then Block.paragraph none (inlineParse refs t)
       else Block.paragraph rc ch
     | none => Block.paragraph rc ch)
  | Block.heading lv rc ch =>
    (match rc with
     | some t =>
       if !t.isEmpty then Block.heading lv none (inlineParse refs t)
       else Block.heading lv rc ch
     | none => Block.heading lv rc ch)
  | Block.blockquote children => Block.blockquote (processInlinesList refs children)
  | Block.list t s tight d b items => Block.list t s tight d b (processInlinesList refs items)
  | Block.list_item chk ch => Block.list_item chk (processInlinesList refs ch)
  | b => b

def processInlinesList (refs : RefMap) : List Block → List Block
  | [] => []
  | b :: rest => processInlinesBlock refs b :: processInlinesList refs rest

end

/-- Fuel used for the fuelled block phase: generous enough for every input
evaluated in this development. -/
def pipelineFuel (input : Str) : Nat := (input.length + 2) * (input.length + 2)

/-- `MarkdownParser.parse` (`parse` of `index.ts`): block phase then inline
phase. -/
def mdParse (input : Str) : List Block :=
  let (blocks, refs) := blockParse (pipelineFuel input) input
  processInlinesList refs blocks

/-- Render options of `HtmlRenderer` (the fields the CommonMark renderer
consults; `softbreak` defaults to a newline, `safe` to false). -/
structure RenderOptions where
  softbreak : Str := ['\n']
  safe : Bool := false
  smart : Bool := false

/-- Decimal digits of a number (for heading levels and list starts). -/
def natToStr (n : Nat) : Str := Nat.toDigits 10 n

/-- ASCII upper-casing (for the percent-triple normalization). -/
def toUpperCh (c : Char) : Char :=
  if 'a' ≤ c ∧ c ≤ 'z' then Char.ofNat (c.toNat - 32) else c

/-- Upper-case hexadecimal digit. -/
def toHexDigit (n : Nat) : Char :=
  if n < 10 then Char.ofNat ('0'.toNat + n) else Char.ofNat ('A'.toNat + n - 10)

/-- UTF-8 bytes of a scalar value. -/
def utf8Bytes (c : Char) : List Nat :=
  let n := c.toNat
  if n < 0x80 then [n]
  else if n < 0x800 then [0xc0 + n / 64, 0x80 + n % 64]
  else if n < 0x10000 then [0xe0 + n / 4096, 0x80 + n / 64 % 64, 0x80 + n % 64]
  else [0xf0 + n / 262144, 0x80 + n / 4096 % 64, 0x80 + n / 64 % 64, 0x80 + n % 64]

/-- A percent-encoded byte. -/
def pctByte (b : Nat) : Str := ['%', toHexDigit (b / 16), toHexDigit (b % 16)]

/-- The characters `encodeURIComponent` leaves unencoded. -/
def isUriCompUnreserved (c : Char) : Bool :=
  isAlnumCh c || c = '-' || c = '_' || c = '.' || c = '!' || c = '~' || c = '*' ||
  c = squote || c = '(' || c = ')'

/-- JavaScript `encodeURIComponent` on one character. -/
def encodeURIComponentCh (c : Char) : Str :=
  if isUriCompUnreserved c then [c] else (utf8Bytes c).flatMap pctByte

/-- The preserved-character class of `encodeUrl` in `renderer.ts`. -/
def isUrlPreservedCh (c : Char) : Bool :=
  isAlnumCh c || c = '-' || c = '.' || c = '_' || c = '~' || c = ':' || c = '/' ||
  c = '?' || c = '#' || c = '@' || c = '!' || c = '$' || c = '&' || c = squote ||
  c = '(' || c = ')' || c = '*' || c = '+' || c = ',' || c = ';' || c = '='

/-- `encodeUrl` of `renderer.ts`: normalize percent-triples to upper case,
preserve the allowed class, percent-encode everything else (the surrogate
branch of the source pairs UTF-16 halves; on scalar strings it coincides
with per-character encoding). -/
def encodeUrl : Str → Str
  | [] => []
  | '%' :: a :: b :: rest =>
    if isHexDigitCh a && isHexDigitCh b then
      '%' :: toUpperCh a :: toUpperCh b :: encodeUrl rest
    else if isUrlPreservedCh '%' then '%' :: encodeUrl (a :: b :: rest)
    else encodeURIComponentCh '%' ++ encodeUrl (a :: b :: rest)
  | c :: rest =>
    if isUrlPreservedCh c then c :: encodeUrl rest
    else encodeURIComponentCh c ++ encodeUrl rest

/-- Strip one trailing newline (`replace(/\n$/, "")`, `renderHtmlBlock`). -/
def stripFinalNl (l : Str) : Str :=
  if l.getLast? = some '\n' then l.dropLast else l

/-- One smart-punctuation token: the character, the index of the text node
it came from (none for non-text tokens), and its `noSmart` flag. -/
structure SmartTok where
  ch : Char
  nodeIdx : Option Nat
  noSmart : Bool
deriving DecidableEq, Repr

/-- The token flattening of `renderInlinesSmart`: text nodes contribute
their characters, breaks a newline, any other inline an opaque letter. -/
def smartTokens (inlines : List Inline) : List SmartTok :=
  (inlines.enum.map (fun p =>
    match p.2 with
    | Inline.text lit _ ns _ => lit.map (fun c => SmartTok.mk c (some p.1) ns)
    | Inline.softbreak => [SmartTok.mk '\n' none false]
    | Inline.hardbreak => [SmartTok.mk '\n' none false]
    | _ => [SmartTok.mk 'A' none false])).flatten

/-- Alphanumeric test of the smart pass. -/
def isAlphaNumSmart (c : Char) : Bool := isAlnumCh c

/-- The quote-pairing loop of `renderInlinesSmart`: walk the tokens with the
two opener stacks, accumulating replacements (token index, replacement
string). -/
def smartQuoteLoop (toks : List SmartTok) : Nat → List Nat → List Nat →
    List (Nat × Str) → List (Nat × Str)
  | i, doubleStack, singleStack, repl =>
    match h : toks[i]? with
    | none =>
      repl ++ doubleStack.map (fun idx => (idx, L "“")) ++
        singleStack.map (fun idx => (idx, L "’"))
    | some tok =>
      if tok.noSmart || (tok.ch ≠ '"' && tok.ch ≠ squote) then
        smartQuoteLoop toks (i + 1) doubleStack singleStack repl
      else
        let before := if i > 0 then ((toks[i - 1]?).map SmartTok.ch).getD '\n' else '\n'
        let after := ((toks[i + 1]?).map SmartTok.ch).getD '\n'
        let beforeIsWhitespace := jsWs before
        let afterIsWhitespace := jsWs after
        let beforeIsPunct := isUnicodePunctuation before
        let afterIsPunct := isUnicodePunctuation after
        let leftFlanking0 := !afterIsWhitespace &&
          (!afterIsPunct || beforeIsWhitespace || beforeIsPunct)
        let rightFlanking := !beforeIsWhitespace &&
          (!beforeIsPunct || afterIsWhitespace || afterIsPunct)
        let leftFlanking := if before = ')' || before = ']' then false else leftFlanking0
        if tok.ch = squote then
          if isAlphaNumSmart before && isAlphaNumSmart after then
            smartQuoteLoop toks (i + 1) doubleStack singleStack (repl ++ [(i, L "’")])
          else if (before = ')' || before = ']') && isAlphaNumSmart after then
            smartQuoteLoop toks (i + 1) doubleStack singleStack (repl ++ [(i, L "’")])
          else if rightFlanking ∧ !singleStack.isEmpty then
            (match singleStack with
             | openerIdx :: restStack =>
               smartQuoteLoop toks (i + 1) doubleStack restStack
                 (repl ++ [(openerIdx, L "‘"), (i, L "’")])
             | [] => smartQuoteLoop toks (i + 1) doubleStack singleStack repl)
          else if leftFlanking then
            smartQuoteLoop toks (i + 1) doubleStack (i :: singleStack) repl
          else
            smartQuoteLoop toks (i + 1) doubleStack singleStack (repl ++ [(i, L "’")])
        else
          if rightFlanking ∧ !doubleStack.isEmpty then
            (match doubleStack with
             | openerIdx :: restStack =>
               smartQuoteLoop toks (i + 1) restStack singleStack
                 (repl ++ [(openerIdx, L "“"), (i, L "”")])
             | [] => smartQuoteLoop toks (i + 1) doubleStack singleStack repl)
          else if leftFlanking then
            smartQuoteLoop toks (i + 1) (i :: doubleStack) singleStack repl
          else
            smartQuoteLoop toks (i + 1) doubleStack singleStack (repl ++ [(i, L "“")])
termination_by i => toks.length + 1 - i
decreasing_by
  all_goals
    have hi : i < toks.length := by
      cases Nat.lt_or_ge i toks.length with
      | inl h' => exact h'
      | inr h' => simp [List.getElem?_eq_none h'] at h
    omega

/-- The ellipsis replacement of `applyDashesAndEllipses`
(`replace(/\.{3}/g, "…")`). -/
def applyEllipses : Str → Str
  | [] => []
  | '.' :: '.' :: '.' :: rest => '…' :: applyEllipses rest
  | c :: rest => c :: applyEllipses rest

/-- The run replacement of `applyDashesAndEllipses` for one dash run. -/
def dashRunRepl (count : Nat) : Str :=
  if count % 3 = 0 then List.replicate (count / 3) '—'
  else if count % 2 = 0 then List.replicate (count / 2) '–'
  else
    let emCount := count / 3
    let remainder := count % 3
    let (emCount, enCount) :=
      if remainder = 1 then (emCount - 1, 2)
      else if remainder = 2 then (emCount, 1)
      else (emCount, 0)
    List.replicate emCount '—' ++ List.replicate enCount '–'

/-- The dash replacement of `applyDashesAndEllipses`: the global replace
over runs of two or more dashes. -/
def applyDashes : Str → Str
  | [] => []
  | '-' :: rest =>
    let run := rest.takeWhile (· = '-')
    if run.length + 1 ≥ 2 then
      dashRunRepl (run.length + 1) ++ applyDashes (rest.drop run.length)
    else '-' :: applyDashes rest
  | c :: rest => c :: applyDashes rest
termination_by l => l.length
decreasing_by
  · simp only [List.length_drop, List.length_cons]
    omega
  · simp
  · simp

/-- `applyDashesAndEllipses` of `renderer.ts`. -/
def applyDashesAndEllipses (text : Str) : Str := applyDashes (applyEllipses text)

/-- The smart rendering of one text node: apply the computed replacements to
its tokens, then dashes and ellipses, then HTML escaping.  A `noSmart`
node is escaped unchanged. -/
def smartRenderText (toks : List SmartTok) (repl : List (Nat × Str)) (idx : Nat)
    (lit : Str) (ns : Bool) : Str :=
  if ns then escapeHtml lit
  else
    let indices := (List.range toks.length).filter
      (fun t => (toks[t]?).map SmartTok.nodeIdx = some (some idx))
    let raw := (indices.map (fun t =>
      match (repl.find? (fun p => p.1 = t)) with
      | some p => p.2
      | none => [((toks[t]?).map SmartTok.ch).getD ' '])).flatten
    escapeHtml (applyDashesAndEllipses raw)

/-- Concatenate rendered fragments (`join("")`). -/
def joinStrs (ls : List Str) : Str := ls.flatten

mutual

/-- `HtmlRenderer.renderBlocks`: render and join with newlines.  The
renderer functions are fuelled; the wrapper `render` passes a fuel larger
than the nesting depth of any finite tree, so it never runs out. -/
def renderBlocks (opts : RenderOptions) : Nat → List Block → Bool → Str
  | 0, _, _ => []
  | fuel + 1, blocks, tight =>
    joinLines (blocks.map (fun b => renderBlock opts fuel b tight))

/-- `HtmlRenderer.renderBlock`: dispatch on the node type; unknown variants
render as the empty string. -/
def renderBlock (opts : RenderOptions) : Nat → Block → Bool → Str
  | 0, _, _ => []
  | fuel + 1, block, tight =>
    match block with
    | Block.paragraph _ children =>
      let content := renderInlines opts fuel children
      if tight then content else L "<p>" ++ content ++ L "</p>"
    | Block.heading level _ children =>
      let content := renderInlines opts fuel children
      L "<h" ++ natToStr level ++ L ">" ++ content ++ L "</h" ++ natToStr level ++ L ">"
    | Block.thematic_break => L "<hr />"
    | Block.code_block info literal _ =>
      let escaped := escapeHtml literal
      if !info.isEmpty then
        let lang := escapeHtml (info.takeWhile (fun c => !(jsWs c)))
        L "<pre><code class=\"language-" ++ lang ++ L "\">" ++ escaped ++ L "</code></pre>"
      else L "<pre><code>" ++ escaped ++ L "</code></pre>"
    | Block.blockquote children =>
      let content := renderBlocks opts fuel children false
      if !content.isEmpty then L "<blockquote>\n" ++ content ++ L "\n</blockquote>"
      else L "<blockquote>\n</blockquote>"
    | Block.list listType start tight_ _ _ items =>
      let tag := if listType = ListType.bullet then L "ul" else L "ol"
      let startAttr :=
        if listType = ListType.ordered ∧ start ≠ 1 then
          L " start=\"" ++ natToStr start ++ L "\""
        else []
      let itemsStr := joinLines (items.map (fun it => renderListItem opts fuel it tight_))
      L "<" ++ tag ++ startAttr ++ L ">\n" ++ itemsStr ++ L "\n</" ++ tag ++ L ">"
    | Block.list_item chk ch => renderListItem opts fuel (Block.list_item chk ch) false
    | Block.html_block literal =>
      if opts.safe then L "<!-- raw HTML omitted -->" else stripFinalNl literal
    | _ => []

/-- `HtmlRenderer.renderListItem`. -/
def renderListItem (opts : RenderOptions) : Nat → Block → Bool → Str
  | 0, _, _ => []
  | fuel + 1, node, tight =>
    match node with
    | Block.list_item _ children =>
      if children.isEmpty then L "<li></li>"
      else
        let content := renderBlocks opts fuel children tight
        if tight ∧ children.length = 1 ∧ (children.headD Block.thematic_break).isParagraph then
          L "<li>" ++ content ++ L "</li>"
        else if !content.isEmpty then L "<li>\n" ++ content ++ L "\n</li>"
        else L "<li></li>"
    | other => renderBlock opts fuel other tight

/-- `HtmlRenderer.renderInlines`. -/
def renderInlines (opts : RenderOptions) : Nat → List Inline → Str
  | 0, _ => []
  | fuel + 1, inlines =>
    if opts.smart then renderInlinesSmart opts fuel inlines
    else joinStrs (inlines.map (fun n => renderInline opts fuel n))

/-- `HtmlRenderer.renderInline`: dispatch on the inline type; unknown
variants (including strikethrough, which only the GFM renderer handles)
render as the empty string. -/
def renderInline (opts : RenderOptions) : Nat → Inline → Str
  | 0, _ => []
  | fuel + 1, inline =>
    match inline with
    | Inline.text lit _ _ _ => escapeHtml lit
    | Inline.softbreak => opts.softbreak
    | Inline.hardbreak => L "<br />\n"
    | Inline.code_span lit => L "<code>" ++ escapeHtml lit ++ L "</code>"
    | Inline.emphasis children =>
      L "<em>" ++ renderInlines opts fuel children ++ L "</em>"
    | Inline.strong children =>
      L "<strong>" ++ renderInlines opts fuel children ++ L "</strong>"
    | Inline.link dest title children =>
      if opts.safe && startsWithCI dest (L "javascript:") then
        renderInlines opts fuel children
      else
        let href := escapeHtml (encodeUrl dest)
        let titleAttr :=
          if !title.isEmpty then L " title=\"" ++ escapeHtml title ++ L "\"" else []
        L "<a href=\"" ++ href ++ L "\"" ++ titleAttr ++ L ">" ++
          renderInlines opts fuel children ++ L "</a>"
    | Inline.image dest title alt =>
      if opts.safe && startsWithCI dest (L "javascript:") then escapeHtml alt
      else
        let src := escapeHtml (encodeUrl dest)
        let titleAttr :=
          if !title.isEmpty then L " title=\"" ++ escapeHtml title ++ L "\"" else []
        L "<img src=\"" ++ src ++ L "\" alt=\"" ++ escapeHtml alt ++ L "\"" ++ titleAttr ++ L " />"
    | Inline.html_inline lit =>
      if opts.safe then L "<!-- raw HTML omitted -->" else lit
    | _ => []

/-- `HtmlRenderer.renderInlinesSmart`: flatten to tokens, pair quotes,
re-render text nodes with the replacements and the dash/ellipsis pass. -/
def renderInlinesSmart (opts : RenderOptions) : Nat → List Inline → Str
  | 0, _ => []
  | fuel + 1, inlines =>
    let toks := smartTokens inlines
    let repl := smartQuoteLoop toks 0 [] [] []
    joinStrs ((inlines.enum).map (fun p =>
      match p.2 with
      | Inline.text lit _ ns _ => smartRenderText toks repl p.1 lit ns
      | other => renderInline opts fuel other))

end

mutual

/-- Computable weight of a block tree (a fuel bound for the renderer). -/
def blockWeight : Block → Nat
  | Block.paragraph _ ch => 1 + inlinesWeight ch
  | Block.heading _ _ ch => 1 + inlinesWeight ch
  | Block.thematic_break => 1
  | Block.code_block _ _ _ => 1
  | Block.blockquote ch => 1 + blocksWeight ch
  | Block.list _ _ _ _ _ items => 1 + blocksWeight items
  | Block.list_item _ ch => 1 + blocksWeight ch
  | Block.html_block _ => 1
  | Block.table _ rows => 1 + blocksWeight rows
  | Block.table_row _ cells => 1 + blocksWeight cells
  | Block.table_cell _ _ _ ch => 1 + inlinesWeight ch

def blocksWeight : List Block → Nat
  | [] => 0
  | b :: rest => blockWeight b + blocksWeight rest

def inlineWeight : Inline → Nat
  | Inline.emphasis ch => 1 + inlinesWeight ch
  | Inline.strong ch => 1 + inlinesWeight ch
  | Inline.strikethrough ch => 1 + inlinesWeight ch
  | Inline.link _ _ ch => 1 + inlinesWeight ch
  | _ => 1

def inlinesWeight : List Inline → Nat
  | [] => 0
  | n :: rest => inlineWeight n + inlinesWeight rest

end

/-- Fuel used for the fuelled renderer: a multiple of the tree weight
bounds the recursion depth. -/
def renderFuel (blocks : List Block) : Nat := 4 * blocksWeight blocks + 16

/-- `HtmlRenderer.render`: render the document children, appending a final
newline when the output is non-empty. -/
def render (opts : RenderOptions) (blocks : List Block) : Str :=
  let content := renderBlocks opts (renderFuel blocks) blocks false
  if !content.isEmpty then content ++ ['\n'] else []

/-- `markdown` of `index.ts` with default options: parse then render. -/
def markdown (input : Str) : Str :=
  render {} (mdParse input)

/-- The cell-splitting loop of `splitTableRow` in `table.ts`: `|` separates
cells except inside a backtick run or when escaped as `\|`.  The `inB`
argument carries the open backtick-run length (`none` outside backticks).
The fuel only caps the iteration count; every step consumes at least one
character, so the caller's `length + 1` always suffices. -/
def splitTableRowGo : Nat → Str → Option Nat → Str → List Str
  | 0, _, _, current => [current]
  | _ + 1, [], _, current => [current]
  | fuel + 1, c :: rest, inB, current =>
    if c = btick then
      let run := rest.takeWhile (· = btick)
      let count := 1 + run.length
      let current := current ++ List.replicate count btick
      match inB with
      | none => splitTableRowGo fuel (rest.drop run.length) (some count) current
      | some openCount =>
        if count = openCount then splitTableRowGo fuel (rest.drop run.length) none current
        else splitTableRowGo fuel (rest.drop run.length) (some openCount) current
    else if c = '\\' ∧ rest.head? = some '|' then
      splitTableRowGo fuel (rest.drop 1) inB (current ++ ['|'])
    else if c = '|' ∧ inB = none then
      current :: splitTableRowGo fuel rest none []
    else
      splitTableRowGo fuel rest inB (current ++ [c])

/-- `splitTableRow` of `table.ts`: trim the line, strip one leading pipe and
one unescaped trailing pipe, then split. -/
def splitTableRow (line : Str) : List Str :=
  let trimmed := jsTrim line
  let trimmed := if trimmed.head? = some '|' then trimmed.drop 1 else trimmed
  let trimmed :=
    if trimmed.getLast? = some '|' ∧
        !(trimmed.length ≥ 2 ∧ trimmed.get? (trimmed.length - 2) = some '\\') then
      trimmed.dropLast
    else trimmed
  splitTableRowGo (trimmed.length + 1) trimmed none []

/-- `isTableRow` of `table.ts`: the trimmed line contains an unescaped
pipe. -/
def isTableRow (line : Str) : Bool :=
  let trimmed := jsTrim line
  (List.range trimmed.length).any (fun i =>
    trimmed.get? i = some '|' &&
    (i = 0 || trimmed.get? (i - 1) ≠ some '\\'))

/-- The per-cell alignment test of `parseDelimiterRow` (`^:?-+:?$`). -/
def delimCellAlign (content : Str) : Option (Option Align) :=
  let hasLeft := content.head? = some ':'
  let body := if hasLeft then content.drop 1 else content
  let dashes := body.takeWhile (· = '-')
  let afterDashes := body.drop dashes.length
  if dashes.length ≥ 1 then
    match afterDashes with
    | [] =>
      some (if hasLeft then some Align.left else none)
    | [':'] =>
      some (if hasLeft then some Align.center else some Align.right)
    | _ => none
  else none

/-- `parseDelimiterRow` of `table.ts`. -/
def parseDelimiterRow (line : Str) : Option (List (Option Align)) :=
  let trimmed := jsTrim line
  let cells := splitTableRow trimmed
  if cells.length = 0 then none
  else
    cells.foldr (fun cell acc =>
      match acc with
      | none => none
      | some als =>
        match delimCellAlign (jsTrim cell) with
        | some al => some (al :: als)
        | none => none) (some [])

/-- `isTableStart` of `table.ts`: the header line must be a table row with
content, the delimiter line must parse, and the cell counts must agree. -/
def isTableStart (headerLine delimiterLine : Str) : Option (List (Option Align)) :=
  if !isTableRow headerLine then none
  else
    let headerCells := splitTableRow headerLine
    let hasContent := headerCells.any (fun cell => !(jsTrim cell).isEmpty)
    if !hasContent then none
    else
      match parseDelimiterRow delimiterLine with
      | none => none
      | some alignments =>
        if headerCells.length ≠ alignments.length then none
        else some alignments

/-- `parseTableRowCells` of `table.ts`: one cell per alignment; missing
cells get empty content, extra split cells are dropped. -/
def parseTableRowCells (line : Str) (alignments : List (Option Align))
    (isHeader : Bool) : List Block :=
  let cellContents := splitTableRow line
  (List.range alignments.length).map (fun i =>
    let content := jsTrim (cellContents.getD i [])
    Block.table_cell (alignments.getD i none) isHeader (some content) [])

/-- `parseTaskListMarker` of `task-list.ts` (`^\[([ xX])\](?=\s)`),
returning the checked state; the consumed length is 3. -/
def parseTaskListMarker (text : Str) : Option Bool :=
  match text with
  | '[' :: c :: ']' :: rest =>
    if (c = ' ' || c = 'x' || c = 'X') &&
        (match rest.head? with
         | some d => jsWs d
         | none => false) then
      some (c = 'x' ∨ c = 'X')
    else none
  | _ => none

/-- One-whitespace strip (`replace(/^\s/, "")`). -/
def dropOneWs (l : Str) : Str :=
  match l with
  | c :: rest => if jsWs c then rest else l
  | [] => []

/-- `processTaskListItem` of `task-list.ts`: recognize a task-list marker at
the start of the item's first paragraph (raw content before the inline
phase, leading text node after it), set `checked` and strip the marker. -/
def processTaskListItem (item : Block) : Block :=
  match item with
  | Block.list_item chk children =>
    (match children with
     | [] => Block.list_item chk children
     | first :: rest =>
       match first with
       | Block.paragraph (some rc) ch =>
         (match parseTaskListMarker rc with
          | some checked =>
            Block.list_item (some checked)
              (Block.paragraph (some (dropOneWs (rc.drop 3))) ch :: rest)
          | none => Block.list_item chk children)
       | Block.paragraph none ch =>
         (match ch with
          | Inline.text lit nd ns o :: chRest =>
            (match parseTaskListMarker lit with
             | some checked =>
               let lit' := dropOneWs (lit.drop 3)
               let newCh :=
                 if lit'.isEmpty then chRest
                 else Inline.text lit' nd ns o :: chRest
               Block.list_item (some checked) (Block.paragraph none newCh :: rest)
             | none => Block.list_item chk children)
          | _ => Block.list_item chk children)
       | _ => Block.list_item chk children)
  | b => b

mutual

/-- `processTaskLists` of `task-list.ts`: walk lists (and their items'
children) and blockquotes. -/
def processTaskLists : List Block → List Block
  | [] => []
  | b :: rest => processTaskListsBlock b :: processTaskLists rest

def processTaskListsBlock : Block → Block
  | Block.list t s tight d bc items =>
    Block.list t s tight d bc (processTaskListsItems items)
  | Block.blockquote ch => Block.blockquote (processTaskLists ch)
  | b => b

def processTaskListsItems : List Block → List Block
  | [] => []
  | it :: rest =>
    (match it with
     | Block.list_item chk ch =>
       -- The source rewrites the item head first and then recurses into the
       -- children; the rewrite only touches a leading paragraph and the
       -- recursion only lists and blockquotes (paragraphs are fixed points),
       -- so the two steps commute and are applied here in the opposite order
       -- to keep the recursion structural.
       processTaskListItem (Block.list_item chk (processTaskLists ch))
     | other => other) :: processTaskListsItems rest

end

/-- The label-collection loop of `parseFootnoteLabel` in `footnote.ts`. -/
def footnoteLabelScan : Str → Option (Str × Nat)
  | [] => none
  | '\\' :: c :: rest =>
    if c = '[' ∨ c = ']' ∨ c = '\\' then
      (match footnoteLabelScan rest with
       | some (lab, n) => some (c :: lab, n + 2)
       | none => none)
    else
      (match footnoteLabelScan (c :: rest) with
       | some (lab, n) => some ('\\' :: lab, n + 1)
       | none => none)
  | ']' :: _ => some ([], 0)
  | c :: rest =>
    (match footnoteLabelScan rest with
     | some (lab, n) => some (c :: lab, n + 1)
     | none => none)

/-- `parseFootnoteLabel` of `footnote.ts`: `[^label]` with escapes,
returning the raw label, the normalized key and the total length. -/
def parseFootnoteLabel (text : Str) (pos : Nat) : Option (Str × Str × Nat) :=
  if text.get? pos = some '[' ∧ text.get? (pos + 1) = some '^' then
    match footnoteLabelScan (text.drop (pos + 2)) with
    | none => none
    | some (label, inner) =>
      if label.length = 0 ∨ label.length > 999 then none
      else some (label, normalizeLabel label, inner + 3)
  else none

/-- A stored footnote definition (`FootnoteDefinition` of `types.ts`). -/
structure FootnoteDef where
  label : Str
  blocks : List Block

/-- The footnote side table: a JavaScript `Map` in insertion order. -/
abbrev FnMap := List (Str × FootnoteDef)

/-- JavaScript `Map.has` on the footnote table. -/
def fnHas (m : FnMap) (k : Str) : Bool := m.any (fun p => p.1 = k)

/-- First-definition-wins insertion on the footnote table. -/
def fnSetIfAbsent (m : FnMap) (k : Str) (v : FootnoteDef) : FnMap :=
  if fnHas m k then m else m ++ [(k, v)]

/-- Merging a sub-parse's footnote definitions first-wins. -/
def mergeFns (parent child : FnMap) : FnMap :=
  child.foldl (fun m p => fnSetIfAbsent m p.1 p.2) parent

/-- The content-line collection loop of `parseFootnoteDefinition`: indented
continuation lines, with blank lines kept only when some later non-blank
line is still indented at least four columns. -/
def collectFootnoteLines : List Str → List Str × Nat
  | [] => ([], 0)
  | line :: rest =>
    if (jsTrim line).isEmpty then
      let after := rest.dropWhile (fun l => (jsTrim l).isEmpty)
      match after.head? with
      | some nb =>
        if getIndent nb ≥ 4 then
          let (ls, n) := collectFootnoteLines rest
          ([] :: ls, n + 1)
        else ([], 0)
      | none => ([], 0)
    else if getIndent line ≥ 4 then
      let (ls, n) := collectFootnoteLines rest
      (removeIndent line 4 :: ls, n + 1)
    else ([], 0)

/-- The body-row consumption loop of `GFMBlockParser.parseTable`: rows until
a blank line, blockquote marker, thematic break, ATX heading, fence opener
or HTML block start. -/
def consumeTableRows (al : List (Option Align)) : List Str → List Block × Nat
  | [] => ([], 0)
  | line :: rest =>
    if (jsTrim line).isEmpty then ([], 0)
    else if matchBqSimple line then ([], 0)
    else if isThematicBreak line then ([], 0)
    else if (parseAtxHeading line).isSome then ([], 0)
    else if (parseFenceOpen line).isSome then ([], 0)
    else if (getHtmlBlockType line true).isSome then ([], 0)
    else
      let (rows, n) := consumeTableRows al rest
      (Block.table_row false (parseTableRowCells line al false) :: rows, n + 1)

/-- `GFMBlockParser.parseTable`: header row from the buffered line, then
body rows starting after the delimiter row at index `i`.  Returns the table
and the next line index. -/
def gfmParseTable (headerLine : Str) (al : List (Option Align)) (lines : List Str)
    (i : Nat) : Block × Nat :=
  let headerRow := Block.table_row true (parseTableRowCells headerLine al true)
  let (rows, consumed) := consumeTableRows al (lines.drop (i + 1))
  (Block.table al (headerRow :: rows), i + 1 + consumed)

mutual

/-- `GFMBlockParser.parse` with the default extension set (tables, task
lists and footnotes all enabled, as produced by `normalizeExtensions` for
unspecified options; sub-parsers are constructed without arguments and so
also run with every extension enabled): run the block loop, then rewrite
task-list items. -/
def gfmBlockParse : Nat → Str → List Block × RefMap × FnMap
  | 0, _ => ([], [], [])
  | fuel + 1, input =>
    let (blocks, refs, fns) :=
      gfmParseBlocksLoop fuel (splitLines (normalizeLineEndings input)) 0 [] [] [] []
    (processTaskLists blocks, refs, fns)

/-- The main loop of `GFMBlockParser.parseBlocks`: one recursive call per
iteration of the `while` loop.  Branch order follows the source: lazy
continuation, blank line, footnote definition, table start, setext
underline, thematic break, ATX heading, equals underline, fenced code,
indented code, blockquote, list, HTML block, paragraph accumulation. -/
def gfmParseBlocksLoop (fuel : Nat) (lines : List Str) (i : Nat) (pl : List Str)
    (children : List Block) (refs : RefMap) (fns : FnMap) :
    List Block × RefMap × FnMap :=
  match fuel with
  | 0 =>
    let (children, refs) := finishParagraph pl children refs
    (children, refs, fns)
  | fuel + 1 =>
    match lines[i]? with
    | none =>
      let (children, refs) := finishParagraph pl children refs
      (children, refs, fns)
    | some line =>
      if startsWith line [lazyMark] then
        let raw := line.drop 1
        gfmParseBlocksLoop fuel lines (i + 1)
          (pl ++ [removeIndent raw (min (getIndent raw) 3)]) children refs fns
      else
      let lineIndent := getIndent line
      if (jsTrim line).isEmpty then
        let (children, refs) := finishParagraph pl children refs
        gfmParseBlocksLoop fuel lines (i + 1) [] children refs fns
      else
      let trimmed := line.drop (lead3 line)
      match (match parseFootnoteLabel trimmed 0 with
             | some (label, key, labelLen) =>
               if trimmed.get? labelLen = some ':' then some (label, key, labelLen)
               else none
             | none => none) with
      | some (label, key, labelLen) =>
        -- `parseFootnoteDefinition`
        let (children, refs) := finishParagraph pl children refs
        if key.isEmpty then
          gfmParseBlocksLoop fuel lines (i + 1) [] children refs fns
        else
          let afterColon := trimmed.drop (labelLen + 1)
          let firstContent := afterColon.dropWhile isSpTab
          let firstLines := if firstContent.length > 0 then [firstContent] else []
          let (more, consumed) := collectFootnoteLines (lines.drop (i + 1))
          let (subBlocks, subRefs, _) := gfmBlockParse fuel (joinLines (firstLines ++ more))
          let refs := mergeRefs refs subRefs
          let fns := fnSetIfAbsent fns key ⟨label, subBlocks⟩
          gfmParseBlocksLoop fuel lines (i + 1 + consumed) [] children refs fns
      | none =>
      match (if decide (pl.length ≥ 1) && isTableRow (pl.getLastD []) then
               isTableStart (pl.getLastD []) line
             else none) with
      | some al =>
        -- the table branch: flush the earlier buffered lines (extracting
        -- link references) and open a table from the buffered header line
        let (children, refs) :=
          if pl.length > 1 then
            let (text, refs) := stripLinkRefs (joinLines pl.dropLast) refs
            let text := jsTrim text
            if text.length > 0 then (children ++ [Block.paragraph (some text) []], refs)
            else (children, refs)
          else (children, refs)
        let (table, nextI) := gfmParseTable (pl.getLastD []) al lines i
        gfmParseBlocksLoop fuel lines nextI [] (children ++ [table]) refs fns
      | none =>
      if (!pl.isEmpty && (getSetextLevel line).isSome : Bool) then
        let level := (getSetextLevel line).getD 2
        let (content, refs) := stripLinkRefs (joinLines pl) refs
        let content := jsTrim content
        if !content.isEmpty then
          gfmParseBlocksLoop fuel lines (i + 1) []
            (children ++ [Block.heading level (some content) []]) refs fns
        else if isThematicBreak line then
          gfmParseBlocksLoop fuel lines (i + 1) [] (children ++ [Block.thematic_break]) refs fns
        else
          gfmParseBlocksLoop fuel lines (i + 1) [line] children refs fns
      else
      if isThematicBreak line then
        let (children, refs) := finishParagraph pl children refs
        gfmParseBlocksLoop fuel lines (i + 1) [] (children ++ [Block.thematic_break]) refs fns
      else
      match parseAtxHeading line with
      | some (level, content) =>
        let (children, refs) := finishParagraph pl children refs
        gfmParseBlocksLoop fuel lines (i + 1) []
          (children ++ [Block.heading level (some content) []]) refs fns
      | none =>
      if !pl.isEmpty && matchEqualsUnderline line then
        let (content, refs) := stripLinkRefs (joinLines pl) refs
        let content := jsTrim content
        if !content.isEmpty then
          gfmParseBlocksLoop fuel lines (i + 1) []
            (children ++ [Block.heading 1 (some content) []]) refs fns
        else
          gfmParseBlocksLoop fuel lines (i + 1) [line] children refs fns
      else
      match parseFenceOpen line with
      | some fi =>
        let (children, refs) := finishParagraph pl children refs
        let (codeLines0, consumed, closed) := consumeFenceLines fi (lines.drop (i + 1))
        let codeLines := if closed then codeLines0 else popTrailingEmpty codeLines0
        let info := unescapeString (decodeHtmlEntities fi.info)
        gfmParseBlocksLoop fuel lines (i + 1 + consumed) []
          (children ++ [createFencedCodeBlock info codeLines fi.indent]) refs fns
      | none =>
      if pl.isEmpty ∧ lineIndent ≥ 4 then
        let (more, consumed) := consumeIndentedLines (lines.drop (i + 1))
        let codeLines := popTrailingEmpty (removeIndent line 4 :: more)
        gfmParseBlocksLoop fuel lines (i + 1 + consumed) []
          (children ++ [createIndentedCodeBlock codeLines]) refs fns
      else
      match matchBlockquote line with
      | some _ =>
        let (children, refs) := finishParagraph pl children refs
        let (quoteLines, consumed) := collectQuoteGo (lines.drop i) none []
        let (subBlocks, subRefs, subFns) := gfmBlockParse fuel (joinLines quoteLines)
        let refs := mergeRefs refs subRefs
        let fns := mergeFns fns subFns
        gfmParseBlocksLoop fuel lines (i + consumed) []
          (children ++ [Block.blockquote subBlocks]) refs fns
      | none =>
      match (match parseListMarker line with
             | some m => if listCanInterrupt pl line m then some m else none
             | none => none) with
      | some marker =>
        let (children, refs) := finishParagraph pl children refs
        let (items, nextI, refs, fns, blankIn, blankBet) :=
          gfmParseListLoop fuel lines i marker refs fns false false false []
        let tight := !(blankIn || blankBet)
        gfmParseBlocksLoop fuel lines nextI []
          (children ++ [Block.list marker.type (marker.start.getD 1) tight
            marker.delimiter marker.bulletChar items]) refs fns
      | none =>
        -- the HTML-block branch and the final paragraph-accumulation branch
        match getHtmlBlockType line pl.isEmpty with
        | some t =>
          let (children, refs) := finishParagraph pl children refs
          let closeOnSameLine := decide (1 ≤ t) && decide (t ≤ 5) && isHtmlBlockClose line t
          if closeOnSameLine then
            gfmParseBlocksLoop fuel lines (i + 1) []
              (children ++ [Block.html_block (line ++ ['\n'])]) refs fns
          else
            let (more, consumed) := consumeHtmlLines t (lines.drop (i + 1))
            gfmParseBlocksLoop fuel lines (i + 1 + consumed) []
              (children ++ [Block.html_block (joinLines (line :: more) ++ ['\n'])]) refs fns
        | none =>
          gfmParseBlocksLoop fuel lines (i + 1)
            (pl ++ [removeIndent line (min (getIndent line) 3)]) children refs fns

/-- The item loop of `GFMBlockParser.parseList`, with the body of
`parseListItem` inlined: collect the item's lines, parse them with a fresh
sub-parser, merge its link references and footnote definitions, and track
the blank-line information that decides tightness. -/
def gfmParseListLoop (fuel : Nat) (lines : List Str) (i : Nat) (firstMarker : ListMarker)
    (refs : RefMap) (fns : FnMap) (sawBlank sawIn sawBet : Bool) (acc : List Block) :
    List Block × Nat × RefMap × FnMap × Bool × Bool :=
  match fuel with
  | 0 => (acc, i, refs, fns, sawIn, sawBet)
  | fuel + 1 =>
    match lines[i]? with
    | none => (acc, i, refs, fns, sawIn, sawBet)
    | some line =>
      if isThematicBreak line then (acc, i, refs, fns, sawIn, sawBet)
      else
        match (match parseListMarker line with
               | some m => if listsMatch firstMarker m then some m else none
               | none => none) with
        | some m =>
          let sawBet := sawBet || sawBlank
          let firstLine0 := lines.getD i []
          let firstLine := if startsWith firstLine0 [lazyMark] then firstLine0.drop 1 else firstLine0
          let firstContent := extractListItemContent firstLine m
          let firstBlank := (jsTrim firstContent).isEmpty
          let itemLines0 : List Str :=
            if firstBlank && (match (firstLine.drop (m.indentChars + m.marker.length)).head? with
                | some c => isSpTab c
                | none => false) then [[]]
            else [firstContent]
          let st0 : LIScan :=
            { sawBlankLine := false, blankLineInItem := false, trailingBlanks := 0
              lastNonBlankIndent := if firstBlank then none else some m.contentIndent
              lastNonBlankWasListMarker :=
                if firstBlank then false else (parseListMarker firstContent).isSome
              sawNonBlankContent := !firstBlank
              inFence := if firstBlank then none else parseFenceOpen firstContent }
          let (collected, consumed, stOut) := collectListItemGo m (lines.drop (i + 1)) st0 itemLines0
          let endsWithBlank := stOut.trailingBlanks > 0
          let itemLines := popTrailingEmpty collected
          let (subBlocks, subRefs, subFns) := gfmBlockParse fuel (joinLines itemLines)
          let refs := mergeRefs refs subRefs
          let fns := mergeFns fns subFns
          let paragraphCount := (subBlocks.filter Block.isParagraph).length
          let blankIn := stOut.blankLineInItem || decide (paragraphCount ≥ 2)
          gfmParseListLoop fuel lines (i + 1 + consumed) firstMarker refs fns endsWithBlank
            (sawIn || blankIn) sawBet (acc ++ [Block.list_item none subBlocks])
        | none =>
          if (jsTrim line).isEmpty then
            let nextIdx := skipBlankIdx lines (i + 1)
            match lines[nextIdx]? with
            | some nextLine =>
              if (match parseListMarker nextLine with
                  | some nm => listsMatch firstMarker nm
                  | none => false) then
                gfmParseListLoop fuel lines (i + 1) firstMarker refs fns true sawIn sawBet acc
              else if getIndent nextLine < firstMarker.contentIndent then
                (acc, i + 1, refs, fns, sawIn, sawBet)
              else
                gfmParseListLoop fuel lines (i + 1) firstMarker refs fns true sawIn sawBet acc
            | none => (acc, i + 1, refs, fns, sawIn, sawBet)
          else (acc, i, refs, fns, sawIn, sawBet)

end

/-- `VALID_PRECEDING_CHARS` of `text.ts`. -/
def VALID_PRECEDING_CHARS : List Char := ['\n', ' ', '\t', '*', '_', '~', '(', '"', squote]

/-- `VALID_EMAIL_PRECEDING_CHARS` of `text.ts`. -/
def VALID_EMAIL_PRECEDING_CHARS : List Char :=
  ['\n', ' ', '\t', '*', '_', '~', '(', '"', squote, ':', '/']

/-- `isValidPrecedingChar` of `text.ts` (`undefined` means start of text). -/
def isValidPrecedingChar : Option Char → Bool
  | none => true
  | some c => VALID_PRECEDING_CHARS.contains c

/-- `isValidEmailPrecedingChar` of `text.ts`. -/
def isValidEmailPrecedingChar : Option Char → Bool
  | none => true
  | some c => VALID_EMAIL_PRECEDING_CHARS.contains c

/-- `precededByOpenAngle` of `text.ts`: walk backwards over spaces, tabs and
newlines and test for `<`. -/
def precededByOpenAngle (text : Str) (pos : Nat) : Bool :=
  let before := (text.take pos).reverse
  ((before.dropWhile (fun c => c = ' ' || c = '\t' || c = '\n')).head? = some '<')

/-- `isDomainChar` of `text.ts` (ASCII alphanumerics, `_`, `-`, or any code
point above 127; the JavaScript surrogate-pair branch adds astral characters
to the segment, which here are single characters above 127). -/
def isDomainChar (c : Char) : Bool :=
  isAlnumCh c || c = '_' || c = '-' || decide (c.toNat > 127)

/-- The segment-collection loop of `parseValidDomain`: returns the segments
and the number of characters consumed. -/
def domainScan : Str → Str → List Str × Nat
  | [], cur => (if cur.isEmpty then [] else [cur], 0)
  | c :: rest, cur =>
    if isDomainChar c then
      let (segs, n) := domainScan rest (cur ++ [c])
      (segs, n + 1)
    else if c = '.' then
      if cur.isEmpty then ([], 0)
      else
        let (segs, n) := domainScan rest []
        (cur :: segs, n + 1)
    else (if cur.isEmpty then [] else [cur], 0)

/-- `parseValidDomain` of `text.ts`: dot-separated segments of domain
characters, at least two (one when no period is required), and no underscore
in the last two segments. -/
def parseValidDomain (text : Str) (startPos : Nat) (requirePeriod : Bool) :
    Option (Str × Nat) :=
  let (segs, n) := domainScan (text.drop startPos) []
  if requirePeriod && decide (segs.length < 2) then none
  else if !requirePeriod && decide (segs.length < 1) then none
  else if decide (segs.length ≥ 2) &&
      (segs.drop (segs.length - 2)).any (fun s => s.contains '_') then none
  else some (List.intercalate ['.'] segs, startPos + n)

/-- The length of a `&[a-zA-Z0-9]+;` suffix (the entity test of
`trimAutolinkPath`), when the string ends in one. -/
def entitySuffixLen (r : Str) : Option Nat :=
  if r.getLast? = some ';' then
    let body := r.dropLast.reverse
    let run := body.takeWhile isAlnumCh
    if run.length > 0 ∧ (body.drop run.length).head? = some '&' then
      some (run.length + 2)
    else none
  else none

/-- The trailing-punctuation trimming loop of `trimAutolinkPath`.  The fuel
only caps the iteration count; every step removes at least one character. -/
def trimPathGo : Nat → Str → Str
  | 0, r => r
  | fuel + 1, r =>
    match r.getLast? with
    | none => r
    | some lc =>
      if ['?', '!', '.', ',', ':', '*', '_', '~', '"', squote].contains lc then
        trimPathGo fuel r.dropLast
      else if lc = ')' then
        let openC := (r.filter (· = '(')).length
        let closeC := (r.filter (· = ')')).length
        if closeC > openC then trimPathGo fuel r.dropLast else r
      else if lc = ';' then
        match entitySuffixLen r with
        | some k => trimPathGo fuel (r.take (r.length - k))
        | none => r
      else r

/-- `trimAutolinkPath` of `text.ts`: cut at the first `<`, then repeatedly
strip trailing punctuation, unbalanced `)` and trailing entities. -/
def trimAutolinkPath (url : Str) : Str :=
  let result := url.takeWhile (· ≠ '<')
  trimPathGo result.length result

/-- The whitespace-or-angle stop test of the autolink extension scans. -/
def autolinkStop (c : Char) : Bool := c = ' ' || c = '\t' || c = '\n' || c = '<'

/-- `parseWwwAutolink` of `text.ts`. -/
def parseWwwAutolink (text : Str) (pos : Nat) (charBefore : Option Char) :
    Option (Inline × Nat) :=
  if !isValidPrecedingChar charBefore then none
  else if precededByOpenAngle text pos then none
  else if !startsWithCI (text.drop pos) ['w', 'w', 'w', '.'] then none
  else
    match parseValidDomain text (pos + 4) true with
    | none => none
    | some (_, endPos0) =>
      let tail := (text.drop endPos0).takeWhile (fun c => !autolinkStop c)
      let endPos := endPos0 + tail.length
      let fullMatch := (text.drop pos).take (endPos - pos)
      let trimmedUrl := trimAutolinkPath fullMatch
      if trimmedUrl.length ≤ 4 then none
      else
        some (Inline.link (['h', 't', 't', 'p', ':', '/', '/'] ++ trimmedUrl) []
          [mkText trimmedUrl], trimmedUrl.length)

/-- `parseUrlAutolink` of `text.ts`. -/
def parseUrlAutolink (text : Str) (pos : Nat) (charBefore : Option Char) :
    Option (Inline × Nat) :=
  if !isValidPrecedingChar charBefore then none
  else if precededByOpenAngle text pos then none
  else
    let remaining := text.drop pos
    let scheme : Option Str :=
      if startsWithCI remaining ['h','t','t','p','s',':','/','/'] then
        some ['h','t','t','p','s',':','/','/']
      else if startsWithCI remaining ['h','t','t','p',':','/','/'] then
        some ['h','t','t','p',':','/','/']
      else if startsWithCI remaining ['f','t','p',':','/','/'] then
        some ['f','t','p',':','/','/']
      else none
    match scheme with
    | none => none
    | some sch =>
      match parseValidDomain text (pos + sch.length) false with
      | none => none
      | some (_, endPos0) =>
        let tail := (text.drop endPos0).takeWhile (fun c => !autolinkStop c)
        let endPos := endPos0 + tail.length
        let fullMatch := (text.drop pos).take (endPos - pos)
        let trimmedUrl := trimAutolinkPath fullMatch
        if trimmedUrl.length ≤ sch.length then none
        else some (Inline.link trimmedUrl [] [mkText trimmedUrl], trimmedUrl.length)

/-- Email local-part character test (`[a-zA-Z0-9.\-_+]`). -/
def isEmailLocalChar (c : Char) : Bool :=
  isAlnumCh c || c = '.' || c = '-' || c = '_' || c = '+'

/-- The domain loop shared by `parseEmailAutolink` and
`parseProtocolAutolink`: returns the number of characters consumed and
whether a dot separating two segments was seen.  `atStart` tracks
`domainEnd === segmentStart`. -/
def emailDomainScan : Str → Bool → Bool → Nat × Bool
  | [], _, sawDot => (0, sawDot)
  | c :: rest, atStart, sawDot =>
    if isAlnumCh c || c = '-' || c = '_' then
      let (n, d) := emailDomainScan rest false sawDot
      (n + 1, d)
    else if c = '.' then
      if atStart then (0, sawDot)
      else
        let (n, d) := emailDomainScan rest true true
        (n + 1, d)
    else (0, sawDot)

/-- The shared domain validation of the email-style autolinks: scan the
domain from `domainStart`, require a separating dot, reject a trailing `-`
or `_`, strip trailing dots and require a dot in the result.  Returns the
domain and the index after it. -/
def emailDomainPart (text : Str) (domainStart : Nat) : Option (Str × Nat) :=
  let (n, sawDot) := emailDomainScan (text.drop domainStart) true false
  if !sawDot then none
  else
    match text.get? (domainStart + n - 1) with
    | some lc =>
      if lc = '-' ∨ lc = '_' then none
      else
        let raw := (text.drop domainStart).take n
        let domain := (raw.reverse.dropWhile (· = '.')).reverse
        if !domain.contains '.' then none
        else some (domain, domainStart + domain.length)
    | none => none

/-- `parseEmailAutolink` of `text.ts`. -/
def parseEmailAutolink (text : Str) (pos : Nat) (charBefore : Option Char) :
    Option (Inline × Nat) :=
  if !isValidEmailPrecedingChar charBefore then none
  else if precededByOpenAngle text pos then none
  else
    let localPart := (text.drop pos).takeWhile isEmailLocalChar
    if localPart.length = 0 then none
    else if text.get? (pos + localPart.length) ≠ some '@' then none
    else
      match emailDomainPart text (pos + localPart.length + 1) with
      | none => none
      | some (domain, _) =>
        let email := localPart ++ '@' :: domain
        some (Inline.link (['m','a','i','l','t','o',':'] ++ email) [] [mkText email],
          email.length)

/-- The xmpp resource-suffix handling of `parseProtocolAutolink`.  Returns
the accepted resource suffix (starting with `/`), or `[]`. -/
def xmppResource (text : Str) (finalEnd : Nat) : Str :=
  if text.get? finalEnd = some '/' then
    let resChars := (text.drop (finalEnd + 1)).takeWhile
      (fun c => isAlnumCh c || c = '@' || c = '.')
    if resChars.length > 0 then
      let res1 := '/' :: resChars
      let res2 :=
        if (res1.drop 1).any (· = '/') then
          res1.take (1 + ((res1.drop 1).takeWhile (· ≠ '/')).length)
        else res1
      let trailing := (res2.reverse.takeWhile
        (fun c => ['?', '!', '.', ',', ':', '*', '_', '~'].contains c)).length
      let res3 := res2.take (max (res2.length - trailing) 1)
      if res3.length > 1 then res3 else []
    else []
  else []

/-- `parseProtocolAutolink` of `text.ts` (`mailto:` and `xmpp:` forms, with
an optional `/resource` suffix for xmpp). -/
def parseProtocolAutolink (text : Str) (pos : Nat) (charBefore : Option Char) :
    Option (Inline × Nat) :=
  if !isValidEmailPrecedingChar charBefore then none
  else if precededByOpenAngle text pos then none
  else
    let remaining := text.drop pos
    let protocol : Option Str :=
      if startsWithCI remaining ['m','a','i','l','t','o',':'] then
        some ['m','a','i','l','t','o',':']
      else if startsWithCI remaining ['x','m','p','p',':'] then
        some ['x','m','p','p',':']
      else none
    match protocol with
    | none => none
    | some proto =>
      let emailStart := pos + proto.length
      let localPart := (text.drop emailStart).takeWhile isEmailLocalChar
      if localPart.length = 0 then none
      else if text.get? (emailStart + localPart.length) ≠ some '@' then none
      else
        match emailDomainPart text (emailStart + localPart.length + 1) with
        | none => none
        | some (domain, finalEnd) =>
          let base := proto ++ localPart ++ '@' :: domain
          let res :=
            if proto = ['x','m','p','p',':'] then xmppResource text finalEnd else []
          let fullUrl := base ++ res
          some (Inline.link fullUrl [] [mkText fullUrl], fullUrl.length)

/-- `parseExtendedAutolink` of `text.ts`: the protocol, URL, www and email
forms in that order. -/
def parseExtendedAutolink (text : Str) (pos : Nat) (charBefore : Option Char) :
    Option (Inline × Nat) :=
  match parseProtocolAutolink text pos charBefore with
  | some r => some r
  | none =>
    match parseUrlAutolink text pos charBefore with
    | some r => some r
    | none =>
      match parseWwwAutolink text pos charBefore with
      | some r => some r
      | none => parseEmailAutolink text pos charBefore

/-- No top-level empty-literal text node in a node list. -/
def noEmptyTop (l : List Inline) : Bool := l.all (fun n => !isEmptyTextNode n)

mutual

/-- Structural check used for the emphasis-children invariant: no emphasis,
strong or strikethrough node anywhere in the tree has an empty-literal text
node as a direct child. -/
def deepGoodI : Inline → Bool
  | Inline.emphasis ch => noEmptyTop ch && deepGoodL ch
  | Inline.strong ch => noEmptyTop ch && deepGoodL ch
  | Inline.strikethrough ch => noEmptyTop ch && deepGoodL ch
  | Inline.link _ _ ch => deepGoodL ch
  | _ => true

def deepGoodL : List Inline → Bool
  | [] => true
  | n :: rest => deepGoodI n && deepGoodL rest

end

/-- Every entry of a link-reference table has a non-empty key. -/
def RefLabelsNonempty (m : RefMap) : Prop := ∀ p ∈ m, p.1 ≠ []

/-- The string contains a character outside the JavaScript `\s` class. -/
def hasNonWs (l : Str) : Prop := ∃ c, c ∈ l ∧ jsWs c = false

/-- Well-formedness of an emphasis-loop state: the delimiter entries are in
strictly increasing node order, and each points at an eligible text node
whose literal length equals the entry's recorded run length. -/
def WfDelims (st : EmphState) : Prop :=
  List.Pairwise (fun a b => a.index < b.index) st.delims ∧
  ∀ e ∈ st.delims, ∃ lit nd ns o, st.nodes[e.index]? = some (Inline.text lit nd ns o) ∧
    isDelimRunLiteral lit = true ∧ e.run.length = lit.length

theorem expandRestOfLine_no_tab (l : Str) (col : Nat) :
    '\t' ∉ expandRestOfLine l col := by
  induction l generalizing col with
  | nil => simp [expandRestOfLine]
  | cons c rest ih =>
    simp only [expandRestOfLine]
    split
    · intro hmem
      rcases List.mem_append.mp hmem with h | h
      · simp [spaces, List.mem_replicate] at h
      · exact ih _ h
    · next hc =>
      intro hmem
      rcases List.mem_cons.mp hmem with h | h
      · exact hc h.symm
      · exact ih _ h

theorem removeIndentGo_suffix_or_no_tab (line : Str) :
    ∀ removed indent : Nat,
      (∃ k, removeIndentGo line removed indent = line.drop k) ∨
      '\t' ∉ removeIndentGo line removed indent := by
  induction line with
  | nil => intro r i; exact Or.inl ⟨0, rfl⟩
  | cons c rest ih =>
    intro removed indent
    simp only [removeIndentGo]
    by_cases h1 : removed < indent
    · simp only [if_pos h1]
      by_cases h2 : c = ' '
      · simp only [if_pos h2]
        rcases ih (removed + 1) indent with ⟨k, hk⟩ | h
        · exact Or.inl ⟨k + 1, by simpa using hk⟩
        · exact Or.inr h
      · simp only [if_neg h2]
        by_cases h3 : c = '\t'
        · simp only [if_pos h3]
          by_cases h4 : removed + tabWidthAt removed ≤ indent
          · simp only [if_pos h4]
            rcases ih (removed + tabWidthAt removed) indent with ⟨k, hk⟩ | h
            · exact Or.inl ⟨k + 1, by simpa using hk⟩
            · exact Or.inr h
          · simp only [if_neg h4]
            refine Or.inr ?_
            intro hmem
            rcases List.mem_append.mp hmem with h | h
            · simp [spaces, List.mem_replicate] at h
            · exact expandRestOfLine_no_tab _ _ h
        · simp only [if_neg h3]
          exact Or.inl ⟨0, rfl⟩
    · simp only [if_neg h1]
      exact Or.inl ⟨0, rfl⟩

/-- Claim C1, counterexample: `removeIndent "\t\ta" 2` partially consumes
the first tab, and the second tab — which occurs later in the returned
text — is expanded to spaces rather than left as a literal tab character:
the result is seven characters with no tab at all. -/
theorem C1_counterexample :
    removeIndent (L "\t\ta") 2 = L "      a" ∧
    '\t' ∈ (L "\t\ta").drop 1 ∧
    ('\t' ∈ removeIndent (L "\t\ta") 2) = False := by
  refine ⟨by decide, by decide, ?_⟩
  simp only [eq_iff_iff, iff_false]
  decide

/-- Claim C1, amended: `removeIndent(line, N)` consumes leading whitespace
counting tabs by the 4-column tab stop; when no tab straddles the boundary
the result is a suffix of the line (later tabs stay literal), and when a
tab does straddle the boundary its remainder appears as spaces but the
whole rest of the line is tab-expanded, so the result contains no tab at
all. -/
theorem C1_amended (line : Str) (n : Nat) :
    (∃ k, removeIndent line n = line.drop k) ∨ '\t' ∉ removeIndent line n :=
  removeIndentGo_suffix_or_no_tab line 0 n

/-- Claim C2, counterexample: for the input `"<pre\n"`, which ends in a
newline and leaves an unterminated type-3-like open (here a type 6/7-failing,
type 1 `<pre` block), appending one more trailing newline changes the
rendered HTML: the unterminated HTML-block consumption loop appends the
trailing blank line to the block's literal. -/
theorem C2_counterexample :
    (L "<pre\n").getLast? = some '\n' ∧
    markdown (L "<pre\n") ≠ markdown (L "<pre\n" ++ ['\n']) := by
  refine ⟨rfl, ?_⟩
  decide

/-- Claim C2, amended: appending a trailing blank line preserves the
rendered HTML except when the document ends in an unterminated HTML block of
type 1 to 5: the consumption loop for those types stops only at the closing
pattern, so with no closing line in sight it appends every remaining line,
including trailing blank lines, to the block's literal. -/
theorem C2_amended (t : Nat) (ls : List Str) (h1 : 1 ≤ t) (h5 : t ≤ 5)
    (hn : ∀ l ∈ ls, isHtmlBlockClose l t = false) :
    consumeHtmlLines t ls = (ls, ls.length) := by
  induction ls with
  | nil => simp [consumeHtmlLines]
  | cons l rest ih =>
    have h6 : (t = 6 || t = 7) = false := by
      simp only [Bool.or_eq_false_iff, decide_eq_false_iff_not]
      omega
    simp only [consumeHtmlLines]
    rw [if_neg (by simp at h6 ⊢; omega)]
    rw [if_neg (by simp [hn l (List.mem_cons_self l rest)])]
    rw [ih (fun x hx => hn x (List.mem_cons_of_mem l hx))]
    simp [List.length_cons]

/-- Witness for the amended C2 theorem at a concrete type and line list. -/
theorem C2_amended_witness :
    (1 ≤ 1 ∧ 1 ≤ 5 ∧ ∀ l ∈ [L "a", ([] : Str)], isHtmlBlockClose l 1 = false) ∧
    consumeHtmlLines 1 [L "a", ([] : Str)] = ([L "a", ([] : Str)], 2) :=
  ⟨⟨Nat.le_refl 1, by omega, by decide⟩,
   C2_amended 1 [L "a", ([] : Str)] (Nat.le_refl 1) (by omega) (by decide)⟩

theorem startsWith_hash_head {l t : Str} (h : startsWith l ('#' :: t) = true) :
    l.head? = some '#' := by
  cases l with
  | nil => simp [startsWith] at h
  | cons c rest =>
    simp only [startsWith, Bool.and_eq_true, decide_eq_true_eq] at h
    simp [h.1]

/-- Claim C4, counterexample: the numeric reference `&#x110000;`, whose code
point exceeds 0x10FFFF, is left literal by the entity decoder — it is not
replaced with U+FFFD — and the bounded inline entity parser rejects it;
only the value 0 is replaced with U+FFFD. -/
theorem C4_counterexample :
    decodeHtmlEntities (L "&#x110000;") = L "&#x110000;" ∧
    parseEntity (L "&#x110000;") 0 = none ∧
    decodeHtmlEntities (L "&#0;") = [Char.ofNat 0xfffd] := by
  refine ⟨by decide, by decide, by decide⟩

/-- Claim C4, amended: a numeric character reference with value 0 is
replaced by U+FFFD; a value up to 0x10FFFF is replaced by the corresponding
code point; a value above 0x10FFFF leaves the reference literal (the
replacement callback declines the match); and a named entity missing from
the table is left literal. -/
theorem C4_amended (ds name : Str) (v : Nat)
    (hx : jsParseIntHex ds = some v)
    (hn : name.head? ≠ some '#')
    (hl : lookupEntity name = none) :
    decodeEntityCallback ('#' :: 'x' :: ds) =
      (if v ≤ 0x10ffff then (if v = 0 then some (L "�") else some [Char.ofNat v]) else none) ∧
    decodeEntityCallback name = none := by
  constructor
  · unfold decodeEntityCallback
    rw [if_pos]
    · simp only [List.drop_succ_cons, List.drop_zero, hx]
    · simp [startsWith, L, chEqCI]
  · unfold decodeEntityCallback
    rw [if_neg, if_neg]
    · rw [hl]
    · intro hcontra
      rw [show (L "#") = '#' :: [] from rfl] at hcontra
      exact hn (startsWith_hash_head hcontra)
    · intro hcontra
      rcases Bool.or_eq_true_iff.mp hcontra with h | h
      · rw [show (L "#x") = '#' :: ['x'] from rfl] at h
        exact hn (startsWith_hash_head h)
      · rw [show (L "#X") = '#' :: ['X'] from rfl] at h
        exact hn (startsWith_hash_head h)

/-- Witness for the amended C4 theorem at the counterexample inputs. -/
theorem C4_amended_witness :
    (jsParseIntHex (L "110000") = some 0x110000 ∧
     (L "foobar").head? ≠ some '#' ∧ lookupEntity (L "foobar") = none) ∧
    (decodeEntityCallback ('#' :: 'x' :: L "110000") =
      (if 0x110000 ≤ 0x10ffff then
        (if 0x110000 = 0 then some (L "�") else some [Char.ofNat 0x110000]) else none) ∧
     decodeEntityCallback (L "foobar") = none) :=
  ⟨⟨by decide, by decide, by decide⟩,
   C4_amended (L "110000") (L "foobar") 0x110000 (by decide) (by decide) (by decide)⟩

theorem delimRowFold_length (cells : List Str) (al : List (Option Align))
    (h : cells.foldr (fun cell acc =>
      match acc with
      | none => none
      | some als =>
        match delimCellAlign (jsTrim cell) with
        | some a => some (a :: als)
        | none => none) (some []) = some al) : al.length = cells.length := by
  induction cells generalizing al with
  | nil => simp at h; simp [← h]
  | cons c cs ih =>
    simp only [List.foldr_cons] at h
    cases hrec : cs.foldr (fun cell acc =>
      match acc with
      | none => none
      | some als =>
        match delimCellAlign (jsTrim cell) with
        | some a => some (a :: als)
        | none => none) (some []) with
    | none => rw [hrec] at h; simp at h
    | some als' =>
      rw [hrec] at h
      cases hc : delimCellAlign (jsTrim c) with
      | none => simp [hc] at h
      | some a =>
        simp only [hc] at h
        cases h
        simp [ih als' hrec]

/-- Claim C8: a table opens only when the header row and the delimiter row
split into the same number of cells (`isTableStart` compares the counts and
`parseDelimiterRow` yields one alignment per delimiter cell), and
`parseTableRowCells` always produces exactly one `table_cell` per alignment;
a row cell index beyond the split cells of the row line is filled with empty
content. -/
theorem C8_claim (h d line : Str) (al : List (Option Align)) (isH : Bool)
    (hs : isTableStart h d = some al) :
    (splitTableRow h).length = al.length ∧
    (splitTableRow (jsTrim d)).length = al.length ∧
    (parseTableRowCells line al isH).length = al.length ∧
    (∀ i, i < al.length → (splitTableRow line).length ≤ i →
      (parseTableRowCells line al isH)[i]? =
        some (Block.table_cell (al.getD i none) isH (some []) [])) := by
  have hext : (splitTableRow h).length = al.length ∧ parseDelimiterRow d = some al := by
    simp only [isTableStart] at hs
    by_cases h1 : isTableRow h
    · rw [if_neg (by simp [h1])] at hs
      by_cases h2 : (splitTableRow h).any (fun cell => !(jsTrim cell).isEmpty)
      · rw [if_neg (by simp [h2])] at hs
        cases heq : parseDelimiterRow d with
        | none => rw [heq] at hs; simp at hs
        | some alignments =>
          simp only [heq] at hs
          by_cases h3 : (splitTableRow h).length = alignments.length
          · rw [if_neg (fun hne => hne h3)] at hs
            cases hs
            exact ⟨h3, rfl⟩
          · rw [if_pos h3] at hs
            simp at hs
      · rw [if_pos (by simp [h2])] at hs
        simp at hs
    · rw [if_pos (by simp [h1])] at hs
      simp at hs
  have hdrow : (splitTableRow (jsTrim d)).length = al.length := by
    have h2 := hext.2
    simp only [parseDelimiterRow] at h2
    by_cases hz : (splitTableRow (jsTrim d)).length = 0
    · rw [if_pos hz] at h2; simp at h2
    · rw [if_neg hz] at h2
      exact (delimRowFold_length _ _ h2).symm
  refine ⟨hext.1, hdrow, by simp [parseTableRowCells], ?_⟩
  intro i hi hmiss
  have hcell : (parseTableRowCells line al isH)[i]? =
      some (Block.table_cell (al.getD i none) isH
        (some (jsTrim ((splitTableRow line).getD i []))) []) := by
    unfold parseTableRowCells
    rw [List.getElem?_map, List.getElem?_range hi]
    rfl
  rw [hcell, List.getD_eq_default _ _ hmiss]
  rfl

/-- Witness for the C8 theorem at a concrete table. -/
theorem C8_claim_witness :
    isTableStart (L "| a | b |") (L "|---|:-:|") = some [none, some Align.center] ∧
    ((splitTableRow (L "| a | b |")).length = 2 ∧
     (splitTableRow (jsTrim (L "|---|:-:|"))).length = 2 ∧
     (parseTableRowCells (L "| 1 |") [none, some Align.center] false).length = 2 ∧
     (∀ i, i < ([none, some Align.center] : List (Option Align)).length →
        (splitTableRow (L "| 1 |")).length ≤ i →
        (parseTableRowCells (L "| 1 |") [none, some Align.center] false)[i]? =
          some (Block.table_cell (([none, some Align.center] :
            List (Option Align)).getD i none) false (some []) []))) :=
  ⟨by decide, by
    have := C8_claim (L "| a | b |") (L "|---|:-:|") (L "| 1 |")
      [none, some Align.center] false (by decide)
    simpa using this⟩

theorem validPreceding_email (cb : Option Char)
    (h : isValidPrecedingChar cb = true) : isValidEmailPrecedingChar cb = true := by
  cases cb with
  | none => rfl
  | some c =>
    simp only [isValidPrecedingChar] at h
    have hm := List.mem_of_elem_eq_true h
    simp only [isValidEmailPrecedingChar]
    refine List.elem_eq_true_of_mem ?_
    simp only [VALID_PRECEDING_CHARS, List.mem_cons] at hm
    simp only [VALID_EMAIL_PRECEDING_CHARS, List.mem_cons]
    tauto

theorem wwwAutolink_guards {t : Str} {p : Nat} {cb : Option Char} {r : Inline × Nat}
    (h : parseWwwAutolink t p cb = some r) :
    isValidPrecedingChar cb = true ∧ precededByOpenAngle t p = false := by
  unfold parseWwwAutolink at h
  by_cases h1 : isValidPrecedingChar cb
  · by_cases h2 : precededByOpenAngle t p
    · rw [if_neg (by simp [h1]), if_pos h2] at h; simp at h
    · exact ⟨h1, by simpa using h2⟩
  · rw [if_pos (by simp [h1])] at h; simp at h

theorem urlAutolink_guards {t : Str} {p : Nat} {cb : Option Char} {r : Inline × Nat}
    (h : parseUrlAutolink t p cb = some r) :
    isValidPrecedingChar cb = true ∧ precededByOpenAngle t p = false := by
  unfold parseUrlAutolink at h
  by_cases h1 : isValidPrecedingChar cb
  · by_cases h2 : precededByOpenAngle t p
    · rw [if_neg (by simp [h1]), if_pos h2] at h; simp at h
    · exact ⟨h1, by simpa using h2⟩
  · rw [if_pos (by simp [h1])] at h; simp at h

theorem emailAutolink_guards {t : Str} {p : Nat} {cb : Option Char} {r : Inline × Nat}
    (h : parseEmailAutolink t p cb = some r) :
    isValidEmailPrecedingChar cb = true ∧ precededByOpenAngle t p = false := by
  unfold parseEmailAutolink at h
  by_cases h1 : isValidEmailPrecedingChar cb
  · by_cases h2 : precededByOpenAngle t p
    · rw [if_neg (by simp [h1]), if_pos h2] at h; simp at h
    · exact ⟨h1, by simpa using h2⟩
  · rw [if_pos (by simp [h1])] at h; simp at h

theorem protocolAutolink_guards {t : Str} {p : Nat} {cb : Option Char} {r : Inline × Nat}
    (h : parseProtocolAutolink t p cb = some r) :
    isValidEmailPrecedingChar cb = true ∧ precededByOpenAngle t p = false := by
  unfold parseProtocolAutolink at h
  by_cases h1 : isValidEmailPrecedingChar cb
  · by_cases h2 : precededByOpenAngle t p
    · rw [if_neg (by simp [h1]), if_pos h2] at h; simp at h
    · exact ⟨h1, by simpa using h2⟩
  · rw [if_pos (by simp [h1])] at h; simp at h

/-- Claim C9, counterexample: `precededByOpenAngle` skips whitespace when
walking backwards, so an extended autolink separated from a `<` by a space
is still suppressed: in `"< www.a.b"` the autolink at position 2 is
rejected, while the identical text with `x` in place of `<` is recognized. -/
theorem C9_counterexample :
    parseExtendedAutolink (L "< www.a.b") 2 (some ' ') = none ∧
    parseExtendedAutolink (L "x www.a.b") 2 (some ' ') =
      some (Inline.link (L "http://www.a.b") [] [mkText (L "www.a.b")], 7) := by
  exact ⟨rfl, rfl⟩

/-- Claim C9, amended: an extended autolink is recognized only when the
character before the match position is start-of-text, whitespace or one of
the allowed punctuation characters (with `:` and `/` additionally allowed
for the email and protocol forms), and only when `precededByOpenAngle` is
false — which also rules out a `<` separated from the match by whitespace,
not merely an immediately preceding `<`. -/
theorem C9_amended (text : Str) (pos : Nat) (cb : Option Char) (r : Inline × Nat)
    (h : parseExtendedAutolink text pos cb = some r) :
    isValidEmailPrecedingChar cb = true ∧ precededByOpenAngle text pos = false := by
  unfold parseExtendedAutolink at h
  cases hp : parseProtocolAutolink text pos cb with
  | some r' => exact protocolAutolink_guards hp
  | none =>
    rw [hp] at h
    cases hu : parseUrlAutolink text pos cb with
    | some r' =>
      have := urlAutolink_guards hu
      exact ⟨validPreceding_email cb this.1, this.2⟩
    | none =>
      rw [hu] at h
      cases hw : parseWwwAutolink text pos cb with
      | some r' =>
        have := wwwAutolink_guards hw
        exact ⟨validPreceding_email cb this.1, this.2⟩
      | none =>
        rw [hw] at h
        exact emailAutolink_guards h

/-- Witness for the amended C9 theorem at a recognized autolink. -/
theorem C9_amended_witness :
    parseExtendedAutolink (L "www.a.b") 0 none =
      some (Inline.link (L "http://www.a.b") [] [mkText (L "www.a.b")], 7) ∧
    (isValidEmailPrecedingChar none = true ∧ precededByOpenAngle (L "www.a.b") 0 = false) :=
  ⟨rfl,
   C9_amended (L "www.a.b") 0 none
     (Inline.link (L "http://www.a.b") [] [mkText (L "www.a.b")], 7) rfl⟩

/-- Claim C10: when the first paragraph of a list item starts with a
task-list marker, `processTaskListItem` sets the item's `checked` attribute
to a strict boolean (`some cb`, never `none`) and removes the three-character
marker together with one following whitespace character from the start of
the paragraph's raw content; the GFM block parser runs this rewrite
(`processTaskLists`) before the inline phase. -/
theorem C10_claim (chk : Option Bool) (rc : Str) (ch : List Inline)
    (rest : List Block) (cb : Bool)
    (hm : parseTaskListMarker rc = some cb) :
    processTaskListItem (Block.list_item chk (Block.paragraph (some rc) ch :: rest)) =
      Block.list_item (some cb)
        (Block.paragraph (some (dropOneWs (rc.drop 3))) ch :: rest) := by
  unfold processTaskListItem
  simp only [hm]

/-- Witness for the C10 theorem at a checked item. -/
theorem C10_claim_witness :
    parseTaskListMarker (L "[x] buy milk") = some true ∧
    processTaskListItem (Block.list_item none
        (Block.paragraph (some (L "[x] buy milk")) [] :: [])) =
      Block.list_item (some true)
        (Block.paragraph (some (dropOneWs ((L "[x] buy milk").drop 3))) [] :: []) :=
  ⟨by decide, C10_claim none (L "[x] buy milk") [] [] true (by decide)⟩

/-- Claim C7, counterexample: for the input `"[a]: /u|\n---\n"` the
CommonMark block parser stores the link reference definition and emits a
thematic break, but the GFM block parser does not — its table branch runs
before the setext branch, the buffered definition line ends in an unescaped
pipe and so counts as a table header row, and `---` parses as a matching
one-column delimiter row, so the GFM parser emits a table and stores no
link reference. -/
theorem C7_counterexample :
    blockParse (pipelineFuel (L "[a]: /u|\n---\n")) (L "[a]: /u|\n---\n") =
      ([Block.thematic_break],
       [(L "a", { destination := L "/u|", title := [] })]) ∧
    (gfmBlockParse (pipelineFuel (L "[a]: /u|\n---\n")) (L "[a]: /u|\n---\n")).1 =
      [Block.table [none] [Block.table_row true
        [Block.table_cell none true (some (L "[a]: /u")) []]]] ∧
    (gfmBlockParse (pipelineFuel (L "[a]: /u|\n---\n")) (L "[a]: /u|\n---\n")).2.1 =
      ([] : RefMap) := by
  exact ⟨rfl, rfl, rfl⟩

/-- Claim C7, amended: when the open paragraph buffer is non-empty, the
current line is a setext dash underline that also matches the thematic-break
pattern, and extracting the leading link reference definitions from the
buffer leaves nothing, one step of the CommonMark loop emits a
thematic_break, discards the buffer and keeps the stored definitions; one
step of the GFM loop behaves the same way only under the additional
hypotheses that the line does not open a footnote definition and that the
buffered tail line together with the current line does not open a table
(without them the footnote and table branches run first). -/
theorem C7_amended (fuel : Nat) (lines : List Str) (i : Nat) (pl : List Str)
    (children : List Block) (refs : RefMap) (fns : FnMap) (line : Str)
    (hline : lines[i]? = some line)
    (hlazy : startsWith line [lazyMark] = false)
    (hblank : (jsTrim line).isEmpty = false)
    (hpl : pl.isEmpty = false)
    (hthematic : isThematicBreak line = true)
    (hdash : matchDashUnderline line = true)
    (hsetext : getSetextLevel line = some 2)
    (hempty : (jsTrim (stripLinkRefs (joinLines pl) refs).1).isEmpty = true)
    (hfn : parseFootnoteLabel (line.drop (lead3 line)) 0 = none)
    (hnotable : isTableStart (pl.getLastD []) line = none) :
    parseBlocksLoop (fuel + 1) lines i pl children refs =
      parseBlocksLoop fuel lines (i + 1) [] (children ++ [Block.thematic_break])
        (stripLinkRefs (joinLines pl) refs).2 ∧
    gfmParseBlocksLoop (fuel + 1) lines i pl children refs fns =
      gfmParseBlocksLoop fuel lines (i + 1) [] (children ++ [Block.thematic_break])
        (stripLinkRefs (joinLines pl) refs).2 fns := by
  have hsplit : stripLinkRefs (joinLines pl) refs =
      ((stripLinkRefs (joinLines pl) refs).1, (stripLinkRefs (joinLines pl) refs).2) := rfl
  constructor
  · conv_lhs => rw [parseBlocksLoop]
    simp only [hline]
    rw [if_neg (by simp [hlazy])]
    rw [if_neg (by simp [hblank])]
    rw [if_pos hthematic]
    rw [if_pos (by simp [hpl, hdash])]
    rw [hsplit]
    simp only [hsetext, Option.getD_some]
    rw [if_neg (by simp [hempty])]
  · conv_lhs => rw [gfmParseBlocksLoop]
    simp only [hline]
    rw [if_neg (by simp [hlazy])]
    rw [if_neg (by simp [hblank])]
    simp only [hfn]
    simp only [show (if decide (pl.length ≥ 1) && isTableRow (pl.getLastD []) then
          isTableStart (pl.getLastD []) line else none) =
        (none : Option (List (Option Align))) from by
      split
      · exact hnotable
      · rfl]
    rw [if_pos (by simp [hpl, hsetext])]
    rw [hsplit]
    simp only [hsetext, Option.getD_some]
    rw [if_neg (by simp [hempty])]
    rw [if_pos hthematic]

/-- Witness for the amended C7 theorem at the counterexample-adjacent input
without a pipe, where both parsers take the thematic-break path. -/
theorem C7_amended_witness :
    ((([L "[a]: /u", L "---"] : List Str)[1]? = some (L "---")) ∧
     startsWith (L "---") [lazyMark] = false ∧
     (jsTrim (L "---")).isEmpty = false ∧
     ([L "[a]: /u"] : List Str).isEmpty = false ∧
     isThematicBreak (L "---") = true ∧
     matchDashUnderline (L "---") = true ∧
     getSetextLevel (L "---") = some 2 ∧
     (jsTrim (stripLinkRefs (joinLines [L "[a]: /u"]) []).1).isEmpty = true ∧
     parseFootnoteLabel ((L "---").drop (lead3 (L "---"))) 0 = none ∧
     isTableStart (([L "[a]: /u"] : List Str).getLastD []) (L "---") = none) ∧
    (parseBlocksLoop 6 [L "[a]: /u", L "---"] 1 [L "[a]: /u"] [] [] =
      parseBlocksLoop 5 [L "[a]: /u", L "---"] 2 [] ([] ++ [Block.thematic_break])
        (stripLinkRefs (joinLines [L "[a]: /u"]) []).2 ∧
     gfmParseBlocksLoop 6 [L "[a]: /u", L "---"] 1 [L "[a]: /u"] [] [] [] =
      gfmParseBlocksLoop 5 [L "[a]: /u", L "---"] 2 [] ([] ++ [Block.thematic_break])
        (stripLinkRefs (joinLines [L "[a]: /u"]) []).2 []) :=
  ⟨⟨rfl, rfl, rfl, rfl, by decide, by decide, by decide, by decide, rfl, rfl⟩,
   C7_amended 5 [L "[a]: /u", L "---"] 1 [L "[a]: /u"] [] [] [] (L "---")
     rfl rfl rfl rfl (by decide) (by decide) (by decide) (by decide) rfl rfl⟩

theorem jsWs_not_punct {c : Char} (h : jsWs c = true) : isAsciiPunctuation c = false := by
  simp only [jsWs, Bool.or_eq_true, Bool.and_eq_true, decide_eq_true_eq] at h
  simp only [isAsciiPunctuation, Bool.or_eq_false_iff, Bool.and_eq_false_iff,
    decide_eq_false_iff_not, not_le]
  omega

theorem mem_dropWhile_of_neg {p : Char → Bool} {l : Str} {c : Char}
    (hc : c ∈ l) (hp : p c = false) : c ∈ l.dropWhile p := by
  induction l with
  | nil => cases hc
  | cons a as ih =>
    rw [List.dropWhile_cons]
    split
    · next hpa =>
      rcases List.mem_cons.mp hc with rfl | hmem
      · rw [hpa] at hp; cases hp
      · exact ih hmem
    · exact hc

theorem jsTrim_ne_nil_of_hasNonWs {l : Str} (h : hasNonWs l) : jsTrim l ≠ [] := by
  obtain ⟨c, hc, hw⟩ := h
  intro hnil
  unfold jsTrim at hnil
  rw [List.reverse_eq_nil_iff, List.dropWhile_eq_nil_iff] at hnil
  have hcmem : c ∈ (l.dropWhile jsWs).reverse :=
    List.mem_reverse.mpr (mem_dropWhile_of_neg hc hw)
  have := hnil c hcmem
  rw [hw] at this
  cases this

theorem hasNonWs_of_jsTrim_ne_nil {l : Str} (h : jsTrim l ≠ []) : hasNonWs l := by
  unfold jsTrim at h
  rw [Ne, List.reverse_eq_nil_iff, List.dropWhile_eq_nil_iff] at h
  push_neg at h
  obtain ⟨c, hcmem, hcw⟩ := h
  refine ⟨c, ?_, by simpa using hcw⟩
  have h1 : c ∈ l.dropWhile jsWs := List.mem_reverse.mp hcmem
  exact (List.dropWhile_sublist jsWs).subset h1

theorem unescape_hasNonWs : ∀ {l : Str}, hasNonWs l → hasNonWs (unescapeString l) := by
  intro l
  induction l using unescapeString.induct with
  | case1 => intro ⟨c, hc, _⟩; cases hc
  | case2 c rest hp ih =>
    intro _
    have hw : jsWs c = false := by
      by_contra hcon
      rw [Bool.not_eq_false] at hcon
      rw [jsWs_not_punct hcon] at hp
      cases hp
    refine ⟨c, ?_, hw⟩
    simp only [unescapeString, if_pos hp]
    exact List.mem_cons_self _ _
  | case3 c rest hp ih =>
    intro _
    refine ⟨'\\', ?_, by decide⟩
    simp only [unescapeString, if_neg hp]
    exact List.mem_cons_self _ _
  | case4 c rest hne ih =>
    intro ⟨d, hd, hw⟩
    rcases List.mem_cons.mp hd with rfl | hmem
    · exact ⟨d, by simp [unescapeString, hne], hw⟩
    · obtain ⟨e, he, hew⟩ := ih ⟨d, hmem, hw⟩
      exact ⟨e, by simp [unescapeString, hne]; right; exact he, hew⟩

theorem collapseRunsGo_false_ne_nil {l : Str} (h : l ≠ []) :
    collapseRunsGo l false ≠ [] := by
  cases l with
  | nil => exact absurd rfl h
  | cons c rest =>
    simp only [collapseRunsGo]
    split <;> simp

theorem replaceCapitalSharpS_ne_nil {l : Str} (h : l ≠ []) :
    replaceCapitalSharpS l ≠ [] := by
  cases l with
  | nil => exact absurd rfl h
  | cons c rest =>
    simp only [replaceCapitalSharpS]
    split <;> simp

theorem normalizeLabel_ne_nil {l : Str} (h : hasNonWs l) : normalizeLabel l ≠ [] := by
  unfold normalizeLabel
  intro hnil
  rw [List.map_eq_nil_iff] at hnil
  exact replaceCapitalSharpS_ne_nil
    (by
      unfold collapseRuns
      exact collapseRunsGo_false_ne_nil (jsTrim_ne_nil_of_hasNonWs h)) hnil

theorem parseLRD_label_ne {text : Str} {r : LinkRefResult}
    (h : parseLinkReferenceDefinition text = some r) : r.label ≠ [] := by
  simp only [parseLinkReferenceDefinition] at h
  repeat' split at h
  all_goals try exact Option.noConfusion h
  all_goals cases h
  all_goals
    apply normalizeLabel_ne_nil
    apply unescape_hasNonWs
    apply hasNonWs_of_jsTrim_ne_nil
    assumption

theorem setIfAbsent_pres {m : RefMap} {k : Str} {v : LinkReferenceDefinition}
    (hm : RefLabelsNonempty m) (hk : k ≠ []) :
    RefLabelsNonempty (setIfAbsent m k v) := by
  unfold setIfAbsent
  split
  · exact hm
  · intro p hp
    rcases List.mem_append.mp hp with h | h
    · exact hm p h
    · rcases List.mem_singleton.mp h with rfl
      exact hk

theorem stripLinkRefsGo_pres : ∀ (n : Nat) (text : Str) (refs : RefMap),
    RefLabelsNonempty refs → RefLabelsNonempty (stripLinkRefsGo n text refs).2 := by
  intro n
  induction n with
  | zero => intro text refs h; exact h
  | succ n ih =>
    intro text refs h
    unfold stripLinkRefsGo
    split
    · split
      · exact h
      · next r heq => exact ih _ _ (setIfAbsent_pres h (parseLRD_label_ne heq))
    · exact h

theorem stripLinkRefs_pres {text : Str} {refs : RefMap}
    (h : RefLabelsNonempty refs) : RefLabelsNonempty (stripLinkRefs text refs).2 :=
  stripLinkRefsGo_pres _ _ _ h

theorem stripLinkRefs_pres_pair {text t2 : Str} {refs r2 : RefMap}
    (h : RefLabelsNonempty refs)
    (heq : stripLinkRefs text refs = (t2, r2)) : RefLabelsNonempty r2 := by
  have := @stripLinkRefs_pres text refs h
  rw [heq] at this
  exact this

theorem finishParagraph_pres {pl : List Str} {children : List Block} {refs : RefMap}
    (h : RefLabelsNonempty refs) :
    RefLabelsNonempty (finishParagraph pl children refs).2 := by
  unfold finishParagraph
  split
  · exact h
  · split
    rename_i heq
    dsimp only
    split
    · exact stripLinkRefs_pres_pair h heq
    · exact stripLinkRefs_pres_pair h heq

theorem mergeRefs_pres : ∀ {child parent : RefMap}, RefLabelsNonempty parent →
    RefLabelsNonempty child → RefLabelsNonempty (mergeRefs parent child) := by
  intro child
  induction child with
  | nil => intro parent hp _; exact hp
  | cons q qs ih =>
    intro parent hp hc
    unfold mergeRefs at ih ⊢
    simp only [List.foldl_cons]
    exact ih (setIfAbsent_pres hp (hc q (List.mem_cons_self _ _)))
      (fun p hp' => hc p (List.mem_cons_of_mem _ hp'))

theorem blockParse_refs_all : ∀ fuel : Nat,
    (∀ input, RefLabelsNonempty (blockParse fuel input).2) ∧
    (∀ lines i pl children refs, RefLabelsNonempty refs →
      RefLabelsNonempty (parseBlocksLoop fuel lines i pl children refs).2) ∧
    (∀ lines i fm refs a b c acc, RefLabelsNonempty refs →
      RefLabelsNonempty (parseListLoop fuel lines i fm refs a b c acc).2.2.1) := by
  intro fuel
  induction fuel with
  | zero =>
    refine ⟨?_, ?_, ?_⟩
    · intro input p hp; cases hp
    · intro lines i pl children refs h
      exact finishParagraph_pres h
    · intro lines i fm refs a b c acc h
      exact h
  | succ fuel ih =>
    obtain ⟨ihParse, ihLoop, ihList⟩ := ih
    refine ⟨?_, ?_, ?_⟩
    · intro input
      unfold blockParse
      exact ihLoop _ _ _ _ _ (fun p hp => absurd hp (List.not_mem_nil p))
    · intro lines i pl children refs h
      conv => rw [parseBlocksLoop]
      repeat' split
      all_goals try dsimp only
      repeat' split
      all_goals first
        | exact h
        | exact finishParagraph_pres h
        | exact ihLoop _ _ _ _ _ h
        | exact ihLoop _ _ _ _ _ (finishParagraph_pres h)
        | exact ihLoop _ _ _ _ _ (stripLinkRefs_pres h)
        | exact ihLoop _ _ _ _ _ (mergeRefs_pres (finishParagraph_pres h) (ihParse _))
        | exact ihLoop _ _ _ _ _ (ihList _ _ _ _ _ _ _ _ (finishParagraph_pres h))
    · intro lines i fm refs a b c acc h
      conv => rw [parseListLoop]
      repeat' split
      all_goals try dsimp only
      repeat' split
      all_goals first
        | exact h
        | exact ihList _ _ _ _ _ _ _ _ h
        | exact ihList _ _ _ _ _ _ _ _ (mergeRefs_pres h (ihParse _))

/-- Claim C3, counterexample: the definition `[foo]: <>` is stored with an
empty destination — the angle-bracket form admits an empty destination, so
the stored-destination half of the claim fails (while the label is
non-empty). -/
theorem C3_counterexample :
    (blockParse (pipelineFuel (L "[foo]: <>")) (L "[foo]: <>")).2 =
      [(L "foo", { destination := [], title := [] })] := by
  rfl

/-- Claim C3, amended: every entry stored in the link-reference side table
of the CommonMark block parser has a non-empty normalized label — the label
guard `rawLabel.trim() !== ""` and `normalizeLabel` guarantee it — but the
stored destination may be empty, exactly for the angle-bracket form `<>`. -/
theorem C3_amended (fuel : Nat) (input : Str) :
    RefLabelsNonempty (blockParse fuel input).2 :=
  (blockParse_refs_all fuel).1 input

theorem take_at {α : Type} (xs ys : List α) (n : Nat) (h : n = xs.length) :
    (xs ++ ys).take n = xs := by
  subst h
  exact List.take_left xs ys

theorem drop_at {α : Type} (xs ys : List α) (n : Nat) (h : n = xs.length) :
    (xs ++ ys).drop n = ys := by
  subst h
  exact List.drop_left xs ys

theorem set_at {α : Type} (xs ys : List α) (y z : α) (n : Nat) (h : n = xs.length) :
    (xs ++ y :: ys).set n z = xs ++ z :: ys := by
  subst h
  induction xs with
  | nil => rfl
  | cons x xs ih => simpa using ih

theorem erase_at {α : Type} (xs ys : List α) (y : α) (n : Nat) (h : n = xs.length) :
    (xs ++ y :: ys).eraseIdx n = xs ++ ys := by
  subst h
  induction xs with
  | nil => rfl
  | cons x xs ih => simpa using ih

theorem get_at {α : Type} (xs ys : List α) (y : α) (n : Nat) (h : n = xs.length) :
    (xs ++ y :: ys)[n]? = some y := by
  subst h
  induction xs with
  | nil => simp
  | cons x xs ih => simpa using ih

theorem decomp_one {α : Type} : ∀ (l : List α) (i : Nat) (a : α), l[i]? = some a →
    ∃ pre post, l = pre ++ a :: post ∧ pre.length = i := by
  intro l
  induction l with
  | nil => intro i a h; simp at h
  | cons x rest ih =>
    intro i a h
    cases i with
    | zero =>
      have hx : x = a := by simpa using h
      exact ⟨[], rest, by rw [hx]; rfl, rfl⟩
    | succ i =>
      have h2 : rest[i]? = some a := by simpa using h
      obtain ⟨pre, post, heq, hlen⟩ := ih i a h2
      exact ⟨x :: pre, post, by rw [heq]; rfl, by simp [hlen]⟩

theorem decomp_two {α : Type} (l : List α) (i j : Nat) (a b : α) (hij : i < j)
    (ha : l[i]? = some a) (hb : l[j]? = some b) :
    ∃ pre mid post, l = pre ++ a :: mid ++ b :: post ∧ pre.length = i ∧
      pre.length + 1 + mid.length = j := by
  obtain ⟨pre, rest1, heq, hlen⟩ := decomp_one l i a ha
  have hjlen : pre.length ≤ j := by omega
  have hb2 : rest1[j - i - 1]? = some b := by
    rw [heq] at hb
    rw [List.getElem?_append_right hjlen] at hb
    have hsub : j - pre.length = (j - i - 1) + 1 := by omega
    rw [hsub] at hb
    simpa using hb
  obtain ⟨mid, post, heq2, hlen2⟩ := decomp_one rest1 (j - i - 1) b hb2
  refine ⟨pre, mid, post, ?_, hlen, by omega⟩
  rw [heq, heq2]
  simp

theorem textCharCount_cons (n : Inline) (l : List Inline) :
    textCharCount (n :: l) = textCharCount [n] + textCharCount l := by
  simp [textCharCount]

theorem textCharCount_append (a b : List Inline) :
    textCharCount (a ++ b) = textCharCount a + textCharCount b := by
  simp [textCharCount]

theorem textCharCount_setOrig (n : Inline) :
    textCharCount [if delimEligible n then setOrigLength n else n] = textCharCount [n] := by
  split
  · cases n <;> rfl
  · rfl

theorem textCharCount_buildDelimsNodes (l : List Inline) :
    textCharCount (buildDelimsNodes l) = textCharCount l := by
  induction l with
  | nil => rfl
  | cons n rest ih =>
    have h1 : buildDelimsNodes (n :: rest) =
        (if delimEligible n then setOrigLength n else n) :: buildDelimsNodes rest := rfl
    rw [h1, textCharCount_cons, textCharCount_cons n rest, textCharCount_setOrig, ih]

theorem length_buildDelimsNodes (l : List Inline) :
    (buildDelimsNodes l).length = l.length := by
  simp [buildDelimsNodes]

theorem length_buildDelimsEntries_le (l : List Inline) :
    (buildDelimsEntries l).length ≤ l.length := by
  unfold buildDelimsEntries
  exact le_trans (List.length_filterMap_le _ _) (le_of_eq (List.length_range _))

theorem computeDelimiterRun_length (lit : Str) (cb ca : Char) :
    (computeDelimiterRun lit cb ca).length = lit.length := by
  unfold computeDelimiterRun
  cases hdf : delimFlanking (lit.headD ' ') cb ca
  simp [hdf]

theorem buildDelimAt_spec {l : List Inline} {i : Nat} {e : DelimEntry}
    (h : buildDelimAt l i = some e) :
    e.index = i ∧ ∃ lit ns o, l[i]? = some (Inline.text lit false ns o) ∧
      isDelimRunLiteral lit = true ∧ e.run.length = lit.length := by
  unfold buildDelimAt at h
  cases hx : l[i]? with
  | none => simp only [hx] at h; exact Option.noConfusion h
  | some n =>
    cases n with
    | text lit noDelim ns orig =>
      simp only [hx] at h
      by_cases hc1 : (!noDelim && isDelimRunLiteral lit) = true
      · obtain ⟨hnd, hlit⟩ : noDelim = false ∧ isDelimRunLiteral lit = true := by
          simpa using hc1
        rw [if_pos hc1] at h
        dsimp only at h
        split at h <;> split at h
        all_goals try exact Option.noConfusion h
        all_goals
          obtain rfl := Option.some.inj h
          subst hnd
          exact ⟨rfl, lit, ns, orig, rfl, hlit, by simp [computeDelimiterRun_length]⟩
      · rw [if_neg hc1] at h
        exact absurd h (by simp)
    | code_span lit => simp only [hx] at h; exact Option.noConfusion h
    | softbreak => simp only [hx] at h; exact Option.noConfusion h
    | hardbreak => simp only [hx] at h; exact Option.noConfusion h
    | html_inline lit => simp only [hx] at h; exact Option.noConfusion h
    | emphasis ch => simp only [hx] at h; exact Option.noConfusion h
    | strong ch => simp only [hx] at h; exact Option.noConfusion h
    | strikethrough ch => simp only [hx] at h; exact Option.noConfusion h
    | link d t ch => simp only [hx] at h; exact Option.noConfusion h
    | image d t alt => simp only [hx] at h; exact Option.noConfusion h

theorem buildDelimsEntries_mem {l : List Inline} {e : DelimEntry}
    (h : e ∈ buildDelimsEntries l) :
    e.index < l.length ∧ ∃ lit ns o, l[e.index]? = some (Inline.text lit false ns o) ∧
      isDelimRunLiteral lit = true ∧ e.run.length = lit.length := by
  unfold buildDelimsEntries at h
  rw [List.mem_filterMap] at h
  obtain ⟨i, hi, hf⟩ := h
  rw [List.mem_range] at hi
  obtain ⟨hidx, rest⟩ := buildDelimAt_spec hf
  subst hidx
  exact ⟨hi, rest⟩

theorem buildDelimsEntries_pairwise (l : List Inline) :
    List.Pairwise (fun a b => a.index < b.index) (buildDelimsEntries l) := by
  unfold buildDelimsEntries
  apply List.Pairwise.filterMap
  · intro a b hab x hx y hy
    rw [(buildDelimAt_spec hx).1, (buildDelimAt_spec hy).1]
    exact hab
  · exact List.pairwise_lt_range _

theorem wf_build {st : EmphState} {l : List Inline}
    (hn : st.nodes = buildDelimsNodes l) (hd : st.delims = buildDelimsEntries l) :
    WfDelims st := by
  constructor
  · rw [hd]
    exact buildDelimsEntries_pairwise l
  · intro e he
    rw [hd] at he
    obtain ⟨_, lit, ns, o, hx, hlit, hlen⟩ := buildDelimsEntries_mem he
    refine ⟨lit, false, ns, some (o.getD lit.length), ?_, hlit, hlen⟩
    rw [hn]
    unfold buildDelimsNodes
    rw [List.getElem?_map, hx]
    simp [delimEligible, setOrigLength, hlit]

theorem wf_congr {st st' : EmphState} (h1 : st'.nodes = st.nodes)
    (h2 : st'.delims = st.delims) (hwf : WfDelims st) : WfDelims st' := by
  unfold WfDelims at *
  rw [h1, h2]
  exact hwf

theorem findOpener_lt {delims : List DelimEntry} {r : DelimiterRun} {b : Int} :
    ∀ {j k : Nat}, findOpener delims r b j = some k → k < j := by
  intro j
  induction j with
  | zero => intro k h; simp [findOpener] at h
  | succ j ih =>
    intro k h
    rw [findOpener] at h
    split at h
    · split at h
      · split at h
        · injection h with h2
          omega
        · exact Nat.lt_succ_of_lt (ih h)
      · exact Nat.lt_succ_of_lt (ih h)
    · cases h

theorem setBottom_nodes (st : EmphState) (c : Char) (v : Int) :
    (setBottom st c v).nodes = st.nodes := by
  unfold setBottom
  split <;> rfl

theorem setBottom_delims (st : EmphState) (c : Char) (v : Int) :
    (setBottom st c v).delims = st.delims := by
  unfold setBottom
  split <;> rfl

theorem isDelimRunLiteral_ne_nil {lit : Str} (h : isDelimRunLiteral lit = true) :
    lit ≠ [] := by
  unfold isDelimRunLiteral at h
  intro hE
  subst hE
  simp at h

theorem delims_index_lt {st : EmphState} (hwf : WfDelims st) {i j : Nat}
    {a b : DelimEntry} (hij : i < j) (ha : st.delims[i]? = some a)
    (hb : st.delims[j]? = some b) : a.index < b.index := by
  obtain ⟨hj, hbe⟩ := List.getElem?_eq_some.mp hb
  obtain ⟨hi2, hae⟩ := List.getElem?_eq_some.mp ha
  have hp := List.pairwise_iff_getElem.mp hwf.1 i j hi2 hj hij
  rw [hae, hbe] at hp
  exact hp


theorem emphStep_spec {st st' : EmphState} (hwf : WfDelims st)
    (h : emphStep st = some st') :
    (st'.nodes = st.nodes ∧ st'.delims = st.delims ∧
      st'.closerIdx = st.closerIdx + 1 ∧ st.closerIdx < st.delims.length) ∨
    (∃ pre mid post olit clit olit2 clit2 nd1 ns1 o1 nd2 ns2 o2 eN n3,
      st.nodes = pre ++ Inline.text olit nd1 ns1 o1 :: mid ++
        Inline.text clit nd2 ns2 o2 :: post ∧
      olit2.length ≤ olit.length ∧ clit2.length < clit.length ∧
      (eN = Inline.emphasis mid ∨ eN = Inline.strong mid) ∧
      n3 = pre ++ (if olit2 = [] then [] else [Inline.text olit2 nd1 ns1 o1]) ++
        eN :: (if clit2 = [] then [] else [Inline.text clit2 nd2 ns2 o2]) ++ post ∧
      st'.nodes = buildDelimsNodes n3 ∧ st'.delims = buildDelimsEntries n3) := by
  unfold emphStep at h
  cases hc : st.delims[st.closerIdx]? with
  | none => simp only [hc] at h; exact Option.noConfusion h
  | some closer =>
    simp only [hc] at h
    have hlt : st.closerIdx < st.delims.length := (List.getElem?_eq_some.mp hc).1
    by_cases hcc : (!closer.run.canClose) = true
    · rw [if_pos hcc] at h
      obtain rfl := Option.some.inj h
      left
      exact ⟨rfl, rfl, rfl, hlt⟩
    · rw [if_neg hcc] at h
      cases hfo : findOpener st.delims closer.run (getBottom st closer.run.char)
          st.closerIdx with
      | none =>
        simp only [hfo] at h
        obtain rfl := Option.some.inj h
        left
        refine ⟨?_, ?_, rfl, hlt⟩
        · dsimp only
          split
          · exact setBottom_nodes st closer.run.char ((st.closerIdx : Int) - 1)
          · rfl
        · dsimp only
          split
          · exact setBottom_delims st closer.run.char ((st.closerIdx : Int) - 1)
          · rfl
      | some openerIdx =>
        simp only [hfo] at h
        cases ho : st.delims[openerIdx]? with
        | none =>
          simp only [ho] at h
          obtain rfl := Option.some.inj h
          left
          exact ⟨rfl, rfl, rfl, hlt⟩
        | some opener =>
          simp only [ho] at h
          right
          obtain ⟨olit, nd1, ns1, o1, hoi, holit, holen⟩ :=
            hwf.2 opener (List.getElem?_mem ho)
          obtain ⟨clit, nd2, ns2, o2, hci, hclit, hclen⟩ :=
            hwf.2 closer (List.getElem?_mem hc)
          have hidx : opener.index < closer.index :=
            delims_index_lt hwf (findOpener_lt hfo) ho hc
          obtain ⟨pre, mid, post, hsplit, hpre, hmid⟩ :=
            decomp_two st.nodes opener.index closer.index _ _ hidx hoi hci
          have holitne : olit ≠ [] := isDelimRunLiteral_ne_nil holit
          have hclitne : clit ≠ [] := isDelimRunLiteral_ne_nil hclit
          set k := if opener.run.length ≥ 2 ∧ closer.run.length ≥ 2 then 2 else 1
            with hk
          have hk1 : 1 ≤ k := by
            rw [hk]
            split <;> omega
          have hgo : getTextLit st.nodes opener.index = olit := by
            unfold getTextLit
            rw [hoi]
          have hgc : getTextLit st.nodes closer.index = clit := by
            unfold getTextLit
            rw [hci]
          rw [hgo, hgc] at h
          have hs1 : setTextLit st.nodes opener.index (olit.take (olit.length - k)) =
              pre ++ Inline.text (olit.take (olit.length - k)) nd1 ns1 o1 :: mid ++
                Inline.text clit nd2 ns2 o2 :: post := by
            unfold setTextLit
            simp only [hoi]
            rw [hsplit]
            rw [show pre ++ Inline.text olit nd1 ns1 o1 :: mid ++
                Inline.text clit nd2 ns2 o2 :: post =
                pre ++ Inline.text olit nd1 ns1 o1 ::
                (mid ++ Inline.text clit nd2 ns2 o2 :: post) from by simp]
            rw [set_at pre (mid ++ Inline.text clit nd2 ns2 o2 :: post) _ _ _ hpre.symm]
            simp
          rw [hs1] at h
          have hs2 : setTextLit
              (pre ++ Inline.text (olit.take (olit.length - k)) nd1 ns1 o1 :: mid ++
                Inline.text clit nd2 ns2 o2 :: post) closer.index (clit.drop k) =
              pre ++ Inline.text (olit.take (olit.length - k)) nd1 ns1 o1 :: mid ++
                Inline.text (clit.drop k) nd2 ns2 o2 :: post := by
            unfold setTextLit
            have hg2 : (pre ++ Inline.text (olit.take (olit.length - k)) nd1 ns1 o1 :: mid ++
                Inline.text clit nd2 ns2 o2 :: post)[closer.index]? =
                some (Inline.text clit nd2 ns2 o2) := by
              rw [show pre ++ Inline.text (olit.take (olit.length - k)) nd1 ns1 o1 :: mid ++
                  Inline.text clit nd2 ns2 o2 :: post =
                  (pre ++ Inline.text (olit.take (olit.length - k)) nd1 ns1 o1 :: mid) ++
                  Inline.text clit nd2 ns2 o2 :: post from by simp]
              exact get_at _ _ _ _ (by simp <;> omega)
            simp only [hg2]
            rw [set_at (pre ++ Inline.text (olit.take (olit.length - k)) nd1 ns1 o1 :: mid)
              post (Inline.text clit nd2 ns2 o2) (Inline.text (clit.drop k) nd2 ns2 o2)
              closer.index (by simp <;> omega)]
          rw [hs2] at h
          have ht1 : (pre ++ Inline.text (olit.take (olit.length - k)) nd1 ns1 o1 :: mid ++
              Inline.text (clit.drop k) nd2 ns2 o2 :: post).take (opener.index + 1) =
              pre ++ [Inline.text (olit.take (olit.length - k)) nd1 ns1 o1] := by
            rw [show pre ++ Inline.text (olit.take (olit.length - k)) nd1 ns1 o1 :: mid ++
                Inline.text (clit.drop k) nd2 ns2 o2 :: post =
                (pre ++ [Inline.text (olit.take (olit.length - k)) nd1 ns1 o1]) ++
                (mid ++ Inline.text (clit.drop k) nd2 ns2 o2 :: post) from by simp]
            exact take_at _ _ _ (by simp <;> omega)
          have ht2 : (pre ++ Inline.text (olit.take (olit.length - k)) nd1 ns1 o1 :: mid ++
              Inline.text (clit.drop k) nd2 ns2 o2 :: post).drop closer.index =
              Inline.text (clit.drop k) nd2 ns2 o2 :: post := by
            rw [show pre ++ Inline.text (olit.take (olit.length - k)) nd1 ns1 o1 :: mid ++
                Inline.text (clit.drop k) nd2 ns2 o2 :: post =
                (pre ++ Inline.text (olit.take (olit.length - k)) nd1 ns1 o1 :: mid) ++
                Inline.text (clit.drop k) nd2 ns2 o2 :: post from by simp]
            exact drop_at _ _ _ (by simp <;> omega)
          have ht3 : ((pre ++ Inline.text (olit.take (olit.length - k)) nd1 ns1 o1 :: mid ++
              Inline.text (clit.drop k) nd2 ns2 o2 :: post).take closer.index).drop
              (opener.index + 1) = mid := by
            rw [show pre ++ Inline.text (olit.take (olit.length - k)) nd1 ns1 o1 :: mid ++
                Inline.text (clit.drop k) nd2 ns2 o2 :: post =
                (pre ++ Inline.text (olit.take (olit.length - k)) nd1 ns1 o1 :: mid) ++
                Inline.text (clit.drop k) nd2 ns2 o2 :: post from by simp]
            rw [take_at _ _ _ (by simp <;> omega)]
            rw [show pre ++ Inline.text (olit.take (olit.length - k)) nd1 ns1 o1 :: mid =
                (pre ++ [Inline.text (olit.take (olit.length - k)) nd1 ns1 o1]) ++ mid
                from by simp]
            exact drop_at _ _ _ (by simp <;> omega)
          rw [ht1, ht2, ht3] at h
          have hc2 : (olit.take (olit.length - k)).length ≤ olit.length := by
            rw [List.length_take]
            omega
          have hc3 : (clit.drop k).length < clit.length := by
            rw [List.length_drop]
            have hcp : 0 < clit.length := List.length_pos.mpr hclitne
            omega
          by_cases hoE : olit.take (olit.length - k) = []
          · have hO : opener.run.length - k = 0 ∧ olit.take (olit.length - k) = [] := by
              refine ⟨?_, hoE⟩
              rcases List.take_eq_nil_iff.mp hoE with h0 | h0
              · rw [holen]
                exact h0
              · exact absurd h0 holitne
            simp only [if_pos hO] at h
            by_cases hcE : clit.drop k = []
            · have hC : closer.run.length - k = 0 ∧ clit.drop k = [] := by
                refine ⟨?_, hcE⟩
                have hd := List.drop_eq_nil_iff.mp hcE
                rw [hclen]
                omega
              simp only [if_pos hC] at h
              have he1 : ((pre ++ [Inline.text (olit.take (olit.length - k)) nd1 ns1 o1]) ++
                  (if opener.run.length ≥ 2 ∧ closer.run.length ≥ 2 then
                    Inline.strong mid else Inline.emphasis mid) ::
                  Inline.text (clit.drop k) nd2 ns2 o2 :: post).eraseIdx opener.index =
                  pre ++ (if opener.run.length ≥ 2 ∧ closer.run.length ≥ 2 then
                    Inline.strong mid else Inline.emphasis mid) ::
                  Inline.text (clit.drop k) nd2 ns2 o2 :: post := by
                rw [show (pre ++ [Inline.text (olit.take (olit.length - k)) nd1 ns1 o1]) ++
                    (if opener.run.length ≥ 2 ∧ closer.run.length ≥ 2 then
                      Inline.strong mid else Inline.emphasis mid) ::
                    Inline.text (clit.drop k) nd2 ns2 o2 :: post =
                    pre ++ Inline.text (olit.take (olit.length - k)) nd1 ns1 o1 ::
                    ((if opener.run.length ≥ 2 ∧ closer.run.length ≥ 2 then
                      Inline.strong mid else Inline.emphasis mid) ::
                    Inline.text (clit.drop k) nd2 ns2 o2 :: post) from by simp]
                exact erase_at _ _ _ _ hpre.symm
              rw [he1] at h
              have he2 : (pre ++ (if opener.run.length ≥ 2 ∧ closer.run.length ≥ 2 then
                  Inline.strong mid else Inline.emphasis mid) ::
                  Inline.text (clit.drop k) nd2 ns2 o2 :: post).eraseIdx (opener.index + 1) =
                  pre ++ (if opener.run.length ≥ 2 ∧ closer.run.length ≥ 2 then
                    Inline.strong mid else Inline.emphasis mid) :: post := by
                rw [show pre ++ (if opener.run.length ≥ 2 ∧ closer.run.length ≥ 2 then
                    Inline.strong mid else Inline.emphasis mid) ::
                    Inline.text (clit.drop k) nd2 ns2 o2 :: post =
                    (pre ++ [if opener.run.length ≥ 2 ∧ closer.run.length ≥ 2 then
                      Inline.strong mid else Inline.emphasis mid]) ++
                    Inline.text (clit.drop k) nd2 ns2 o2 :: post from by simp]
                rw [erase_at (pre ++ [if opener.run.length ≥ 2 ∧ closer.run.length ≥ 2 then
                  Inline.strong mid else Inline.emphasis mid]) post
                  (Inline.text (clit.drop k) nd2 ns2 o2) (opener.index + 1)
                  (by simp <;> omega)]
                simp
              rw [he2] at h
              obtain rfl := Option.some.inj h
              refine ⟨pre, mid, post, olit, clit, olit.take (olit.length - k),
                clit.drop k, nd1, ns1, o1, nd2, ns2, o2,
                (if opener.run.length ≥ 2 ∧ closer.run.length ≥ 2 then
                  Inline.strong mid else Inline.emphasis mid), _, hsplit, hc2, hc3,
                ?_, ?_, rfl, rfl⟩
              · split
                · exact Or.inr rfl
                · exact Or.inl rfl
              · rw [if_pos hoE, if_pos hcE]
                simp
            · have hCn : ¬(closer.run.length - k = 0 ∧ clit.drop k = []) :=
                fun hand => hcE hand.2
              simp only [if_neg hCn] at h
              have he1 : ((pre ++ [Inline.text (olit.take (olit.length - k)) nd1 ns1 o1]) ++
                  (if opener.run.length ≥ 2 ∧ closer.run.length ≥ 2 then
                    Inline.strong mid else Inline.emphasis mid) ::
                  Inline.text (clit.drop k) nd2 ns2 o2 :: post).eraseIdx opener.index =
                  pre ++ (if opener.run.length ≥ 2 ∧ closer.run.length ≥ 2 then
                    Inline.strong mid else Inline.emphasis mid) ::
                  Inline.text (clit.drop k) nd2 ns2 o2 :: post := by
                rw [show (pre ++ [Inline.text (olit.take (olit.length - k)) nd1 ns1 o1]) ++
                    (if opener.run.length ≥ 2 ∧ closer.run.length ≥ 2 then
                      Inline.strong mid else Inline.emphasis mid) ::
                    Inline.text (clit.drop k) nd2 ns2 o2 :: post =
                    pre ++ Inline.text (olit.take (olit.length - k)) nd1 ns1 o1 ::
                    ((if opener.run.length ≥ 2 ∧ closer.run.length ≥ 2 then
                      Inline.strong mid else Inline.emphasis mid) ::
                    Inline.text (clit.drop k) nd2 ns2 o2 :: post) from by simp]
                exact erase_at _ _ _ _ hpre.symm
              rw [he1] at h
              obtain rfl := Option.some.inj h
              refine ⟨pre, mid, post, olit, clit, olit.take (olit.length - k),
                clit.drop k, nd1, ns1, o1, nd2, ns2, o2,
                (if opener.run.length ≥ 2 ∧ closer.run.length ≥ 2 then
                  Inline.strong mid else Inline.emphasis mid), _, hsplit, hc2, hc3,
                ?_, ?_, rfl, rfl⟩
              · split
                · exact Or.inr rfl
                · exact Or.inl rfl
              · rw [if_pos hoE, if_neg hcE]
                simp
          · have hOn : ¬(opener.run.length - k = 0 ∧ olit.take (olit.length - k) = []) :=
              fun hand => hoE hand.2
            simp only [if_neg hOn] at h
            by_cases hcE : clit.drop k = []
            · have hC : closer.run.length - k = 0 ∧ clit.drop k = [] := by
                refine ⟨?_, hcE⟩
                have hd := List.drop_eq_nil_iff.mp hcE
                rw [hclen]
                omega
              simp only [if_pos hC] at h
              have he2 : ((pre ++ [Inline.text (olit.take (olit.length - k)) nd1 ns1 o1]) ++
                  (if opener.run.length ≥ 2 ∧ closer.run.length ≥ 2 then
                    Inline.strong mid else Inline.emphasis mid) ::
                  Inline.text (clit.drop k) nd2 ns2 o2 :: post).eraseIdx (opener.index + 2) =
                  (pre ++ [Inline.text (olit.take (olit.length - k)) nd1 ns1 o1]) ++
                  (if opener.run.length ≥ 2 ∧ closer.run.length ≥ 2 then
                    Inline.strong mid else Inline.emphasis mid) :: post := by
                rw [show (pre ++ [Inline.text (olit.take (olit.length - k)) nd1 ns1 o1]) ++
                    (if opener.run.length ≥ 2 ∧ closer.run.length ≥ 2 then
                      Inline.strong mid else Inline.emphasis mid) ::
                    Inline.text (clit.drop k) nd2 ns2 o2 :: post =
                    ((pre ++ [Inline.text (olit.take (olit.length - k)) nd1 ns1 o1]) ++
                    [if opener.run.length ≥ 2 ∧ closer.run.length ≥ 2 then
                      Inline.strong mid else Inline.emphasis mid]) ++
                    Inline.text (clit.drop k) nd2 ns2 o2 :: post from by simp]
                rw [erase_at ((pre ++ [Inline.text (olit.take (olit.length - k)) nd1 ns1 o1]) ++
                  [if opener.run.length ≥ 2 ∧ closer.run.length ≥ 2 then
                    Inline.strong mid else Inline.emphasis mid]) post
                  (Inline.text (clit.drop k) nd2 ns2 o2) (opener.index + 2)
                  (by simp <;> omega)]
                simp
              rw [he2] at h
              obtain rfl := Option.some.inj h
              refine ⟨pre, mid, post, olit, clit, olit.take (olit.length - k),
                clit.drop k, nd1, ns1, o1, nd2, ns2, o2,
                (if opener.run.length ≥ 2 ∧ closer.run.length ≥ 2 then
                  Inline.strong mid else Inline.emphasis mid), _, hsplit, hc2, hc3,
                ?_, ?_, rfl, rfl⟩
              · split
                · exact Or.inr rfl
                · exact Or.inl rfl
              · rw [if_neg hoE, if_pos hcE]
                simp
            · have hCn : ¬(closer.run.length - k = 0 ∧ clit.drop k = []) :=
                fun hand => hcE hand.2
              simp only [if_neg hCn] at h
              obtain rfl := Option.some.inj h
              refine ⟨pre, mid, post, olit, clit, olit.take (olit.length - k),
                clit.drop k, nd1, ns1, o1, nd2, ns2, o2,
                (if opener.run.length ≥ 2 ∧ closer.run.length ≥ 2 then
                  Inline.strong mid else Inline.emphasis mid), _, hsplit, hc2, hc3,
                ?_, ?_, rfl, rfl⟩
              · split
                · exact Or.inr rfl
                · exact Or.inl rfl
              · rw [if_neg hoE, if_neg hcE]
                simp



theorem emphStep_B_bounds {st st' : EmphState}
    (hB : ∃ pre mid post olit clit olit2 clit2 nd1 ns1 o1 nd2 ns2 o2 eN n3,
      st.nodes = pre ++ Inline.text olit nd1 ns1 o1 :: mid ++
        Inline.text clit nd2 ns2 o2 :: post ∧
      olit2.length ≤ olit.length ∧ clit2.length < clit.length ∧
      (eN = Inline.emphasis mid ∨ eN = Inline.strong mid) ∧
      n3 = pre ++ (if olit2 = [] then [] else [Inline.text olit2 nd1 ns1 o1]) ++
        eN :: (if clit2 = [] then [] else [Inline.text clit2 nd2 ns2 o2]) ++ post ∧
      st'.nodes = buildDelimsNodes n3 ∧ st'.delims = buildDelimsEntries n3) :
    WfDelims st' ∧ textCharCount st'.nodes + 1 ≤ textCharCount st.nodes ∧
    st'.nodes.length ≤ st.nodes.length + 1 ∧
    st'.delims.length ≤ st'.nodes.length := by
  obtain ⟨pre, mid, post, olit, clit, olit2, clit2, nd1, ns1, o1, nd2, ns2, o2, eN, n3,
    h1, h2, h3, h4, h5, h6, h7⟩ := hB
  refine ⟨wf_build h6 h7, ?_, ?_, ?_⟩
  · rw [h6, textCharCount_buildDelimsNodes, h5, h1]
    rcases h4 with h | h <;> subst h <;> split_ifs <;>
      simp [textCharCount] <;> omega
  · rw [h6, length_buildDelimsNodes, h5, h1]
    split_ifs <;> simp <;> omega
  · rw [h6, h7, length_buildDelimsNodes]
    exact length_buildDelimsEntries_le n3

theorem emphLoop_total : ∀ (fuel M : Nat) (st : EmphState), WfDelims st →
    st.delims.length ≤ st.nodes.length →
    st.nodes.length + textCharCount st.nodes ≤ M →
    textCharCount st.nodes * (M + 2) + (st.delims.length + 1 - st.closerIdx) < fuel →
    (emphLoop fuel st).isSome = true := by
  intro fuel
  induction fuel with
  | zero => intro M st _ _ _ hm; omega
  | succ fuel ih =>
    intro M st hwf hdn hsum hm
    rw [emphLoop]
    cases hstep : emphStep st with
    | none => rfl
    | some st' =>
      rcases emphStep_spec hwf hstep with ⟨hn, hd, hci, hlt⟩ | hB
      · apply ih M st' (wf_congr hn hd hwf)
        · rw [hn, hd]
          exact hdn
        · rw [hn]
          exact hsum
        · rw [hn, hd, hci]
          generalize textCharCount st.nodes * (M + 2) = P at *
          omega
      · obtain ⟨hwf', htcc, hlen, hdl⟩ := emphStep_B_bounds hB
        have hsum' : st'.nodes.length + textCharCount st'.nodes ≤ M := by omega
        apply ih M st' hwf' hdl hsum'
        have e1 : textCharCount st'.nodes * (M + 2) ≤
            (textCharCount st.nodes - 1) * (M + 2) :=
          Nat.mul_le_mul_right _ (by omega)
        have e2 : (textCharCount st.nodes - 1) * (M + 2) + (M + 2) =
            textCharCount st.nodes * (M + 2) := by
          have h1t : 1 ≤ textCharCount st.nodes := by omega
          calc (textCharCount st.nodes - 1) * (M + 2) + (M + 2)
              = (textCharCount st.nodes - 1 + 1) * (M + 2) := by rw [Nat.succ_mul]
            _ = textCharCount st.nodes * (M + 2) := by rw [Nat.sub_add_cancel h1t]
        generalize textCharCount st'.nodes * (M + 2) = P at *
        generalize (textCharCount st.nodes - 1) * (M + 2) = Q at *
        generalize textCharCount st.nodes * (M + 2) = R at *
        omega

/-- Claim C5: the emphasis-resolution loop of `processEmphasis` genuinely
terminates: with the fuel that `processEmphasis` passes, the loop always
reaches the natural end of its closer scan (`emphStep` reporting
completion) rather than exhausting the fuel, for every top-level inline
node list.  Together with the structurally terminating rest of the
pipeline this confirms that parsing is total. -/
theorem C5_claim (nodes : List Inline) :
    (emphLoop ((textCharCount nodes + 2) * (textCharCount nodes + nodes.length + 2))
      (initEmphState nodes)).isSome = true := by
  have hn : (initEmphState nodes).nodes = buildDelimsNodes nodes := rfl
  have hd : (initEmphState nodes).delims = buildDelimsEntries nodes := rfl
  apply emphLoop_total _ (textCharCount nodes + nodes.length)
  · exact wf_build hn hd
  · rw [hn, hd, length_buildDelimsNodes]
    exact length_buildDelimsEntries_le nodes
  · rw [hn, length_buildDelimsNodes, textCharCount_buildDelimsNodes]
    omega
  · rw [hn, hd, textCharCount_buildDelimsNodes]
    have hD : (buildDelimsEntries nodes).length ≤ nodes.length :=
      length_buildDelimsEntries_le nodes
    have hini : (initEmphState nodes).closerIdx = 0 := rfl
    rw [hini]
    have hmul : (textCharCount nodes + 2) * (textCharCount nodes + nodes.length + 2) =
        textCharCount nodes * (textCharCount nodes + nodes.length + 2) +
        2 * (textCharCount nodes + nodes.length + 2) := by
      rw [Nat.add_mul]
    rw [hmul]
    generalize textCharCount nodes * (textCharCount nodes + nodes.length + 2) = P
    omega


theorem isEmptyTextNode_setOrig (n : Inline) :
    isEmptyTextNode (if delimEligible n then setOrigLength n else n) =
      isEmptyTextNode n := by
  split
  · cases n <;> rfl
  · rfl

theorem deepGoodI_setOrig (n : Inline) :
    deepGoodI (if delimEligible n then setOrigLength n else n) = deepGoodI n := by
  split
  · cases n <;> rfl
  · rfl

theorem noEmptyTop_buildDelimsNodes (l : List Inline) :
    noEmptyTop (buildDelimsNodes l) = noEmptyTop l := by
  induction l with
  | nil => rfl
  | cons n rest ih =>
    have h1 : buildDelimsNodes (n :: rest) =
        (if delimEligible n then setOrigLength n else n) :: buildDelimsNodes rest := rfl
    rw [h1]
    simp only [noEmptyTop, List.all_cons] at *
    rw [isEmptyTextNode_setOrig, ih]

theorem deepGoodL_buildDelimsNodes (l : List Inline) :
    deepGoodL (buildDelimsNodes l) = deepGoodL l := by
  induction l with
  | nil => rfl
  | cons n rest ih =>
    have h1 : buildDelimsNodes (n :: rest) =
        (if delimEligible n then setOrigLength n else n) :: buildDelimsNodes rest := rfl
    rw [h1]
    simp only [deepGoodL] at *
    rw [deepGoodI_setOrig, ih]

theorem deepGoodL_eq_all (l : List Inline) : deepGoodL l = l.all deepGoodI := by
  induction l with
  | nil => rfl
  | cons n rest ih => simp only [deepGoodL, List.all_cons, ih]

theorem mem_ite_nil_singleton {c : Prop} {inst : Decidable c} {a x : Inline}
    (hx : x ∈ (@ite _ c inst ([] : List Inline) [a])) : x = a ∧ ¬c := by
  split at hx
  · cases hx
  · exact ⟨List.mem_singleton.mp hx, by assumption⟩

theorem emphStep_B_good {st st' : EmphState}
    (hB : ∃ pre mid post olit clit olit2 clit2 nd1 ns1 o1 nd2 ns2 o2 eN n3,
      st.nodes = pre ++ Inline.text olit nd1 ns1 o1 :: mid ++
        Inline.text clit nd2 ns2 o2 :: post ∧
      olit2.length ≤ olit.length ∧ clit2.length < clit.length ∧
      (eN = Inline.emphasis mid ∨ eN = Inline.strong mid) ∧
      n3 = pre ++ (if olit2 = [] then [] else [Inline.text olit2 nd1 ns1 o1]) ++
        eN :: (if clit2 = [] then [] else [Inline.text clit2 nd2 ns2 o2]) ++ post ∧
      st'.nodes = buildDelimsNodes n3 ∧ st'.delims = buildDelimsEntries n3)
    (hne : noEmptyTop st.nodes = true) (hdg : deepGoodL st.nodes = true) :
    noEmptyTop st'.nodes = true ∧ deepGoodL st'.nodes = true := by
  obtain ⟨pre, mid, post, olit, clit, olit2, clit2, nd1, ns1, o1, nd2, ns2, o2, eN, n3,
    h1, h2, h3, h4, h5, h6, h7⟩ := hB
  have hTop : ∀ y ∈ st.nodes, (!isEmptyTextNode y) = true := by
    unfold noEmptyTop at hne
    exact List.all_eq_true.mp hne
  have hDeep : ∀ y ∈ st.nodes, deepGoodI y = true := by
    rw [deepGoodL_eq_all] at hdg
    exact List.all_eq_true.mp hdg
  have hsub : ∀ y, (y ∈ pre ∨ y ∈ mid ∨ y ∈ post) → y ∈ st.nodes := by
    intro y hy
    rw [h1]
    simp only [List.mem_append, List.mem_cons]
    tauto
  have hmidTop : noEmptyTop mid = true := by
    unfold noEmptyTop
    rw [List.all_eq_true]
    intro y hy
    exact hTop y (hsub y (Or.inr (Or.inl hy)))
  have hmidDeep : deepGoodL mid = true := by
    rw [deepGoodL_eq_all, List.all_eq_true]
    intro y hy
    exact hDeep y (hsub y (Or.inr (Or.inl hy)))
  have heNa : (!isEmptyTextNode eN) = true := by
    rcases h4 with h | h <;> subst h <;> rfl
  have heNb : deepGoodI eN = true := by
    rcases h4 with h | h <;> subst h <;>
      simp only [deepGoodI, Bool.and_eq_true] <;> exact ⟨hmidTop, hmidDeep⟩
  constructor
  · rw [h6, noEmptyTop_buildDelimsNodes, h5]
    unfold noEmptyTop
    rw [List.all_eq_true]
    intro x hx
    rcases List.mem_append.mp hx with hx1 | hxpost
    · rcases List.mem_append.mp hx1 with hx2 | hx3
      · rcases List.mem_append.mp hx2 with hxpre | hxif1
        · exact hTop x (hsub x (Or.inl hxpre))
        · obtain ⟨rfl, hoE⟩ := mem_ite_nil_singleton hxif1
          cases olit2 with
          | nil => exact absurd rfl hoE
          | cons c cs => rfl
      · rcases List.mem_cons.mp hx3 with rfl | hxif2
        · exact heNa
        · obtain ⟨rfl, hcE⟩ := mem_ite_nil_singleton hxif2
          cases clit2 with
          | nil => exact absurd rfl hcE
          | cons c cs => rfl
    · exact hTop x (hsub x (Or.inr (Or.inr hxpost)))
  · rw [h6, deepGoodL_buildDelimsNodes, h5]
    rw [deepGoodL_eq_all, List.all_eq_true]
    intro x hx
    rcases List.mem_append.mp hx with hx1 | hxpost
    · rcases List.mem_append.mp hx1 with hx2 | hx3
      · rcases List.mem_append.mp hx2 with hxpre | hxif1
        · exact hDeep x (hsub x (Or.inl hxpre))
        · obtain ⟨rfl, hoE⟩ := mem_ite_nil_singleton hxif1
          rfl
      · rcases List.mem_cons.mp hx3 with rfl | hxif2
        · exact heNb
        · obtain ⟨rfl, hcE⟩ := mem_ite_nil_singleton hxif2
          rfl
    · exact hDeep x (hsub x (Or.inr (Or.inr hxpost)))

theorem emphLoop_good : ∀ (fuel : Nat) (st stF : EmphState), WfDelims st →
    noEmptyTop st.nodes = true → deepGoodL st.nodes = true →
    emphLoop fuel st = some stF →
    noEmptyTop stF.nodes = true ∧ deepGoodL stF.nodes = true := by
  intro fuel
  induction fuel with
  | zero =>
    intro st stF _ _ _ h
    simp [emphLoop] at h
  | succ fuel ih =>
    intro st stF hwf hne hdg h
    rw [emphLoop] at h
    cases hstep : emphStep st with
    | none =>
      simp only [hstep] at h
      obtain rfl := Option.some.inj h
      exact ⟨hne, hdg⟩
    | some st' =>
      simp only [hstep] at h
      rcases emphStep_spec hwf hstep with ⟨hn, hd, _, _⟩ | hB
      · exact ih st' stF (wf_congr hn hd hwf) (by rw [hn]; exact hne)
          (by rw [hn]; exact hdg) h
      · obtain ⟨g1, g2⟩ := emphStep_B_good hB hne hdg
        exact ih st' stF (emphStep_B_bounds hB).1 g1 g2 h


/-- Claim C6, counterexample: the input `*&#42;` produces an emphasis node
with NO children at all (`<p><em></em></p>`): the entity-decoded `*`
becomes a delimiter-ineligible text node that still participates as the
closer, the spliced content between opener and closer is empty, and both
delimiter nodes are consumed entirely.  This refutes the claim that every
emphasis node has at least one child. -/
theorem C6_counterexample :
    mdParse (L "*&#42;") = [Block.paragraph none [Inline.emphasis []]] ∧
    markdown (L "*&#42;") = L "<p><em></em></p>\n" :=
  ⟨rfl, rfl⟩

/-- Claim C6, amended: the half of the claim that survives is the
empty-text-child invariant.  If the top-level node list entering
`processEmphasis` has no empty-literal text node at the top level and no
emphasis/strong/strikethrough node anywhere in it has an empty-literal
text child, then the output of `processEmphasis` satisfies both
properties as well: the splice keeps the shortened delimiter literals
only when they are non-empty, and the final pass filters empty text
nodes out of the top level.  (The "at least one child" half is refuted
by the counterexample.) -/
theorem C6_amended (nodes : List Inline)
    (h1 : noEmptyTop nodes = true) (h2 : deepGoodL nodes = true) :
    noEmptyTop (processEmphasis nodes) = true ∧
    deepGoodL (processEmphasis nodes) = true := by
  have hn : (initEmphState nodes).nodes = buildDelimsNodes nodes := rfl
  have hd : (initEmphState nodes).delims = buildDelimsEntries nodes := rfl
  have hg1 : noEmptyTop (initEmphState nodes).nodes = true := by
    rw [hn, noEmptyTop_buildDelimsNodes]
    exact h1
  have hg2 : deepGoodL (initEmphState nodes).nodes = true := by
    rw [hn, deepGoodL_buildDelimsNodes]
    exact h2
  have hfilter : ∀ (l : List Inline), deepGoodL l = true →
      noEmptyTop (l.filter (fun n => !isEmptyTextNode n)) = true ∧
      deepGoodL (l.filter (fun n => !isEmptyTextNode n)) = true := by
    intro l hb
    constructor
    · unfold noEmptyTop
      rw [List.all_eq_true]
      intro x hx
      exact (List.mem_filter.mp hx).2
    · rw [deepGoodL_eq_all, List.all_eq_true]
      rw [deepGoodL_eq_all, List.all_eq_true] at hb
      intro x hx
      exact hb x (List.mem_filter.mp hx).1
  unfold processEmphasis
  dsimp only
  by_cases hE : (initEmphState nodes).delims.isEmpty = true
  · simp only [if_pos hE]
    exact ⟨hg1, hg2⟩
  · simp only [if_neg hE]
    cases heq : emphLoop ((textCharCount nodes + 2) *
        (textCharCount nodes + nodes.length + 2)) (initEmphState nodes) with
    | some stF =>
      obtain ⟨g1, g2⟩ := emphLoop_good _ _ _ (wf_build hn hd) hg1 hg2 heq
      exact hfilter _ g2
    | none => exact hfilter _ hg2

/-- Claim C6, witness: a concrete run of the amended theorem on the
delimiter sequence `*`, `a`, `*`, which matches into a one-child emphasis
node and satisfies both goodness properties. -/
theorem C6_amended_witness :
    noEmptyTop [Inline.text (L "*") false false none, Inline.text (L "a") false false none,
      Inline.text (L "*") false false none] = true ∧
    deepGoodL [Inline.text (L "*") false false none, Inline.text (L "a") false false none,
      Inline.text (L "*") false false none] = true ∧
    (noEmptyTop (processEmphasis [Inline.text (L "*") false false none,
        Inline.text (L "a") false false none,
        Inline.text (L "*") false false none]) = true ∧
      deepGoodL (processEmphasis [Inline.text (L "*") false false none,
        Inline.text (L "a") false false none,
        Inline.text (L "*") false false none]) = true) :=
  ⟨by decide, by decide, C6_amended _ (by decide) (by decide)⟩

end Emdp
